import Mathlib

/-!
# issuesheetApp: issue-sheet numbering and the issued-drawings list

A shallow embedding of `src/util/nextIssueSheetNumber.js`, `src/models/Counter.js`,
`src/models/IssueSheet.js`, `src/routes/IssueSheet.js`, `src/models/DrawingRegister.js`,
`src/routes/Categories.js`, `src/routes/DrawingRegister.js`, `src/models/Users.js`,
`src/routes/User.js` and the start-up handler of `src/server.js`.

Conventions of the embedding.

* A MongoDB collection is the list of its documents in natural (insertion) order.
  The database is passed explicitly: an operation takes a `Store` and returns the
  new `Store` together with its result.
* `await` is sequential composition; a rejected promise or a thrown exception is
  `Except.error`.
* A JavaScript number is an IEEE double. The numbers of this program are counts,
  so the embedding keeps the integer-valued ones, as `Int`, and an addition
  (`$inc`, `+=`) rounds the exact sum to the nearest double, ties to even
  (`jsAdd`): it is exact up to 2^53 in magnitude and not beyond. Fractions, `NaN`
  and the infinities are outside the embedding.
* Mongoose builds a document from its stored form with the schema defaults
  filled in (`IssueSheet.hydrate`), and `save()` validates the document before
  it writes.
* An `ObjectId` is its 12 bytes, kept as 24 hexadecimal digits. `toString()` prints
  them in lower case; casting a string to an `ObjectId` accepts exactly the strings
  of 24 hexadecimal digits, in either case.
* Fresh identifiers produced by the driver are inputs of the operation that
  needs them (`Env`).
* A request body is the JSON object its route documents, read against the schema.
* Schema fields of an embedded `drawingsIssued` entry are taken as present
  (`drawing` an `ObjectId`, `copies` a number), as the schema types them.
-/

namespace IssueSheetApp

/-! ## Identifiers and JavaScript values -/

/-- An ObjectId: twelve bytes, stored as 24 hexadecimal digits. -/
structure ObjectId where
  nibbles : List (Fin 16)
  size_eq : nibbles.length = 24
deriving DecidableEq

/-- The lower-case hexadecimal digit of a nibble. -/
def hexChar (n : Fin 16) : Char :=
  if n.val < 10 then Char.ofNat (48 + n.val) else Char.ofNat (87 + n.val)

/-- The value of a hexadecimal digit, lower or upper case. -/
def hexVal (c : Char) : Option (Fin 16) :=
  let n := c.toNat
  if 48 ≤ n ∧ n ≤ 57 then some (Fin.ofNat (n - 48))
  else if 97 ≤ n ∧ n ≤ 102 then some (Fin.ofNat (n - 87))
  else if 65 ≤ n ∧ n ≤ 70 then some (Fin.ofNat (n - 55))
  else none

/-- Reads a list of hexadecimal digits; `none` if one character is not a digit. -/
def parseHex : List Char → Option (List (Fin 16))
  | [] => some []
  | c :: cs =>
    match hexVal c, parseHex cs with
    | some n, some ns => some (n :: ns)
    | _, _ => none

/-- The method `ObjectId.prototype.toString()`: the 24 lower-case hexadecimal digits. -/
def ObjectId.toHexString (o : ObjectId) : String :=
  String.mk (o.nibbles.map hexChar)

/-- Mongoose's cast of a string to an ObjectId (used for `_id` arguments of
`findById...` and for `ObjectId`-typed schema paths): `none` is a cast error. -/
def castObjectId (s : String) : Option ObjectId :=
  match parseHex s.data with
  | some ns => if h : ns.length = 24 then some ⟨ns, h⟩ else none
  | none => none

/-- The JavaScript values that the handlers compare with `===`. -/
inductive JsValue
  | str (s : String)
  | oid (o : ObjectId)
deriving DecidableEq

/-- The strict equality `v === s` where the right operand is a string primitive
(a path parameter or a string of the JSON body): true only for a string
primitive with the same characters; an object is never `===` to a string. -/
def JsValue.strictEqStr : JsValue → String → Bool
  | .str a, s => a == s
  | .oid _, _ => false

/-- The number of binary digits of `m` beyond the 53rd (`fuel` bounds the
search; `m` itself is always enough). -/
def excessBits : Nat → Nat → Nat
  | 0, _ => 0
  | fuel + 1, m => if m < 2 ^ 53 then 0 else excessBits fuel (m / 2) + 1

/-- Rounds a natural number to the nearest one with at most 53 significant binary
digits, a tie going to the one whose last kept digit is even: the magnitudes an
IEEE double holds. -/
def roundNat (m : Nat) : Nat :=
  let e := excessBits m m
  let q := m / 2 ^ e
  let r := m % 2 ^ e
  if 2 * r < 2 ^ e ∨ (2 * r = 2 ^ e ∧ q % 2 = 0) then q * 2 ^ e else (q + 1) * 2 ^ e

/-- The double nearest to an integer (round to nearest, ties to even). -/
def toDouble (n : Int) : Int :=
  if n < 0 then -(roundNat n.natAbs : Int) else (roundNat n.natAbs : Int)

/-- The JavaScript sum `a + b` of two integer-valued numbers, which is also what
MongoDB's `$inc` computes on a double: the exact sum rounded to a double (sums
beyond the largest finite double, where the source gives an infinity, are
outside the embedding). -/
def jsAdd (a b : Int) : Int := toDouble (a + b)

/-- The method `Array.prototype.findIndex`; `none` stands for the result `-1`. -/
def findIndex {α : Type} (p : α → Bool) : List α → Option Nat
  | [] => none
  | x :: xs => if p x then some 0 else (findIndex p xs).map (· + 1)

/-- Applies `f` to the element at index `i` (`arr[i] = f(arr[i])`). -/
def modifyAt {α : Type} (f : α → α) : Nat → List α → List α
  | _, [] => []
  | 0, x :: xs => f x :: xs
  | i + 1, x :: xs => x :: modifyAt f i xs

/-- The call `arr.splice(i, 1)`: removes the element at index `i`. -/
def splice1 {α : Type} : Nat → List α → List α
  | _, [] => []
  | 0, _ :: xs => xs
  | i + 1, x :: xs => x :: splice1 i xs

/-- Replaces the first element satisfying `p` by `y` (a single-document write). -/
def replaceFirst {α : Type} (p : α → Bool) (y : α) : List α → List α
  | [] => []
  | x :: xs => if p x then y :: xs else x :: replaceFirst p y xs

/-- Removes the first element satisfying `p` (a single-document delete). -/
def removeFirst {α : Type} (p : α → Bool) : List α → List α
  | [] => []
  | x :: xs => if p x then xs else x :: removeFirst p xs

/-! ## Documents -/

/-- A Counter document (`src/models/Counter.js`): `issueSheetNumber: { type: Number, default: 1 }`. -/
structure Counter where
  _id : ObjectId
  issueSheetNumber : Int := 1
deriving DecidableEq

/-- An entry of `drawingsIssued`: `{ drawing: ObjectId (ref Drawing), copies: Number }`
with the `_id` Mongoose gives to every embedded document. -/
structure DrawingIssued where
  _id : ObjectId
  drawing : ObjectId
  copies : Int
deriving DecidableEq

/-- The nested `issuedBy` / `receiveBy` object; dates are milliseconds. -/
structure Signatory where
  name : Option String := none
  signature : Option String := none
  date : Option Int := none
deriving DecidableEq

/-- An IssueSheet document (`src/models/IssueSheet.js`, `issueSheetSchema`; the `timestamps` option's
`createdAt`/`updatedAt` are not modelled). -/
structure IssueSheet where
  _id : ObjectId
  issueSheetNumber : Option Int := none
  to_ : Option String := none
  attention : Option String := none
  client : Option String := none
  projectName : Option String := none
  projectNumber : Option Int := none
  drawingsIssued : List DrawingIssued := []
  remarks : Option String := none
  issuedFor : Option String := none
  media : Option String := none
  issuedBy : Signatory := {}
  receiveBy : Signatory := {}
  isSaved : Bool := false
deriving DecidableEq

/-- A Drawing document (`src/models/DrawingRegister.js`, `drawingSchema`);
`revisions` has the default 0. -/
structure Drawing where
  _id : ObjectId
  drawingNumber : Option String := none
  projectNumber : Option String := none
  description : Option String := none
  title : Option String := none
  size : Option String := none
  revisions : Int := 0
deriving DecidableEq

/-- A Category document (`categorySchema`): `drawings` lists Drawing identifiers. -/
structure Category where
  _id : ObjectId
  title : Option String := none
  description : Option String := none
  drawings : List ObjectId := []
deriving DecidableEq

/-- A Register document (`registerSchema`): `categories` lists Category
identifiers; dates are milliseconds. -/
structure Register where
  _id : ObjectId
  projectName : Option String := none
  projectNumber : Option Int := none
  projectDescipline : Option String := none
  projectEngineers : List String := []
  commencementDate : Option Int := none
  completionDate : Option Int := none
  categories : List ObjectId := []
deriving DecidableEq

/-- A User document (`src/models/Users.js`, `userSchema`); `role` has the
default "user". -/
structure User where
  _id : ObjectId
  firstname : Option String := none
  lastname : Option String := none
  password : Option String := none
  email : Option String := none
  role : Option String := some "user"
  department : Option String := none
  signature : Option String := none
deriving DecidableEq

/-- The database: one list per collection. -/
structure Store where
  counters : List Counter := []
  issueSheets : List IssueSheet := []
  drawings : List Drawing := []
  categories : List Category := []
  registers : List Register := []
  users : List User := []
deriving DecidableEq

/-- What a handler can throw. -/
inductive Exn
  | typeError
  | castError
  | validationError
deriving DecidableEq

deriving instance DecidableEq for Except

/-! ## The sequence allocator (`src/util/nextIssueSheetNumber.js`) -/

/-- The query `Counter.find()`: every Counter document, in collection order. -/
def Counter.find (db : Store) : List Counter := db.counters

/-- The call `Counter.findByIdAndUpdate(id, { $inc: { issueSheetNumber: 1 } })` with no
options: one atomic increment of the document with this `_id`, in the arithmetic
of doubles. The result is the document as it was BEFORE the update (Mongoose
returns the updated document only under `{ new: true }`), or `none` (JavaScript
`null`) if no document matches. -/
def Counter.findByIdAndUpdateInc (db : Store) (id : ObjectId) : Option Counter × Store :=
  match db.counters.find? (fun c => c._id == id) with
  | none => (none, db)
  | some c =>
    let updated : Counter := { c with issueSheetNumber := jsAdd c.issueSheetNumber 1 }
    (some c, { db with counters := replaceFirst (fun c => c._id == id) updated db.counters })

/-- The function `nextIssueSheetNumber` of `src/util/nextIssueSheetNumber.js`:
the returned value (or the exception thrown) and the database afterwards.
`counter_db[0]._id` throws a TypeError when `counter_db` is empty, and so would
`counter.issueSheetNumber` on `null`. -/
def nextIssueSheetNumber (db : Store) : Except Exn Int × Store :=
  let counter_db := Counter.find db
  match counter_db.head? with
  | none => (.error .typeError, db)
  | some c0 =>
    match Counter.findByIdAndUpdateInc db c0._id with
    | (none, db1) => (.error .typeError, db1)
    | (some counter, db1) => (.ok counter.issueSheetNumber, db1)

/-- The value held by the Counter (the first Counter document). -/
def counterValue (db : Store) : Option Int :=
  db.counters.head?.map (·.issueSheetNumber)

/-! ## The issue-sheet routes (`src/routes/IssueSheet.js`) -/

/-- An element of `drawingsIssued` as a JSON body carries it. -/
structure DrawingIssuedBody where
  drawing : String
  copies : Int
deriving DecidableEq

/-- The nested `issuedBy` / `receiveBy` object of a JSON body. -/
structure SignatoryBody where
  name : Option String := none
  signature : Option String := none
  date : Option Int := none
deriving DecidableEq

/-- The JSON body of `POST /issue-sheets` and `PUT /issue-sheets/:id`, read
against the schema: every field may be absent (`none`). -/
structure IssueSheetBody where
  issueSheetNumber : Option Int := none
  to_ : Option String := none
  attention : Option String := none
  client : Option String := none
  projectName : Option String := none
  projectNumber : Option Int := none
  drawingsIssued : Option (List DrawingIssuedBody) := none
  remarks : Option String := none
  issuedFor : Option String := none
  media : Option String := none
  issuedBy : Option SignatoryBody := none
  receiveBy : Option SignatoryBody := none
  isSaved : Option Bool := none
deriving DecidableEq

/-- What the environment supplies to one request: the identifier of a new
document, the identifiers of new embedded documents (by position), and the value
`Date.now()` had when the schema was defined (the default of the two dates). -/
structure Env where
  newId : ObjectId
  subId : Nat → ObjectId
  schemaDate : Int

/-- The JSON payload of a response. -/
inductive Payload
  | sheet (s : IssueSheet)
  | message (m : String)
  | error (m : String)
  | thrown (e : Exn)
  | messageSheet (m : String) (s : IssueSheet)
  | category (c : Category)
  | messageCategory (m : String) (c : Category)
  | register (r : Register)
  | drawings (ds : List Drawing)
  | user (u : User)
deriving DecidableEq

/-- An HTTP response: status code and JSON payload. -/
structure Response where
  status : Nat
  body : Payload
deriving DecidableEq

/-- Casts the elements of a `drawingsIssued` array, position `i` onwards; `none`
when one `drawing` is not an ObjectId. -/
def castDrawingsIssued (subId : Nat → ObjectId) :
    Nat → List DrawingIssuedBody → Option (List DrawingIssued)
  | _, [] => some []
  | i, e :: es =>
    match castObjectId e.drawing, castDrawingsIssued subId (i + 1) es with
    | some d, some rest => some ({ _id := subId i, drawing := d, copies := e.copies } :: rest)
    | _, _ => none

/-- The validator of `media: { type: String, enum: ['electronic', 'physical'] }`;
an absent value passes. -/
def mediaValid : Option String → Bool
  | none => true
  | some m => m == "electronic" || m == "physical"

/-- A nested `issuedBy` / `receiveBy` object of a new document: the body's
fields, `date` defaulting to the schema's default. -/
def Signatory.ofBody (schemaDate : Int) : Option SignatoryBody → Signatory
  | none => { date := some schemaDate }
  | some b => { name := b.name, signature := b.signature, date := some (b.date.getD schemaDate) }

/-- The document that `new IssueSheet(data)` builds: the body's fields, the
cast `drawingsIssued`, and the schema defaults. -/
def IssueSheet.ofBody (env : Env) (data : IssueSheetBody) (entries : List DrawingIssued) :
    IssueSheet :=
  { _id := env.newId
    issueSheetNumber := data.issueSheetNumber
    to_ := data.to_
    attention := data.attention
    client := data.client
    projectName := data.projectName
    projectNumber := data.projectNumber
    drawingsIssued := entries
    remarks := data.remarks
    issuedFor := data.issuedFor
    media := data.media
    issuedBy := Signatory.ofBody env.schemaDate data.issuedBy
    receiveBy := Signatory.ofBody env.schemaDate data.receiveBy
    isSaved := data.isSaved.getD false }

/-- The call `IssueSheet.create(data)`: builds the document (casts, defaults), validates
it and inserts it at the end of the collection. -/
def IssueSheet.create (env : Env) (db : Store) (data : IssueSheetBody) :
    Except Exn IssueSheet × Store :=
  match castDrawingsIssued env.subId 0 (data.drawingsIssued.getD []) with
  | none => (.error .validationError, db)
  | some entries =>
    if mediaValid data.media then
      let doc := IssueSheet.ofBody env data entries
      (.ok doc, { db with issueSheets := db.issueSheets ++ [doc] })
    else (.error .validationError, db)

/-- A stored `issuedBy` / `receiveBy` object as Mongoose loads it: a `date` that
the stored object lacks gets the schema's default. -/
def Signatory.hydrate (schemaDate : Int) (s : Signatory) : Signatory :=
  { s with date := some (s.date.getD schemaDate) }

/-- The document Mongoose builds from a stored issue sheet: the stored fields,
and the schema defaults for the paths the stored document lacks (the two dates;
`isSaved` and `drawingsIssued` are always present in a stored `IssueSheet`). -/
def IssueSheet.hydrate (schemaDate : Int) (doc : IssueSheet) : IssueSheet :=
  { doc with
    issuedBy := doc.issuedBy.hydrate schemaDate
    receiveBy := doc.receiveBy.hydrate schemaDate }

/-- The query `IssueSheet.findById(id)`: a cast error if `id` is not an ObjectId, else the
document with this `_id`, if any, as Mongoose loads it. -/
def IssueSheet.findById (env : Env) (db : Store) (id : String) :
    Except Exn (Option IssueSheet) :=
  match castObjectId id with
  | none => .error .castError
  | some oid =>
    .ok ((db.issueSheets.find? (fun s => s._id == oid)).map (IssueSheet.hydrate env.schemaDate))

/-- The call `doc.save()` of a document loaded from the collection. The document is
validated first (the paths that were loaded count, not only the modified ones):
a `media` outside the enum rejects with a validation error and nothing is
written. Otherwise the modified paths and the defaults applied on loading are
written to the stored document with the same `_id`, which then is `doc`. -/
def IssueSheet.save (db : Store) (doc : IssueSheet) : Except Exn Unit × Store :=
  if mediaValid doc.media then
    (.ok (), { db with issueSheets := replaceFirst (fun s => s._id == doc._id) doc db.issueSheets })
  else (.error .validationError, db)

/-- The document after `$set` of the fields present in `updateData` (no
validators run on an update; `entries` are the cast `drawingsIssued`, if given). -/
def IssueSheet.applyUpdate (doc : IssueSheet) (updateData : IssueSheetBody)
    (entries : Option (List DrawingIssued)) : IssueSheet :=
  { _id := doc._id
    issueSheetNumber := updateData.issueSheetNumber <|> doc.issueSheetNumber
    to_ := updateData.to_ <|> doc.to_
    attention := updateData.attention <|> doc.attention
    client := updateData.client <|> doc.client
    projectName := updateData.projectName <|> doc.projectName
    projectNumber := updateData.projectNumber <|> doc.projectNumber
    drawingsIssued := entries.getD doc.drawingsIssued
    remarks := updateData.remarks <|> doc.remarks
    issuedFor := updateData.issuedFor <|> doc.issuedFor
    media := updateData.media <|> doc.media
    issuedBy :=
      match updateData.issuedBy with
      | none => doc.issuedBy
      | some b => { name := b.name, signature := b.signature, date := b.date }
    receiveBy :=
      match updateData.receiveBy with
      | none => doc.receiveBy
      | some b => { name := b.name, signature := b.signature, date := b.date }
    isSaved := updateData.isSaved.getD doc.isSaved }

/-- The cast of the `drawingsIssued` of an update, when the update has one;
the outer `none` is a cast error. -/
def castUpdateEntries (subId : Nat → ObjectId) :
    Option (List DrawingIssuedBody) → Option (Option (List DrawingIssued))
  | none => some none
  | some es => (castDrawingsIssued subId 0 es).map some

/-- The call `IssueSheet.findByIdAndUpdate(id, updateData, { new: true })`: the updated
document as Mongoose loads it (`none` if no document has this `_id`) and the
database afterwards. The write is the `$set` alone: no validator runs and no
default is stored. -/
def IssueSheet.findByIdAndUpdate (env : Env) (db : Store) (id : String)
    (updateData : IssueSheetBody) : Except Exn (Option IssueSheet) × Store :=
  match castObjectId id with
  | none => (.error .castError, db)
  | some oid =>
    match castUpdateEntries env.subId updateData.drawingsIssued with
    | none => (.error .castError, db)
    | some entries =>
      match db.issueSheets.find? (fun s => s._id == oid) with
      | none => (.ok none, db)
      | some doc =>
        let updated := IssueSheet.applyUpdate doc updateData entries
        (.ok (some (IssueSheet.hydrate env.schemaDate updated)),
          { db with issueSheets := replaceFirst (fun s => s._id == oid) updated db.issueSheets })

/-- The call `IssueSheet.findByIdAndDelete(id)`: the deleted document, if any, and the
database afterwards. The handler only tests the result for `null`; the document
is given as it was stored. -/
def IssueSheet.findByIdAndDelete (db : Store) (id : String) :
    Except Exn (Option IssueSheet) × Store :=
  match castObjectId id with
  | none => (.error .castError, db)
  | some oid =>
    match db.issueSheets.find? (fun s => s._id == oid) with
    | none => (.ok none, db)
    | some doc =>
      (.ok (some doc), { db with issueSheets := removeFirst (fun s => s._id == oid) db.issueSheets })

/-- Handler `router.post('/')`: create an issue sheet. -/
def postIssueSheet (env : Env) (db : Store) (body : IssueSheetBody) : Response × Store :=
  match nextIssueSheetNumber db with
  | (.error e, db1) => (⟨400, .thrown e⟩, db1)
  | (.ok n, db1) =>
    let issueSheetData : IssueSheetBody := { body with issueSheetNumber := some n }
    match IssueSheet.create env db1 issueSheetData with
    | (.error e, db2) => (⟨400, .thrown e⟩, db2)
    | (.ok createdIssueSheet, db2) => (⟨201, .sheet createdIssueSheet⟩, db2)

/-- Handler `router.put('/:id')`: update an issue sheet by id. -/
def putIssueSheet (env : Env) (db : Store) (id : String) (updateData : IssueSheetBody) :
    Response × Store :=
  match IssueSheet.findByIdAndUpdate env db id updateData with
  | (.error _, db1) => (⟨500, .error "Internal server error"⟩, db1)
  | (.ok none, db1) => (⟨404, .message "Issue sheet not found"⟩, db1)
  | (.ok (some updatedIssueSheet), db1) => (⟨200, .sheet updatedIssueSheet⟩, db1)

/-- Handler `router.delete('/:id')`: delete an issue sheet by id. -/
def deleteIssueSheet (db : Store) (id : String) : Response × Store :=
  match IssueSheet.findByIdAndDelete db id with
  | (.error _, db1) => (⟨500, .error "Internal server error"⟩, db1)
  | (.ok none, db1) => (⟨404, .message "Issue sheet not found"⟩, db1)
  | (.ok (some _), db1) => (⟨200, .message "Issue sheet deleted successfully"⟩, db1)

/-- The statement of the `addDrawing` handler between `findById` and `save`:
the new `drawingsIssued`, or `none` when the pushed element does not cast (the
validation error that `save()` then raises). The `+=` is an addition of
doubles. -/
def addDrawingEdit (env : Env) (drawingsIssued : List DrawingIssued) (drawing : String)
    (copies : Int) : Option (List DrawingIssued) :=
  let existingDrawingIndex :=
    findIndex (fun d => (JsValue.str d.drawing.toHexString).strictEqStr drawing) drawingsIssued
  match existingDrawingIndex with
  | some i =>
    some (modifyAt (fun d => { d with copies := jsAdd d.copies copies }) i drawingsIssued)
  | none =>
    match castObjectId drawing with
    | none => none
    | some d => some (drawingsIssued ++ [{ _id := env.newId, drawing := d, copies := copies }])

/-- Handler `router.post('/:issueSheetId/addDrawing')` with body `{ drawing, copies }`:
every exception, the rejection of `save()` included, is answered with 500. -/
def addDrawing (env : Env) (db : Store) (issueSheetId : String) (drawing : String)
    (copies : Int) : Response × Store :=
  match IssueSheet.findById env db issueSheetId with
  | .error _ => (⟨500, .error "Server error"⟩, db)
  | .ok none => (⟨404, .error "Issue sheet not found"⟩, db)
  | .ok (some issueSheet) =>
    match addDrawingEdit env issueSheet.drawingsIssued drawing copies with
    | none => (⟨500, .error "Server error"⟩, db)
    | some edited =>
      let issueSheet1 : IssueSheet := { issueSheet with drawingsIssued := edited }
      match IssueSheet.save db issueSheet1 with
      | (.error _, db1) => (⟨500, .error "Server error"⟩, db1)
      | (.ok _, db1) => (⟨201, .messageSheet "Drawing added successfully" issueSheet1⟩, db1)

/-- Handler `router.delete('/:issueSheetId/removeDrawing/:drawingId')`. -/
def removeDrawing (env : Env) (db : Store) (issueSheetId : String) (drawingId : String) :
    Response × Store :=
  match IssueSheet.findById env db issueSheetId with
  | .error _ => (⟨500, .error "Server error"⟩, db)
  | .ok none => (⟨404, .error "Issue sheet not found"⟩, db)
  | .ok (some issueSheet) =>
    let drawingIndex :=
      findIndex (fun d => (JsValue.oid d._id).strictEqStr drawingId) issueSheet.drawingsIssued
    match drawingIndex with
    | none => (⟨404, .error "Drawing not found in the issue sheet"⟩, db)
    | some i =>
      let issueSheet1 : IssueSheet :=
        { issueSheet with drawingsIssued := splice1 i issueSheet.drawingsIssued }
      match IssueSheet.save db issueSheet1 with
      | (.error _, db1) => (⟨500, .error "Server error"⟩, db1)
      | (.ok _, db1) => (⟨200, .messageSheet "Drawing removed successfully" issueSheet1⟩, db1)

/-- A request to one of the issue-sheet operations. -/
inductive Op
  | create (env : Env) (body : IssueSheetBody)
  | update (env : Env) (id : String) (updateData : IssueSheetBody)
  | delete (id : String)
  | addDrawing (env : Env) (issueSheetId : String) (drawing : String) (copies : Int)
  | removeDrawing (env : Env) (issueSheetId : String) (drawingId : String)

/-- The handler that serves a request. -/
def handle (db : Store) : Op → Response × Store
  | .create env body => postIssueSheet env db body
  | .update env id updateData => putIssueSheet env db id updateData
  | .delete id => deleteIssueSheet db id
  | .addDrawing env issueSheetId drawing copies => addDrawing env db issueSheetId drawing copies
  | .removeDrawing env issueSheetId drawingId => removeDrawing env db issueSheetId drawingId

/-- The database after a sequence of requests served one after the other. -/
def run (db : Store) (ops : List Op) : Store :=
  ops.foldl (fun s op => (handle s op).2) db

/-- The responses to a sequence of requests served one after the other. -/
def responses (db : Store) : List Op → List Response
  | [] => []
  | op :: ops => (handle db op).1 :: responses (handle db op).2 ops

/-- The `issueSheetNumber`s of the stored issue sheets, in collection order. -/
def sheetNumbers (db : Store) : List (Option Int) :=
  db.issueSheets.map (·.issueSheetNumber)

/-! ## The category and register routes
(`src/routes/Categories.js`, `src/routes/DrawingRegister.js`) -/

/-- The loose equality `s == v` of a string primitive `s` with a value `v`: an
object operand is first converted to a primitive, for an ObjectId by its
`toString()`. -/
def JsValue.looseEqStr : JsValue → String → Bool
  | .str a, s => a == s
  | .oid o, s => o.toHexString == s

/-- The method `includes(obj)` of a Mongoose array of ObjectIds, for a string
`obj`: a search by index with the test `obj == this[i]`. -/
def includes (arr : List ObjectId) (obj : String) : Bool :=
  arr.any (fun x => (JsValue.oid x).looseEqStr obj)

/-- The filter `arr.filter(x => x.toString() !== id)` of the two remove-child
handlers. -/
def filterNotId (arr : List ObjectId) (id : String) : List ObjectId :=
  arr.filter (fun x => !(JsValue.str x.toHexString).strictEqStr id)

/-- Casts an array whose elements are strings or ObjectIds to an array of
ObjectIds; `none` when one string is not an ObjectId. -/
def castIdArray : List JsValue → Option (List ObjectId)
  | [] => some []
  | v :: vs =>
    let head : Option ObjectId :=
      match v with
      | .str s => castObjectId s
      | .oid o => some o
    match head, castIdArray vs with
    | some o, some os => some (o :: os)
    | _, _ => none

/-- The JSON body of `POST /categories/:categoryId/add-drawing`; only the five
fields the handler destructures are used. -/
structure DrawingBody where
  drawingNumber : Option String := none
  projectNumber : Option String := none
  description : Option String := none
  title : Option String := none
  size : Option String := none
  revisions : Option Int := none
deriving DecidableEq

/-- A category object of a JSON body, read against `categorySchema` (the
elements of `drawings` are ObjectIds). -/
structure CategoryBody where
  title : Option String := none
  description : Option String := none
  drawings : Option (List ObjectId) := none
deriving DecidableEq

/-- The JSON body of `POST /register` and `PUT /register/:id`, read against
`registerSchema`; `categories` carries inline category data, each element used
as a title. -/
structure RegisterBody where
  projectName : Option String := none
  projectNumber : Option Int := none
  projectDescipline : Option String := none
  projectEngineers : Option (List String) := none
  commencementDate : Option Int := none
  completionDate : Option Int := none
  categories : Option (List String) := none
deriving DecidableEq

/-- The query `Drawing.findById(id)`. -/
def Drawing.findById (db : Store) (id : String) : Except Exn (Option Drawing) :=
  match castObjectId id with
  | none => .error .castError
  | some oid => .ok (db.drawings.find? (fun d => d._id == oid))

/-- The call `Drawing.findByIdAndDelete(id)`: the deleted document, if any, and
the database afterwards. -/
def Drawing.findByIdAndDelete (db : Store) (id : String) :
    Except Exn (Option Drawing) × Store :=
  match castObjectId id with
  | none => (.error .castError, db)
  | some oid =>
    match db.drawings.find? (fun d => d._id == oid) with
    | none => (.ok none, db)
    | some doc =>
      (.ok (some doc), { db with drawings := removeFirst (fun d => d._id == oid) db.drawings })

/-- The query `Category.findById(id)`. -/
def Category.findById (db : Store) (id : String) : Except Exn (Option Category) :=
  match castObjectId id with
  | none => .error .castError
  | some oid => .ok (db.categories.find? (fun c => c._id == oid))

/-- The call `doc.save()` of a Category loaded from the collection. -/
def Category.save (db : Store) (doc : Category) : Store :=
  { db with categories := replaceFirst (fun c => c._id == doc._id) doc db.categories }

/-- The call `Category.findByIdAndDelete(id)`. -/
def Category.findByIdAndDelete (db : Store) (id : String) :
    Except Exn (Option Category) × Store :=
  match castObjectId id with
  | none => (.error .castError, db)
  | some oid =>
    match db.categories.find? (fun c => c._id == oid) with
    | none => (.ok none, db)
    | some doc =>
      (.ok (some doc),
        { db with categories := removeFirst (fun c => c._id == oid) db.categories })

/-- The Category after `$set` of the fields present in `updateData`. -/
def Category.applyUpdate (doc : Category) (updateData : CategoryBody) : Category :=
  { _id := doc._id
    title := updateData.title <|> doc.title
    description := updateData.description <|> doc.description
    drawings := updateData.drawings.getD doc.drawings }

/-- The call `Category.findByIdAndUpdate(id, updateData, { new: true })`. -/
def Category.findByIdAndUpdate (db : Store) (id : String) (updateData : CategoryBody) :
    Except Exn (Option Category) × Store :=
  match castObjectId id with
  | none => (.error .castError, db)
  | some oid =>
    match db.categories.find? (fun c => c._id == oid) with
    | none => (.ok none, db)
    | some doc =>
      let updated := Category.applyUpdate doc updateData
      (.ok (some updated),
        { db with categories := replaceFirst (fun c => c._id == oid) updated db.categories })

/-- The documents made by `Category.create({ title: categoryData })` for each
element of a list of inline category data; the `k`-th new document gets the
identifier `subId k`. -/
def createTitled (subId : Nat → ObjectId) : Nat → List String → List Category
  | _, [] => []
  | k, t :: ts => { _id := subId k, title := some t } :: createTitled subId (k + 1) ts

/-- The documents made by `Category.create(categoryData)` for an array of
category objects, in the order of the array. -/
def createCategories (subId : Nat → ObjectId) : Nat → List CategoryBody → List Category
  | _, [] => []
  | k, b :: bs =>
    { _id := subId k, title := b.title, description := b.description,
      drawings := b.drawings.getD [] } :: createCategories subId (k + 1) bs

/-- The query `Register.findById(id)`. -/
def Register.findById (db : Store) (id : String) : Except Exn (Option Register) :=
  match castObjectId id with
  | none => .error .castError
  | some oid => .ok (db.registers.find? (fun r => r._id == oid))

/-- The call `doc.save()` of a Register loaded from the collection. -/
def Register.save (db : Store) (doc : Register) : Store :=
  { db with registers := replaceFirst (fun r => r._id == doc._id) doc db.registers }

/-- The call `Register.findByIdAndDelete(id)`. -/
def Register.findByIdAndDelete (db : Store) (id : String) :
    Except Exn (Option Register) × Store :=
  match castObjectId id with
  | none => (.error .castError, db)
  | some oid =>
    match db.registers.find? (fun r => r._id == oid) with
    | none => (.ok none, db)
    | some doc =>
      (.ok (some doc), { db with registers := removeFirst (fun r => r._id == oid) db.registers })

/-- The document that `Register.create(registerData)` builds, `categories` being
the cast reference array of `registerData` (empty when the key is absent). -/
def Register.ofBody (env : Env) (data : RegisterBody) (categories : List ObjectId) : Register :=
  { _id := env.newId
    projectName := data.projectName
    projectNumber := data.projectNumber
    projectDescipline := data.projectDescipline
    projectEngineers := data.projectEngineers.getD []
    commencementDate := data.commencementDate
    completionDate := data.completionDate
    categories := categories }

/-- The Register after `$set` of the fields present in `updatedData` and of
`categories`. -/
def Register.applyUpdate (doc : Register) (updatedData : RegisterBody)
    (categories : List ObjectId) : Register :=
  { _id := doc._id
    projectName := updatedData.projectName <|> doc.projectName
    projectNumber := updatedData.projectNumber <|> doc.projectNumber
    projectDescipline := updatedData.projectDescipline <|> doc.projectDescipline
    projectEngineers := updatedData.projectEngineers.getD doc.projectEngineers
    commencementDate := updatedData.commencementDate <|> doc.commencementDate
    completionDate := updatedData.completionDate <|> doc.completionDate
    categories := categories }

/-- The call `Register.findByIdAndUpdate(id, updatedData, { new: true })` of
`PUT /register/:id`, where `updatedData.categories` is the array `categories` of
strings and ObjectIds. -/
def Register.findByIdAndUpdate (db : Store) (id : String) (updatedData : RegisterBody)
    (categories : List JsValue) : Except Exn (Option Register) × Store :=
  match castObjectId id with
  | none => (.error .castError, db)
  | some oid =>
    match castIdArray categories with
    | none => (.error .castError, db)
    | some ids =>
      match db.registers.find? (fun r => r._id == oid) with
      | none => (.ok none, db)
      | some doc =>
        let updated := Register.applyUpdate doc updatedData ids
        (.ok (some updated),
          { db with registers := replaceFirst (fun r => r._id == oid) updated db.registers })

/-- The document built by `new Drawing({ drawingNumber, description, title, size,
revisions })` from the body of add-drawing. -/
def Drawing.ofBody (env : Env) (body : DrawingBody) : Drawing :=
  { _id := env.newId
    drawingNumber := body.drawingNumber
    description := body.description
    title := body.title
    size := body.size
    revisions := body.revisions.getD 0 }

/-- Handler `router.delete('/:id')` of the category routes. -/
def deleteCategory (db : Store) (id : String) : Response × Store :=
  match Category.findByIdAndDelete db id with
  | (.error e, db1) => (⟨500, .thrown e⟩, db1)
  | (.ok none, db1) => (⟨404, .message "Category not found"⟩, db1)
  | (.ok (some _), db1) => (⟨200, .message "Category deleted successfully"⟩, db1)

/-- Handler `router.post("/:categoryId/add-drawing")`. -/
def addCategoryDrawing (env : Env) (db : Store) (categoryId : String) (body : DrawingBody) :
    Response × Store :=
  let savedDrawing := Drawing.ofBody env body
  let db1 : Store := { db with drawings := db.drawings ++ [savedDrawing] }
  match Category.findById db1 categoryId with
  | .error _ => (⟨500, .message "Internal server error"⟩, db1)
  | .ok none => (⟨404, .message "Category not found"⟩, db1)
  | .ok (some category) =>
    let category1 : Category := { category with drawings := category.drawings ++ [savedDrawing._id] }
    (⟨200, .messageCategory "Drawing added to category successfully" category1⟩,
      Category.save db1 category1)

/-- Handler `router.delete("/:categoryId/delete-drawing/:drawingId")`. -/
def deleteCategoryDrawing (db : Store) (categoryId drawingId : String) : Response × Store :=
  match Category.findById db categoryId with
  | .error _ => (⟨500, .message "Internal server error"⟩, db)
  | .ok none => (⟨404, .message "Category not found"⟩, db)
  | .ok (some category) =>
    if !includes category.drawings drawingId then
      (⟨404, .message "Drawing not found in the category"⟩, db)
    else
      let category1 : Category := { category with drawings := filterNotId category.drawings drawingId }
      let db1 := Category.save db category1
      match Drawing.findByIdAndDelete db1 drawingId with
      | (.error _, db2) => (⟨500, .message "Internal server error"⟩, db2)
      | (.ok _, db2) => (⟨200, .message "Drawing deleted from category successfully"⟩, db2)

/-- Handler `router.put('/categories/:categoryId')` of the category routes. -/
def putCategory (db : Store) (categoryId : String) (updateData : CategoryBody) :
    Response × Store :=
  match Category.findByIdAndUpdate db categoryId updateData with
  | (.error _, db1) => (⟨500, .error "Internal server error"⟩, db1)
  | (.ok none, db1) => (⟨404, .message "Category not found"⟩, db1)
  | (.ok (some updatedCategory), db1) => (⟨200, .category updatedCategory⟩, db1)

/-- Handler `router.post('/')` of the register routes. Both branches end in
`Register.create`; with a `categories` key the inline data are first saved as
Categories and replaced by their identifiers. -/
def postRegister (env : Env) (db : Store) (body : RegisterBody) : Response × Store :=
  match body.categories with
  | some categories =>
    let created := createTitled env.subId 0 categories
    let db1 : Store := { db with categories := db.categories ++ created }
    let categoryIds := created.map (·._id)
    let register := Register.ofBody env body categoryIds
    (⟨201, .register register⟩, { db1 with registers := db1.registers ++ [register] })
  | none =>
    let register := Register.ofBody env body []
    (⟨201, .register register⟩, { db with registers := db.registers ++ [register] })

/-- Handler `router.put('/:id')` of the register routes. `register.categories`
throws a TypeError when `findById` found nothing. -/
def putRegister (env : Env) (db : Store) (id : String) (body : RegisterBody) :
    Response × Store :=
  let created : List Category :=
    match body.categories with
    | some categories => if categories.length > 0 then createTitled env.subId 0 categories else []
    | none => []
  let db1 : Store := { db with categories := db.categories ++ created }
  let categoryIds : List String := created.map (fun category => category._id.toHexString)
  match Register.findById db1 id with
  | .error e => (⟨400, .thrown e⟩, db1)
  | .ok none => (⟨400, .thrown .typeError⟩, db1)
  | .ok (some register) =>
    let categories : List JsValue := categoryIds.map .str ++ register.categories.map .oid
    match Register.findByIdAndUpdate db1 id body categories with
    | (.error e, db2) => (⟨400, .thrown e⟩, db2)
    | (.ok none, db2) => (⟨404, .message "Register not found"⟩, db2)
    | (.ok (some registerUpdate), db2) => (⟨200, .register registerUpdate⟩, db2)

/-- Handler `router.post('/:registerId/categories')`; the body is an array of
category objects. -/
def postRegisterCategories (env : Env) (db : Store) (registerId : String)
    (categoryData : List CategoryBody) : Response × Store :=
  let createdCategories := createCategories env.subId 0 categoryData
  let db1 : Store := { db with categories := db.categories ++ createdCategories }
  match Register.findById db1 registerId with
  | .error e => (⟨400, .thrown e⟩, db1)
  | .ok none => (⟨404, .message "Register not found"⟩, db1)
  | .ok (some register) =>
    let register1 : Register :=
      { register with categories := register.categories ++ createdCategories.map (·._id) }
    (⟨200, .register register1⟩, Register.save db1 register1)

/-- Handler `router.delete('/:registerId/categories/:categoryId')`. -/
def deleteRegisterCategory (db : Store) (registerId categoryId : String) : Response × Store :=
  match Register.findById db registerId with
  | .error _ => (⟨500, .message "Internal server error"⟩, db)
  | .ok none => (⟨404, .message "Register not found"⟩, db)
  | .ok (some register) =>
    if !includes register.categories categoryId then
      (⟨404, .message "Category not found in the register"⟩, db)
    else
      let register1 : Register :=
        { register with categories := filterNotId register.categories categoryId }
      let db1 := Register.save db register1
      match Category.findByIdAndDelete db1 categoryId with
      | (.error _, db2) => (⟨500, .message "Internal server error"⟩, db2)
      | (.ok _, db2) => (⟨200, .message "Category deleted from register successfully"⟩, db2)

/-- Handler `router.delete('/:id')` of the register routes. -/
def deleteRegister (db : Store) (id : String) : Response × Store :=
  match Register.findByIdAndDelete db id with
  | (.error e, db1) => (⟨500, .thrown e⟩, db1)
  | (.ok none, db1) => (⟨404, .message "Register not found"⟩, db1)
  | (.ok (some _), db1) => (⟨200, .message "Register deleted successfully"⟩, db1)

/-- A request to one of the state-changing category and register routes. -/
inductive RefOp
  | registerCreate (env : Env) (body : RegisterBody)
  | registerUpdate (env : Env) (id : String) (body : RegisterBody)
  | registerDelete (id : String)
  | registerAddCategories (env : Env) (registerId : String) (categoryData : List CategoryBody)
  | registerDeleteCategory (registerId categoryId : String)
  | categoryUpdate (categoryId : String) (updateData : CategoryBody)
  | categoryDelete (id : String)
  | categoryAddDrawing (env : Env) (categoryId : String) (body : DrawingBody)
  | categoryDeleteDrawing (categoryId drawingId : String)

/-- The handler that serves a request to the category and register routes. -/
def handleRef (db : Store) : RefOp → Response × Store
  | .registerCreate env body => postRegister env db body
  | .registerUpdate env id body => putRegister env db id body
  | .registerDelete id => deleteRegister db id
  | .registerAddCategories env registerId categoryData =>
    postRegisterCategories env db registerId categoryData
  | .registerDeleteCategory registerId categoryId => deleteRegisterCategory db registerId categoryId
  | .categoryUpdate categoryId updateData => putCategory db categoryId updateData
  | .categoryDelete id => deleteCategory db id
  | .categoryAddDrawing env categoryId body => addCategoryDrawing env db categoryId body
  | .categoryDeleteDrawing categoryId drawingId => deleteCategoryDrawing db categoryId drawingId

/-! ## Start-up (`src/server.js`) -/

/-- The handler of the connection's `open` event: when `Counter.find()` is
empty, a `new Counter({})`, whose `issueSheetNumber` is the schema default 1, is
saved. The handler does not await `save()`; the database given here is the one
after that write has landed. -/
def initCounter (env : Env) (db : Store) : Store :=
  let counter := Counter.find db
  if counter.length < 1 then
    let newCounter : Counter := { _id := env.newId }
    { db with counters := db.counters ++ [newCounter] }
  else db

/-! ## Interleaved calls of the allocator -/

/-- The progress of one call of `nextIssueSheetNumber`: not started; after
`Counter.find()`, holding `counter_db[0]._id`; or finished, with the value
returned or the exception thrown. -/
inductive Call
  | start
  | found (id : ObjectId)
  | returned (r : Except Exn Int)
deriving DecidableEq

/-- The next atomic database operation of a call: the read `Counter.find()`,
then the increment `findByIdAndUpdate`. A finished call does nothing. -/
def Call.step (db : Store) : Call → Call × Store
  | .start =>
    match (Counter.find db).head? with
    | none => (.returned (.error .typeError), db)
    | some c0 => (.found c0._id, db)
  | .found id =>
    match Counter.findByIdAndUpdateInc db id with
    | (none, db1) => (.returned (.error .typeError), db1)
    | (some counter, db1) => (.returned (.ok counter.issueSheetNumber), db1)
  | .returned r => (.returned r, db)

/-- Concurrent calls of `nextIssueSheetNumber` on one database. -/
structure Concurrent where
  db : Store
  calls : List Call
deriving DecidableEq

/-- The call number `i` performs its next database operation. -/
def Concurrent.step (s : Concurrent) (i : Nat) : Concurrent :=
  match s.calls[i]? with
  | none => s
  | some c => { db := (Call.step s.db c).2, calls := s.calls.set i (Call.step s.db c).1 }

/-- An interleaving: the database operations are performed one at a time, in
the order in which the schedule names the calls. -/
def Concurrent.run (s : Concurrent) (schedule : List Nat) : Concurrent :=
  schedule.foldl Concurrent.step s

/-- The state in which `n` calls have been made and none has started. -/
def Concurrent.init (db : Store) (n : Nat) : Concurrent :=
  { db := db, calls := List.replicate n .start }

/-! ## The drawings of a project (`src/routes/Categories.js`) -/

/-- A Category whose `drawings` have been populated. -/
structure PopulatedCategory where
  _id : ObjectId
  title : Option String := none
  description : Option String := none
  drawings : List Drawing := []
deriving DecidableEq

/-- A Register whose `categories` have been populated. -/
structure PopulatedRegister where
  _id : ObjectId
  projectName : Option String := none
  projectNumber : Option Int := none
  projectDescipline : Option String := none
  projectEngineers : List String := []
  commencementDate : Option Int := none
  completionDate : Option Int := none
  categories : List PopulatedCategory := []
deriving DecidableEq

/-- Population of a `drawings` array: each identifier is replaced by the
Drawing with that `_id`, in the order of the array; an identifier of no stored
Drawing is dropped. -/
def populateDrawings (db : Store) (ids : List ObjectId) : List Drawing :=
  ids.filterMap (fun i => db.drawings.find? (fun d => d._id == i))

/-- Population of a `categories` array, with the nested population of
`drawings`. -/
def populateCategories (db : Store) (ids : List ObjectId) : List PopulatedCategory :=
  ids.filterMap (fun k =>
    (db.categories.find? (fun c => c._id == k)).map (fun c =>
      { _id := c._id, title := c.title, description := c.description,
        drawings := populateDrawings db c.drawings }))

/-- The query `Register.find({ projectNumber }).populate({ path: 'categories',
populate: { path: 'drawings' } })`, `projectNumber` being the path parameter as
the query casts it to the schema's Number. -/
def Register.findPopulated (db : Store) (projectNumber : Int) : List PopulatedRegister :=
  (db.registers.filter (fun r => r.projectNumber == some projectNumber)).map (fun r =>
    { _id := r._id, projectName := r.projectName, projectNumber := r.projectNumber,
      projectDescipline := r.projectDescipline, projectEngineers := r.projectEngineers,
      commencementDate := r.commencementDate, completionDate := r.completionDate,
      categories := populateCategories db r.categories })

/-- Handler `router.get('/drawings/:projectNumber')` of the category routes:
the two nested `forEach` loops push the drawings of every category of every
register found onto `allDrawings`, which is sent (status 200). -/
def getProjectDrawings (db : Store) (projectNumber : Int) : Response :=
  let register := Register.findPopulated db projectNumber
  let allDrawings : List Drawing :=
    register.foldl (fun allDrawings register =>
      register.categories.foldl (fun allDrawings category =>
        allDrawings ++ category.drawings) allDrawings) []
  ⟨200, .drawings allDrawings⟩

/-! ## The user routes (`src/routes/User.js`) -/

/-- The JSON body of `POST /users` and `PATCH /users/:id`, read against
`userSchema`. -/
structure UserBody where
  firstname : Option String := none
  lastname : Option String := none
  password : Option String := none
  email : Option String := none
  role : Option String := none
  department : Option String := none
  signature : Option String := none
deriving DecidableEq

/-- Handler `router.post('/')` of the user routes. `hash` is
`bcrypt.hash(·, 10)` as this call computes it; it rejects when `req.body.password`
is absent. -/
def postUser (hash : String → String) (env : Env) (db : Store) (body : UserBody) :
    Response × Store :=
  match body.password with
  | none => (⟨400, .thrown .typeError⟩, db)
  | some plain =>
    let password := hash plain
    let newUser : User :=
      { _id := env.newId
        firstname := body.firstname
        lastname := body.lastname
        email := body.email
        role := body.role <|> some "user"
        department := body.department
        password := some password }
    (⟨201, .user newUser⟩, { db with users := db.users ++ [newUser] })

/-- The User after `$set` of the fields present in the body. -/
def User.applyUpdate (doc : User) (body : UserBody) : User :=
  { _id := doc._id
    firstname := body.firstname <|> doc.firstname
    lastname := body.lastname <|> doc.lastname
    password := body.password <|> doc.password
    email := body.email <|> doc.email
    role := body.role <|> doc.role
    department := body.department <|> doc.department
    signature := body.signature <|> doc.signature }

/-- The call `User.findByIdAndUpdate(id, req.body, { new: true })`. -/
def User.findByIdAndUpdate (db : Store) (id : String) (body : UserBody) :
    Except Exn (Option User) × Store :=
  match castObjectId id with
  | none => (.error .castError, db)
  | some oid =>
    match db.users.find? (fun u => u._id == oid) with
    | none => (.ok none, db)
    | some doc =>
      let updated := User.applyUpdate doc body
      (.ok (some updated),
        { db with users := replaceFirst (fun u => u._id == oid) updated db.users })

/-- Handler `router.patch('/:id')` of the user routes. -/
def patchUser (db : Store) (id : String) (body : UserBody) : Response × Store :=
  match User.findByIdAndUpdate db id body with
  | (.error e, db1) => (⟨400, .thrown e⟩, db1)
  | (.ok none, db1) => (⟨404, .message "User not found"⟩, db1)
  | (.ok (some user), db1) => (⟨200, .user user⟩, db1)

/-! ## Definitions used to state the properties -/

/-- The results of `n` successive calls of `nextIssueSheetNumber`, and the
database after the last one. -/
def callN : Nat → Store → List (Except Exn Int) × Store
  | 0, db => ([], db)
  | n + 1, db =>
    let r := nextIssueSheetNumber db
    let rest := callN n r.2
    (r.1 :: rest.1, rest.2)

/-- A request body that `IssueSheet.create` accepts: `media` passes its
validator and every `drawing` of `drawingsIssued` casts to an ObjectId. -/
def IssueSheetBody.valid (env : Env) (body : IssueSheetBody) : Bool :=
  mediaValid body.media && (castDrawingsIssued env.subId 0 (body.drawingsIssued.getD [])).isSome

/-- The request leaves `issueSheetNumber` to the allocator: every request but
an update whose body carries an `issueSheetNumber`. -/
def Op.keepsNumber : Op → Bool
  | .update _ _ updateData => updateData.issueSheetNumber.isNone
  | _ => true

/-- The request is a creation. -/
def Op.isCreate : Op → Bool
  | .create _ _ => true
  | _ => false

/-- The number of creation requests in a sequence of requests. -/
def creations (ops : List Op) : Nat :=
  ops.countP Op.isCreate

/-- Adding `copies` copies of drawing `d` to a list of entries, entry by entry:
the first entry for `d` gets `copies` added to its copies (a sum of doubles), and
when there is none an entry with identifier `newId` is appended. -/
def addCopies (newId d : ObjectId) (copies : Int) : List DrawingIssued → List DrawingIssued
  | [] => [{ _id := newId, drawing := d, copies := copies }]
  | e :: es =>
    if e.drawing = d then { e with copies := jsAdd e.copies copies } :: es
    else e :: addCopies newId d copies es

/-- The invariant behind unique numbering, with `k` creations still to come:
the stored numbers are pairwise distinct and, unless `k` is 0, each is an integer
below the value `V` the Counter holds, where `V` is at least -2^53 and the `k`
numbers `V`, ..., `V + k - 1` still to be given out are at most 2^53. -/
def NumbersBelowCounter (k : Nat) (db : Store) : Prop :=
  (sheetNumbers db).Nodup ∧
    (k = 0 ∨ ∀ V : Int, counterValue db = some V →
      (∀ x ∈ sheetNumbers db, ∃ n : Int, x = some n ∧ n < V) ∧
        -(2 ^ 53) ≤ V ∧ V + (k : Int) ≤ 2 ^ 53 + 1)

/-- The categories that `PUT /register/:id` creates for a body. -/
def putCreated (env : Env) (body : RegisterBody) : List Category :=
  match body.categories with
  | some categories => if categories.length > 0 then createTitled env.subId 0 categories else []
  | none => []

/-- Referential integrity: every identifier in a Category's `drawings` is the
`_id` of a stored Drawing, and every identifier in a Register's `categories` is
the `_id` of a stored Category. -/
def RefIntegrity (db : Store) : Prop :=
  (∀ c ∈ db.categories, ∀ i ∈ c.drawings, i ∈ db.drawings.map (·._id)) ∧
    (∀ r ∈ db.registers, ∀ k ∈ r.categories, k ∈ db.categories.map (·._id))

/-- The side condition under which a request cannot leave a reference to a
missing document: a Category that is deleted is listed by no Register; a child
that a remove-child request deletes is listed by no parent other than the one in
the path; and the `drawings` that a category object or a category update
supplies are identifiers of stored Drawings. -/
def RefOp.safe (db : Store) : RefOp → Bool
  | .categoryDelete id =>
    db.registers.all (fun r => r.categories.all (fun k => castObjectId id != some k))
  | .categoryUpdate _ updateData =>
    (updateData.drawings.getD []).all (fun i => decide (i ∈ db.drawings.map (·._id)))
  | .registerAddCategories _ _ categoryData =>
    categoryData.all (fun b =>
      (b.drawings.getD []).all (fun i => decide (i ∈ db.drawings.map (·._id))))
  | .categoryDeleteDrawing categoryId drawingId =>
    db.categories.all (fun c =>
      castObjectId categoryId == some c._id ||
        c.drawings.all (fun x => castObjectId drawingId != some x))
  | .registerDeleteCategory registerId categoryId =>
    db.registers.all (fun r =>
      castObjectId registerId == some r._id ||
        r.categories.all (fun k => castObjectId categoryId != some k))
  | _ => true

/-- The `_id`s of each collection are pairwise distinct (the unique index that
MongoDB keeps on `_id`). -/
def UniqueIds (db : Store) : Prop :=
  (db.drawings.map (·._id)).Nodup ∧ (db.categories.map (·._id)).Nodup ∧
    (db.registers.map (·._id)).Nodup

/-- The Drawing documents of the Category with identifier `k`, as population
resolves them: none when no Category has this identifier. -/
def drawingsOfCategory (db : Store) (k : ObjectId) : List Drawing :=
  match db.categories.find? (fun c => c._id == k) with
  | none => []
  | some c => populateDrawings db c.drawings

/-- The `drawings` identifiers of the Category with identifier `k`. -/
def drawingIdsOfCategory (db : Store) (k : ObjectId) : List ObjectId :=
  match db.categories.find? (fun c => c._id == k) with
  | none => []
  | some c => c.drawings

/-- The value a call has returned, if it has returned one. -/
def Call.value : Call → Option Int
  | .returned (.ok v) => some v
  | _ => none

/-- The values returned so far by the concurrent calls, in the order of the
calls. -/
def Concurrent.returnedValues (s : Concurrent) : List Int :=
  s.calls.filterMap Call.value

/-- The number of database operations a call has behind it (a finished call
counts as 2). -/
def Call.phase : Call → Nat
  | .start => 0
  | .found _ => 1
  | .returned _ => 2

/-- The number of calls that have not finished. -/
def Concurrent.pending (s : Concurrent) : Nat :=
  s.calls.countP (fun x => decide (Call.phase x < 2))

/-- The invariant of concurrent calls. With no Counter no call holds an
identifier or has returned a value. With a Counter, every identifier held is the
first Counter's, every finished call has returned a value, the values returned
are pairwise distinct and, unless every call has finished, each is below the
value `V` that Counter holds, where `V` is at least -2^53 and the numbers `V`,
`V + 1`, ... still to be returned, one for each unfinished call, are at most
2^53. -/
def AllocInv (s : Concurrent) : Prop :=
  (s.db.counters = [] ∧ ∀ x ∈ s.calls, x = .start ∨ x = .returned (.error .typeError)) ∨
    (∃ c cs, s.db.counters = c :: cs ∧
      (∀ x ∈ s.calls, x = .start ∨ x = .found c._id ∨ ∃ v, x = .returned (.ok v)) ∧
      s.returnedValues.Nodup ∧
      (s.pending = 0 ∨
        ((∀ v ∈ s.returnedValues, v < c.issueSheetNumber) ∧
          -(2 ^ 53) ≤ c.issueSheetNumber ∧
          c.issueSheetNumber + (s.pending : Int) ≤ 2 ^ 53 + 1)))

instance instDecidableRefIntegrity (db : Store) : Decidable (RefIntegrity db) := by
  unfold RefIntegrity
  infer_instance

instance instDecidableUniqueIds (db : Store) : Decidable (UniqueIds db) := by
  unfold UniqueIds
  infer_instance

/-! ## Sample data -/

/-- The ObjectId whose 24 digits are all `n`. -/
def oidOf (n : Fin 16) : ObjectId := ⟨List.replicate 24 n, by simp⟩

/-- A sample environment. -/
def sampleEnv (n : Fin 16) : Env := { newId := oidOf n, subId := fun _ => oidOf n, schemaDate := 0 }

/-- A database holding one Counter of value 1 (its state after start-up). -/
def freshStore : Store := { counters := [{ _id := oidOf 0 }] }

/-- The hexadecimal text of the ObjectId whose 24 digits are all 1. -/
def sampleId1 : String := "111111111111111111111111"

/-- The hexadecimal text of the ObjectId whose 24 digits are all 2. -/
def sampleId2 : String := "222222222222222222222222"

/-- An issue sheet (identifier `111...1`) with one entry (identifier `222...2`):
2 copies of the drawing `aaa...a`. Its two dates are the ones a creation under
`sampleEnv` gives. -/
def sampleSheet : IssueSheet :=
  { _id := oidOf 1, issueSheetNumber := some 1,
    drawingsIssued := [{ _id := oidOf 2, drawing := oidOf 10, copies := 2 }],
    issuedBy := { date := some 0 }, receiveBy := { date := some 0 } }

/-- A database holding the Counter and `sampleSheet`. -/
def sampleStore : Store :=
  { counters := [{ _id := oidOf 0, issueSheetNumber := 2 }], issueSheets := [sampleSheet] }

/-- A database whose Counter holds 2^53. -/
def limitStore : Store := { counters := [{ _id := oidOf 0, issueSheetNumber := 2 ^ 53 }] }

/-- The database `sampleStore` after `PUT /issue-sheets/111...1` with the body
`{ "media": "paper" }`: the update is written without validation. -/
def paperStore : Store :=
  (putIssueSheet (sampleEnv 3) sampleStore sampleId1 { media := some "paper" }).2

/-- The text `AAA...A`: the upper-case spelling of the ObjectId `aaa...a`. -/
def sampleUpperA : String := "AAAAAAAAAAAAAAAAAAAAAAAA"

/-- A stored Drawing (identifier `555...5`). -/
def sampleDrawing : Drawing := { _id := oidOf 5, drawingNumber := some "D1" }

/-- A Category (identifier `666...6`) listing `sampleDrawing`. -/
def sampleCategory : Category := { _id := oidOf 6, title := some "Plans", drawings := [oidOf 5] }

/-- A Register (identifier `777...7`) listing `sampleCategory`. -/
def sampleRegister : Register := { _id := oidOf 7, projectName := some "Depot", categories := [oidOf 6] }

/-- A database holding `sampleDrawing`, `sampleCategory` and `sampleRegister`. -/
def refStore : Store :=
  { drawings := [sampleDrawing], categories := [sampleCategory], registers := [sampleRegister] }

/-- An environment whose new document is `888...8` and whose `k`-th new
Category is `999...9`, `aaa...a`, ... -/
def refEnv : Env := { newId := oidOf 8, subId := fun k => oidOf (Fin.ofNat (9 + k)), schemaDate := 0 }

/-- A stand-in for `bcrypt.hash(·, 10)` in the examples. -/
def sampleHash (plain : String) : String := "$2b$10$" ++ plain

/-- A database holding one User (identifier `888...8`) created by `POST /users`
with the password "secret". -/
def userStore : Store :=
  (postUser sampleHash refEnv {} { email := some "a@b.c", password := some "secret" }).2

/-! ## Sums of doubles -/

theorem excessBits_of_lt (m : Nat) (h : m < 2 ^ 53) : excessBits m m = 0 := by
  cases m with
  | zero => rfl
  | succ m => rw [excessBits, if_pos h]

theorem roundNat_of_le (m : Nat) (h : m ≤ 2 ^ 53) : roundNat m = m := by
  rcases Nat.lt_or_eq_of_le h with h | h
  · simp [roundNat, excessBits_of_lt m h, Nat.mod_one]
  · subst h; decide

theorem toDouble_of_natAbs_le (n : Int) (h : n.natAbs ≤ 2 ^ 53) : toDouble n = n := by
  unfold toDouble
  rw [roundNat_of_le _ h]
  split <;> omega

/-- A sum of at most 2^53 in magnitude is exact. -/
theorem jsAdd_exact (a b : Int) (h1 : -(2 ^ 53) ≤ a + b) (h2 : a + b ≤ 2 ^ 53) :
    jsAdd a b = a + b := by
  apply toDouble_of_natAbs_le
  omega

/-! ## The allocator -/

theorem nextIssueSheetNumber_cons (db : Store) (c : Counter) (cs : List Counter)
    (h : db.counters = c :: cs) :
    nextIssueSheetNumber db =
      (.ok c.issueSheetNumber,
        { db with counters := { c with issueSheetNumber := jsAdd c.issueSheetNumber 1 } :: cs }) := by
  simp [nextIssueSheetNumber, Counter.find, Counter.findByIdAndUpdateInc, h, replaceFirst]

theorem nextIssueSheetNumber_nil (db : Store) (h : db.counters = []) :
    nextIssueSheetNumber db = (.error .typeError, db) := by
  simp [nextIssueSheetNumber, Counter.find, h]

theorem counterValue_eq_some (db : Store) (V : Int) (h : counterValue db = some V) :
    ∃ c cs, db.counters = c :: cs ∧ c.issueSheetNumber = V := by
  unfold counterValue at h
  cases hc : db.counters with
  | nil => simp [hc] at h
  | cons c cs => exact ⟨c, cs, rfl, by simpa [hc] using h⟩

theorem nextIssueSheetNumber_spec (db : Store) (V : Int) (h : counterValue db = some V) :
    (nextIssueSheetNumber db).1 = .ok V ∧
      counterValue (nextIssueSheetNumber db).2 = some (jsAdd V 1) ∧
      (nextIssueSheetNumber db).2.issueSheets = db.issueSheets := by
  obtain ⟨c, cs, hc, hV⟩ := counterValue_eq_some db V h
  rw [nextIssueSheetNumber_cons db c cs hc]
  simp [counterValue, hV]

theorem callN_spec (n : Nat) : ∀ (db : Store) (V : Int), counterValue db = some V →
    -(2 ^ 53) ≤ V → V + (n : Int) ≤ 2 ^ 53 + 1 →
    (callN n db).1 =
      (List.range n).map (fun (i : Nat) => (Except.ok (V + (i : Int)) : Except Exn Int)) := by
  induction n with
  | zero => intro db V _ _ _; simp [callN]
  | succ n ih =>
    intro db V h hlo hhi
    obtain ⟨h1, h2, _⟩ := nextIssueSheetNumber_spec db V h
    have hrest : (callN n (nextIssueSheetNumber db).2).1 =
        (List.range n).map
          (fun (i : Nat) => (Except.ok (V + 1 + (i : Int)) : Except Exn Int)) := by
      cases n with
      | zero => simp [callN]
      | succ m =>
        have hle : V + 1 ≤ 2 ^ 53 := by push_cast at hhi; omega
        rw [jsAdd_exact V 1 (by omega) hle] at h2
        exact ih _ (V + 1) h2 (by omega) (by push_cast at hhi ⊢; omega)
    simp only [callN, h1, hrest, List.range_succ_eq_map, List.map_cons, List.map_map]
    simp only [List.cons.injEq, Nat.cast_zero, add_zero, true_and]
    apply List.map_congr_left
    intro i _
    simp only [Function.comp, Nat.cast_succ]
    congr 1
    ring

/-- C1 (as stated, refuted): on the start-up database, whose Counter holds 1,
the call returns 1 and not 2, so "returns V+1" fails; and with the Counter at
2^53 the increment leaves 2^53 (the sum 2^53 + 1 is not a double), so "persisted
V+1" fails as well without a bound on V. -/
theorem C1_returns_succ_refuted :
    ¬ (∀ (db : Store) (V : Int), counterValue db = some V →
        (nextIssueSheetNumber db).1 = .ok (V + 1) ∧
          counterValue (nextIssueSheetNumber db).2 = some (V + 1)) ∧
      ¬ (∀ (db : Store) (V : Int), counterValue db = some V →
        counterValue (nextIssueSheetNumber db).2 = some (V + 1)) := by
  constructor
  · intro h
    have h1 := (h freshStore 1 (by decide)).1
    revert h1
    decide
  · intro h
    have h1 := h limitStore (2 ^ 53) (by decide)
    revert h1
    decide

/-- C1 (amended): for every store whose Counter holds V, with V at least -2^53
and below 2^53, one call of `nextIssueSheetNumber` returns V (the value before
the increment) and leaves the Counter's persisted `issueSheetNumber` equal to
V+1. -/
theorem C1_next_returns_old_persists_succ (db : Store) (V : Int)
    (h : counterValue db = some V) (hlo : -(2 ^ 53) ≤ V) (hhi : V < 2 ^ 53) :
    (nextIssueSheetNumber db).1 = .ok V ∧
      counterValue (nextIssueSheetNumber db).2 = some (V + 1) := by
  obtain ⟨h1, h2, _⟩ := nextIssueSheetNumber_spec db V h
  rw [jsAdd_exact V 1 (by omega) (by omega)] at h2
  exact ⟨h1, h2⟩

theorem C1_next_returns_old_persists_succ_witness :
    counterValue freshStore = some 1 ∧
      (nextIssueSheetNumber freshStore).1 = .ok 1 ∧
      counterValue (nextIssueSheetNumber freshStore).2 = some (1 + 1) :=
  ⟨by decide, C1_next_returns_old_persists_succ freshStore 1 (by decide) (by decide) (by decide)⟩

/-- C3 (as stated, refuted): with the Counter at 2^53 the increment leaves the
value where it is, and two successive calls both return 2^53: the sequence is
not strictly increasing and a value is returned twice. -/
theorem C3_strictly_increasing_refuted :
    (callN 2 limitStore).1 = [.ok (2 ^ 53), .ok (2 ^ 53)] ∧
      ¬ (∀ (db : Store) (n : Nat), db.counters ≠ [] →
        ∃ vals : List Int, (callN n db).1 = vals.map Except.ok ∧ vals.length = n ∧
          vals.Pairwise (· < ·) ∧ vals.Nodup) := by
  refine ⟨by decide, fun h => ?_⟩
  obtain ⟨vals, h1, _, _, hnd⟩ := h limitStore 2 (by decide)
  have h2 : (callN 2 limitStore).1 = ([2 ^ 53, 2 ^ 53] : List Int).map Except.ok := by decide
  rw [h2] at h1
  have h3 : vals = [2 ^ 53, 2 ^ 53] :=
    (List.map_injective_iff.2 (fun a b hab => by injection hab) h1).symm
  rw [h3] at hnd
  revert hnd
  decide

/-- C3 (amended): for every store whose Counter holds V and every n such that V
is at least -2^53 and the n numbers V, ..., V+n-1 are at most 2^53, n successive
calls of `nextIssueSheetNumber` all return, and the returned integers form a
strictly increasing sequence: each is greater than every earlier one and none is
returned twice. -/
theorem C3_successive_calls_strictly_increasing (db : Store) (n : Nat) (V : Int)
    (hV : counterValue db = some V) (hlo : -(2 ^ 53) ≤ V)
    (hhi : V + (n : Int) ≤ 2 ^ 53 + 1) :
    ∃ vals : List Int, (callN n db).1 = vals.map Except.ok ∧ vals.length = n ∧
      vals.Pairwise (· < ·) ∧ vals.Nodup := by
  have hp : ((List.range n).map (fun (i : Nat) => V + (i : Int))).Pairwise (· < ·) := by
    rw [List.pairwise_map]
    exact (List.pairwise_lt_range n).imp (fun hab => by simpa using hab)
  refine ⟨(List.range n).map (fun (i : Nat) => V + (i : Int)), ?_, by simp, hp, ?_⟩
  · rw [callN_spec n db V hV hlo hhi, List.map_map]
    rfl
  · exact hp.imp (fun hab => ne_of_lt hab)

theorem C3_successive_calls_strictly_increasing_witness :
    ∃ vals : List Int, (callN 3 freshStore).1 = vals.map Except.ok ∧ vals.length = 3 ∧
      vals.Pairwise (· < ·) ∧ vals.Nodup :=
  C3_successive_calls_strictly_increasing freshStore 3 1 (by decide) (by decide) (by decide)

/-! ## Creating issue sheets -/

theorem postIssueSheet_nil (env : Env) (db : Store) (body : IssueSheetBody)
    (h : db.counters = []) :
    postIssueSheet env db body = (⟨400, .thrown .typeError⟩, db) := by
  simp [postIssueSheet, nextIssueSheetNumber_nil db h]

theorem postIssueSheet_cons (env : Env) (db : Store) (body : IssueSheetBody) (c : Counter)
    (cs : List Counter) (h : db.counters = c :: cs) :
    (∃ s, s.issueSheetNumber = some c.issueSheetNumber ∧
        postIssueSheet env db body =
          (⟨201, .sheet s⟩,
            { db with
              counters := { c with issueSheetNumber := jsAdd c.issueSheetNumber 1 } :: cs,
              issueSheets := db.issueSheets ++ [s] }) ∧ body.valid env = true) ∨
      (postIssueSheet env db body =
          (⟨400, .thrown .validationError⟩,
            { db with
              counters := { c with issueSheetNumber := jsAdd c.issueSheetNumber 1 } :: cs }) ∧
        body.valid env = false) := by
  simp only [postIssueSheet, nextIssueSheetNumber_cons db c cs h, IssueSheet.create,
    IssueSheetBody.valid]
  cases hcast : castDrawingsIssued env.subId 0 (body.drawingsIssued.getD []) with
  | none => right; simp
  | some entries =>
    cases hm : mediaValid body.media with
    | false => right; simp
    | true =>
      left
      exact ⟨IssueSheet.ofBody env { body with issueSheetNumber := some c.issueSheetNumber } entries,
        rfl, by simp, by simp⟩

theorem postIssueSheet_valid (env : Env) (db : Store) (body : IssueSheetBody) (V : Int)
    (hV : counterValue db = some V) (hb : body.valid env = true) :
    ∃ s, (postIssueSheet env db body).1 = ⟨201, .sheet s⟩ ∧ s.issueSheetNumber = some V ∧
      (postIssueSheet env db body).2.issueSheets = db.issueSheets ++ [s] ∧
      counterValue (postIssueSheet env db body).2 = some (jsAdd V 1) := by
  obtain ⟨c, cs, hc, rfl⟩ := counterValue_eq_some db V hV
  rcases postIssueSheet_cons env db body c cs hc with ⟨s, hs, hp, _⟩ | ⟨_, hn⟩
  · exact ⟨s, by rw [hp], hs, by rw [hp], by rw [hp]; simp [counterValue]⟩
  · rw [hb] at hn; cases hn

/-- C2 (as stated, refuted): from the start-up database, whose Counter holds 1,
three creations give the sheets the numbers 1, 2, 3, not 2, 3, 4. -/
theorem C2_numbers_2_3_4_refuted :
    ¬ (∀ (db : Store) (e1 e2 e3 : Env) (b1 b2 b3 : IssueSheetBody),
        counterValue db = some 1 → b1.valid e1 = true → b2.valid e2 = true →
        b3.valid e3 = true →
        sheetNumbers (run db [.create e1 b1, .create e2 b2, .create e3 b3]) =
            sheetNumbers db ++ [some 2, some 3, some 4] ∧
          counterValue (run db [.create e1 b1, .create e2 b2, .create e3 b3]) = some 4) := by
  intro h
  have h1 := (h freshStore (sampleEnv 1) (sampleEnv 2) (sampleEnv 3) {} {} {}
    (by decide) (by decide) (by decide) (by decide)).1
  revert h1
  decide

/-- C2 (amended): starting from a store whose Counter holds 1, three issue sheets
created in sequence through `POST /issue-sheets` are all created (201), carry the
`issueSheetNumber`s 1, 2 and 3 respectively, and the Counter ends at 4. -/
theorem C2_three_creations_get_1_2_3 (db : Store) (e1 e2 e3 : Env)
    (b1 b2 b3 : IssueSheetBody) (hV : counterValue db = some 1)
    (h1 : b1.valid e1 = true) (h2 : b2.valid e2 = true) (h3 : b3.valid e3 = true) :
    ∃ s1 s2 s3 : IssueSheet,
      responses db [.create e1 b1, .create e2 b2, .create e3 b3] =
          [⟨201, .sheet s1⟩, ⟨201, .sheet s2⟩, ⟨201, .sheet s3⟩] ∧
        s1.issueSheetNumber = some 1 ∧ s2.issueSheetNumber = some 2 ∧
        s3.issueSheetNumber = some 3 ∧
        (run db [.create e1 b1, .create e2 b2, .create e3 b3]).issueSheets =
          db.issueSheets ++ [s1, s2, s3] ∧
        counterValue (run db [.create e1 b1, .create e2 b2, .create e3 b3]) = some 4 := by
  obtain ⟨s1, r1, n1, i1, c1⟩ := postIssueSheet_valid e1 db b1 1 hV h1
  rw [show jsAdd 1 1 = 2 by decide] at c1
  obtain ⟨s2, r2, n2, i2, c2⟩ := postIssueSheet_valid e2 _ b2 2 c1 h2
  rw [show jsAdd 2 1 = 3 by decide] at c2
  obtain ⟨s3, r3, n3, i3, c3⟩ := postIssueSheet_valid e3 _ b3 3 c2 h3
  rw [show jsAdd 3 1 = 4 by decide] at c3
  refine ⟨s1, s2, s3, ?_, n1, n2, n3, ?_, ?_⟩
  · simp [responses, handle, r1, r2, r3]
  · simp [run, handle, i1, i2, i3]
  · simpa [run, handle] using c3

theorem C2_three_creations_get_1_2_3_witness :
    ∃ s1 s2 s3 : IssueSheet,
      responses freshStore [.create (sampleEnv 1) {}, .create (sampleEnv 2) {},
            .create (sampleEnv 3) {}] =
          [⟨201, .sheet s1⟩, ⟨201, .sheet s2⟩, ⟨201, .sheet s3⟩] ∧
        s1.issueSheetNumber = some 1 ∧ s2.issueSheetNumber = some 2 ∧
        s3.issueSheetNumber = some 3 ∧
        (run freshStore [.create (sampleEnv 1) {}, .create (sampleEnv 2) {},
            .create (sampleEnv 3) {}]).issueSheets = freshStore.issueSheets ++ [s1, s2, s3] ∧
        counterValue (run freshStore [.create (sampleEnv 1) {}, .create (sampleEnv 2) {},
            .create (sampleEnv 3) {}]) = some 4 :=
  C2_three_creations_get_1_2_3 freshStore (sampleEnv 1) (sampleEnv 2) (sampleEnv 3) {} {} {}
    (by decide) (by decide) (by decide) (by decide)

/-- C5: for every request body given to `POST /issue-sheets`, the response and
the database do not depend on the `issueSheetNumber` the body carries, and the
sheet that is created (appended to the collection and returned with status 201)
has as its `issueSheetNumber` the value `nextIssueSheetNumber` returned; with a
Counter present and a body that passes validation the sheet is created. -/
theorem C5_created_number_is_the_allocated_one (env : Env) (db : Store)
    (body : IssueSheetBody) :
    (∀ x : Option Int,
        postIssueSheet env db { body with issueSheetNumber := x } = postIssueSheet env db body) ∧
      (∀ s : IssueSheet, (postIssueSheet env db body).1 = ⟨201, .sheet s⟩ →
        ∃ n : Int, (nextIssueSheetNumber db).1 = .ok n ∧ s.issueSheetNumber = some n ∧
          (postIssueSheet env db body).2.issueSheets = db.issueSheets ++ [s]) ∧
      (db.counters ≠ [] → body.valid env = true →
        ∃ s : IssueSheet, (postIssueSheet env db body).1 = ⟨201, .sheet s⟩) := by
  refine ⟨fun x => by simp [postIssueSheet], fun s hs => ?_, fun hne hb => ?_⟩
  · cases hc : db.counters with
    | nil => rw [postIssueSheet_nil env db body hc] at hs; simp at hs
    | cons c cs =>
      rcases postIssueSheet_cons env db body c cs hc with ⟨t, ht, hp, _⟩ | ⟨hp, _⟩
      · rw [hp] at hs ⊢
        simp only [Response.mk.injEq, Payload.sheet.injEq, true_and] at hs
        subst hs
        exact ⟨c.issueSheetNumber, by rw [nextIssueSheetNumber_cons db c cs hc], ht, rfl⟩
      · rw [hp] at hs; simp at hs
  · cases hc : db.counters with
    | nil => exact absurd hc hne
    | cons c cs =>
      obtain ⟨s, h1, _⟩ :=
        postIssueSheet_valid env db body c.issueSheetNumber (by simp [counterValue, hc]) hb
      exact ⟨s, h1⟩

theorem C5_created_number_is_the_allocated_one_witness :
    ∃ n : Int, (nextIssueSheetNumber freshStore).1 = .ok n ∧
      (IssueSheet.ofBody (sampleEnv 1) { issueSheetNumber := some 1 } []).issueSheetNumber
        = some n ∧
      (postIssueSheet (sampleEnv 1) freshStore { issueSheetNumber := some 77 }).2.issueSheets =
        freshStore.issueSheets ++
          [IssueSheet.ofBody (sampleEnv 1) { issueSheetNumber := some 1 } []] :=
  (C5_created_number_is_the_allocated_one (sampleEnv 1) freshStore
    { issueSheetNumber := some 77 }).2.1 _ (by decide)

/-- C6: when no Counter document exists, `nextIssueSheetNumber` throws instead of
returning a number and leaves the database unchanged; `POST /issue-sheets` then
answers with an error (status 400), creates no issue sheet and leaves the
database unchanged. -/
theorem C6_no_counter_fails_and_creates_nothing (db : Store) (h : db.counters = []) :
    nextIssueSheetNumber db = (.error .typeError, db) ∧
      ∀ (env : Env) (body : IssueSheetBody),
        postIssueSheet env db body = (⟨400, .thrown .typeError⟩, db) :=
  ⟨nextIssueSheetNumber_nil db h, fun env body => postIssueSheet_nil env db body h⟩

theorem C6_no_counter_fails_and_creates_nothing_witness :
    nextIssueSheetNumber ({} : Store) = (.error .typeError, {}) ∧
      ∀ (env : Env) (body : IssueSheetBody),
        postIssueSheet env ({} : Store) body = (⟨400, .thrown .typeError⟩, {}) :=
  C6_no_counter_fails_and_creates_nothing {} rfl

/-! ## Uniqueness of issue-sheet numbers -/

theorem map_replaceFirst_of_find {α β : Type} (f : α → β) (p : α → Bool) (x y : α)
    (hxy : f y = f x) : ∀ l : List α, l.find? p = some x →
    (replaceFirst p y l).map f = l.map f := by
  intro l
  induction l with
  | nil => intro h; simp at h
  | cons a l ih =>
    intro h
    by_cases hp : p a = true
    · have hax : a = x := by simpa [List.find?, hp] using h
      subst hax
      simp [replaceFirst, hp, hxy]
    · have hl : l.find? p = some x := by simpa [List.find?, hp] using h
      simp [replaceFirst, hp, ih hl]

theorem removeFirst_sublist {α : Type} (p : α → Bool) (l : List α) :
    (removeFirst p l).Sublist l := by
  induction l with
  | nil => exact List.Sublist.slnil
  | cons a l ih =>
    by_cases hp : p a = true
    · simp [removeFirst, hp]
    · simpa [removeFirst, hp] using ih

theorem find_id_eq (l : List IssueSheet) (oid : ObjectId) (doc : IssueSheet)
    (h : l.find? (fun s => s._id == oid) = some doc) : doc._id = oid := by
  have := List.find?_some h
  simpa using this

theorem save_sheetNumbers (db : Store) (oid : ObjectId) (doc doc1 : IssueSheet)
    (h : db.issueSheets.find? (fun s => s._id == oid) = some doc) (hid : doc1._id = doc._id)
    (hn : doc1.issueSheetNumber = doc.issueSheetNumber) :
    (IssueSheet.save db doc1).2.counters = db.counters ∧
      sheetNumbers (IssueSheet.save db doc1).2 = sheetNumbers db := by
  have hoid : doc1._id = oid := by rw [hid]; exact find_id_eq _ _ _ h
  unfold IssueSheet.save
  split
  · refine ⟨rfl, ?_⟩
    simp only [sheetNumbers, hoid]
    exact map_replaceFirst_of_find _ _ doc doc1 hn _ h
  · exact ⟨rfl, rfl⟩

/-- Whatever `save()` answers, a handler that ends with it leaves the database
that `save()` leaves. -/
theorem save_match_snd (db : Store) (doc1 : IssueSheet) (r1 r2 : Response) :
    (match IssueSheet.save db doc1 with
      | (.error _, db1) => (r1, db1)
      | (.ok _, db1) => (r2, db1)).2 = (IssueSheet.save db doc1).2 := by
  cases hs : IssueSheet.save db doc1 with
  | mk r db1 => cases r <;> rfl

/-- Every request but a creation leaves the Counter alone and keeps or drops
stored numbers, provided it is not an update that carries a number. -/
theorem handle_keeps_numbers (db : Store) (op : Op) (hk : op.keepsNumber = true)
    (hc : op.isCreate = false) :
    (handle db op).2.counters = db.counters ∧
      (sheetNumbers (handle db op).2).Sublist (sheetNumbers db) := by
  cases op with
  | create env body => simp [Op.isCreate] at hc
  | update env id updateData =>
    simp only [Op.keepsNumber, Option.isNone_iff_eq_none] at hk
    simp only [handle, putIssueSheet, IssueSheet.findByIdAndUpdate]
    cases castObjectId id with
    | none => exact ⟨rfl, List.Sublist.refl _⟩
    | some oid =>
      dsimp only
      cases castUpdateEntries env.subId updateData.drawingsIssued with
      | none => exact ⟨rfl, List.Sublist.refl _⟩
      | some entries =>
        dsimp only
        cases hf : db.issueSheets.find? (fun s => s._id == oid) with
        | none => exact ⟨rfl, List.Sublist.refl _⟩
        | some doc =>
          dsimp only
          refine ⟨rfl, ?_⟩
          have hn : (IssueSheet.applyUpdate doc updateData entries).issueSheetNumber =
              doc.issueSheetNumber := by simp [IssueSheet.applyUpdate, hk]
          have := map_replaceFirst_of_find (fun s : IssueSheet => s.issueSheetNumber)
            (fun s => s._id == oid) doc _ hn _ hf
          simp only [sheetNumbers]
          rw [this]
  | delete id =>
    simp only [handle, deleteIssueSheet, IssueSheet.findByIdAndDelete]
    cases castObjectId id with
    | none => exact ⟨rfl, List.Sublist.refl _⟩
    | some oid =>
      dsimp only
      cases hf : db.issueSheets.find? (fun s => s._id == oid) with
      | none => exact ⟨rfl, List.Sublist.refl _⟩
      | some doc =>
        dsimp only
        exact ⟨rfl, (removeFirst_sublist _ _).map _⟩
  | addDrawing env issueSheetId drawing copies =>
    simp only [handle, addDrawing, IssueSheet.findById]
    cases castObjectId issueSheetId with
    | none => exact ⟨rfl, List.Sublist.refl _⟩
    | some oid =>
      dsimp only
      cases hf : db.issueSheets.find? (fun s => s._id == oid) with
      | none => exact ⟨rfl, List.Sublist.refl _⟩
      | some doc =>
        simp only [Option.map_some']
        cases addDrawingEdit env (IssueSheet.hydrate env.schemaDate doc).drawingsIssued
            drawing copies with
        | none => exact ⟨rfl, List.Sublist.refl _⟩
        | some edited =>
          dsimp only
          rw [save_match_snd]
          obtain ⟨h1, h2⟩ := save_sheetNumbers db oid doc
            { IssueSheet.hydrate env.schemaDate doc with drawingsIssued := edited } hf rfl rfl
          exact ⟨h1, by rw [h2]⟩
  | removeDrawing env issueSheetId drawingId =>
    simp only [handle, removeDrawing, IssueSheet.findById]
    cases castObjectId issueSheetId with
    | none => exact ⟨rfl, List.Sublist.refl _⟩
    | some oid =>
      dsimp only
      cases hf : db.issueSheets.find? (fun s => s._id == oid) with
      | none => exact ⟨rfl, List.Sublist.refl _⟩
      | some doc =>
        simp only [Option.map_some']
        cases findIndex (fun d => (JsValue.oid d._id).strictEqStr drawingId)
            (IssueSheet.hydrate env.schemaDate doc).drawingsIssued with
        | none => exact ⟨rfl, List.Sublist.refl _⟩
        | some i =>
          dsimp only
          rw [save_match_snd]
          obtain ⟨h1, h2⟩ := save_sheetNumbers db oid doc
            { IssueSheet.hydrate env.schemaDate doc with
              drawingsIssued := splice1 i (IssueSheet.hydrate env.schemaDate doc).drawingsIssued }
            hf rfl rfl
          exact ⟨h1, by rw [h2]⟩

/-- A creation uses up one of the creations the invariant provides for. -/
theorem create_preserves_invariant (env : Env) (db : Store) (body : IssueSheetBody) (k : Nat)
    (hinv : NumbersBelowCounter (k + 1) db) :
    NumbersBelowCounter k (postIssueSheet env db body).2 := by
  cases hcs : db.counters with
  | nil =>
    rw [postIssueSheet_nil env db body hcs]
    refine ⟨hinv.1, Or.inr (fun V hV => ?_)⟩
    simp [counterValue, hcs] at hV
  | cons c cs =>
    have hV : counterValue db = some c.issueSheetNumber := by simp [counterValue, hcs]
    rcases hinv.2 with h0 | hb
    · omega
    obtain ⟨hlt, hlo, hhi⟩ := hb _ hV
    push_cast at hhi
    have hexact : k ≠ 0 → jsAdd c.issueSheetNumber 1 = c.issueSheetNumber + 1 := by
      intro hk0
      have : (1 : Int) ≤ (k : Int) := by omega
      exact jsAdd_exact _ _ (by omega) (by omega)
    rcases postIssueSheet_cons env db body c cs hcs with ⟨s, hs, hp, _⟩ | ⟨hp, _⟩
    · rw [hp]
      constructor
      · simp only [sheetNumbers, List.map_append, List.map_cons, List.map_nil, hs]
        rw [List.nodup_append]
        refine ⟨hinv.1, List.nodup_singleton _, ?_⟩
        intro x hx hx1
        obtain ⟨n, h1, h2⟩ := hlt x hx
        simp only [List.mem_singleton] at hx1
        rw [hx1] at h1
        cases h1
        exact lt_irrefl _ h2
      · by_cases hk0 : k = 0
        · exact Or.inl hk0
        · right
          intro V hVn
          have hVe : V = jsAdd c.issueSheetNumber 1 := by simpa [counterValue] using hVn.symm
          rw [hexact hk0] at hVe
          subst hVe
          refine ⟨fun x hx => ?_, by omega, by omega⟩
          simp only [sheetNumbers, List.map_append, List.map_cons, List.map_nil, hs,
            List.mem_append, List.mem_singleton] at hx
          rcases hx with hx | hx
          · obtain ⟨n, h1, h2⟩ := hlt x hx
            exact ⟨n, h1, by omega⟩
          · exact ⟨c.issueSheetNumber, hx, by omega⟩
    · rw [hp]
      refine ⟨hinv.1, ?_⟩
      by_cases hk0 : k = 0
      · exact Or.inl hk0
      · right
        intro V hVn
        have hVe : V = jsAdd c.issueSheetNumber 1 := by simpa [counterValue] using hVn.symm
        rw [hexact hk0] at hVe
        subst hVe
        refine ⟨fun x hx => ?_, by omega, by omega⟩
        obtain ⟨n, h1, h2⟩ := hlt x hx
        exact ⟨n, h1, by omega⟩

theorem handle_preserves_invariant (db : Store) (op : Op) (hk : op.keepsNumber = true)
    (hc : op.isCreate = false) (k : Nat) (hinv : NumbersBelowCounter k db) :
    NumbersBelowCounter k (handle db op).2 := by
  obtain ⟨h1, h2⟩ := handle_keeps_numbers db op hk hc
  refine ⟨hinv.1.sublist h2, ?_⟩
  rcases hinv.2 with h0 | hb
  · exact Or.inl h0
  · right
    intro V hV
    have hV1 : counterValue db = some V := by simpa [counterValue, h1] using hV
    obtain ⟨hlt, hlo, hhi⟩ := hb V hV1
    exact ⟨fun x hx => hlt x (h2.subset hx), hlo, hhi⟩

theorem run_preserves_invariant (ops : List Op) : ∀ db : Store,
    (∀ op ∈ ops, op.keepsNumber = true) → NumbersBelowCounter (creations ops) db →
    (sheetNumbers (run db ops)).Nodup := by
  induction ops with
  | nil => intro db _ h; exact h.1
  | cons op ops ih =>
    intro db hk h
    have hk1 := hk op (List.mem_cons_self _ _)
    have hrest : ∀ o ∈ ops, o.keepsNumber = true := fun o ho => hk o (List.mem_cons_of_mem _ ho)
    cases hc : op.isCreate with
    | false =>
      have hcount : creations (op :: ops) = creations ops := by
        simp [creations, List.countP_cons, hc]
      rw [hcount] at h
      exact ih _ hrest (handle_preserves_invariant db op hk1 hc _ h)
    | true =>
      have hcount : creations (op :: ops) = creations ops + 1 := by
        simp [creations, List.countP_cons, hc]
      rw [hcount] at h
      cases op with
      | create env body => exact ih _ hrest (create_preserves_invariant env db body _ h)
      | update env id updateData => simp [Op.isCreate] at hc
      | delete id => simp [Op.isCreate] at hc
      | addDrawing env issueSheetId drawing copies => simp [Op.isCreate] at hc
      | removeDrawing env issueSheetId drawingId => simp [Op.isCreate] at hc

/-- C4 (as stated, refuted): from an empty collection, two creations followed by
an update of the second sheet whose body carries `issueSheetNumber: 1` leave two
stored sheets numbered 1; and with the Counter at 2^53, where the increment
leaves the value, two creations alone leave two stored sheets numbered 2^53. -/
theorem C4_unique_numbers_refuted :
    ¬ (∀ (db : Store) (ops : List Op), db.issueSheets = [] →
        (sheetNumbers (run db ops)).Nodup) ∧
      ¬ (∀ (db : Store) (ops : List Op), db.issueSheets = [] →
        (∀ op ∈ ops, op.keepsNumber = true) → (sheetNumbers (run db ops)).Nodup) := by
  constructor
  · intro h
    have h1 := h freshStore
      [.create (sampleEnv 1) {}, .create (sampleEnv 2) {},
        .update (sampleEnv 3) sampleId2 { issueSheetNumber := some 1 }] rfl
    revert h1
    decide
  · intro h
    have h1 := h limitStore [.create (sampleEnv 1) {}, .create (sampleEnv 2) {}] rfl
      (by decide)
    revert h1
    decide

/-- C4 (amended): in every state reachable from an empty IssueSheet collection by
any sequence of create, update by id, delete by id, addDrawing and removeDrawing
requests in which no update body carries an `issueSheetNumber`, no two stored
issue sheets have the same `issueSheetNumber`, provided that the value V of the
Counter at the start, if there is a Counter, is at least -2^53 and that the
numbers V, V+1, ... to be given out, one for each creation request of the
sequence, are at most 2^53. -/
theorem C4_unique_numbers_without_client_numbers (db : Store) (ops : List Op)
    (h0 : db.issueSheets = []) (hk : ∀ op ∈ ops, op.keepsNumber = true)
    (hV : ∀ V : Int, counterValue db = some V →
      -(2 ^ 53) ≤ V ∧ V + (creations ops : Int) ≤ 2 ^ 53 + 1) :
    (sheetNumbers (run db ops)).Nodup := by
  refine run_preserves_invariant ops db hk ⟨by simp [sheetNumbers, h0], Or.inr (fun V h => ?_)⟩
  exact ⟨by simp [sheetNumbers, h0], hV V h⟩

theorem C4_unique_numbers_without_client_numbers_witness :
    (sheetNumbers (run freshStore
      [.create (sampleEnv 1) {}, .create (sampleEnv 2) { issueSheetNumber := some 1 },
        .update (sampleEnv 3) sampleId2 { remarks := some "checked" },
        .delete sampleId2, .create (sampleEnv 4) {}])).Nodup :=
  C4_unique_numbers_without_client_numbers freshStore _ rfl (by decide)
    (fun V h => by
      have h1 : V = 1 := (Option.some.inj h).symm
      subst h1
      decide)

/-! ## Identifiers and their text -/

theorem hexVal_hexChar : ∀ n : Fin 16, hexVal (hexChar n) = some n := by decide

theorem parseHex_map_hexChar (ns : List (Fin 16)) : parseHex (ns.map hexChar) = some ns := by
  induction ns with
  | nil => rfl
  | cons n ns ih => simp [parseHex, hexVal_hexChar, ih]

theorem castObjectId_toHexString (d : ObjectId) : castObjectId d.toHexString = some d := by
  simp [castObjectId, ObjectId.toHexString, parseHex_map_hexChar, d.size_eq]

theorem toHexString_injective (a b : ObjectId) (h : a.toHexString = b.toHexString) : a = b := by
  have h1 := castObjectId_toHexString a
  rw [h, castObjectId_toHexString b] at h1
  exact (Option.some.inj h1).symm

theorem strictEqStr_toHexString (a d : ObjectId) :
    (JsValue.str a.toHexString).strictEqStr d.toHexString = decide (a = d) := by
  by_cases h : a = d
  · simp [JsValue.strictEqStr, h]
  · have : a.toHexString ≠ d.toHexString := fun e => h (toHexString_injective a d e)
    simp [JsValue.strictEqStr, h, this]

/-! ## Lists -/

theorem findIndex_none_iff {α : Type} (p : α → Bool) (l : List α) :
    findIndex p l = none ↔ ∀ x ∈ l, p x = false := by
  induction l with
  | nil => simp [findIndex]
  | cons a l ih =>
    by_cases hp : p a = true
    · simp [findIndex, hp]
    · simp [findIndex, hp, ih]

theorem find_replaceFirst {α : Type} (p : α → Bool) (x y : α) (hy : p y = true) :
    ∀ l : List α, l.find? p = some x → (replaceFirst p y l).find? p = some y := by
  intro l
  induction l with
  | nil => intro h; simp at h
  | cons a l ih =>
    intro h
    by_cases hp : p a = true
    · simp [replaceFirst, hp, List.find?, hy]
    · have hl : l.find? p = some x := by simpa [List.find?, hp] using h
      simp [replaceFirst, hp, List.find?, ih hl]

/-! ## The issued-drawings list -/

theorem addDrawingEdit_aux (newId d : ObjectId) (copies : Int) (l : List DrawingIssued) :
    (match findIndex (fun e => decide (e.drawing = d)) l with
      | some i => modifyAt (fun e => { e with copies := jsAdd e.copies copies }) i l
      | none => l ++ [{ _id := newId, drawing := d, copies := copies }]) =
      addCopies newId d copies l := by
  induction l with
  | nil => rfl
  | cons a l ih =>
    by_cases h : a.drawing = d
    · simp [findIndex, addCopies, h, modifyAt]
    · simp only [findIndex, addCopies, h, decide_False, if_false, Bool.false_eq_true]
      rw [← ih]
      cases findIndex (fun e => decide (e.drawing = d)) l with
      | none => rfl
      | some i => rfl

/-- The edit made by the handler, for a request that carries the drawing
reference `d` as its hexadecimal text, in recursive form. -/
theorem addDrawingEdit_toHexString (env : Env) (l : List DrawingIssued) (d : ObjectId)
    (copies : Int) :
    addDrawingEdit env l d.toHexString copies = some (addCopies env.newId d copies l) := by
  have hp : (fun e : DrawingIssued => (JsValue.str e.drawing.toHexString).strictEqStr
      d.toHexString) = (fun e => decide (e.drawing = d)) := by
    funext e
    exact strictEqStr_toHexString e.drawing d
  rw [← addDrawingEdit_aux]
  simp only [addDrawingEdit, hp, castObjectId_toHexString]
  cases findIndex (fun e => decide (e.drawing = d)) l with
  | none => rfl
  | some i => rfl

theorem addCopies_absent (newId d : ObjectId) (copies : Int) (l : List DrawingIssued)
    (h : ∀ e ∈ l, e.drawing ≠ d) :
    addCopies newId d copies l = l ++ [{ _id := newId, drawing := d, copies := copies }] := by
  induction l with
  | nil => rfl
  | cons a l ih =>
    have ha : a.drawing ≠ d := h a (List.mem_cons_self _ _)
    simp [addCopies, ha, ih (fun e he => h e (List.mem_cons_of_mem _ he))]

theorem addCopies_present (newId d : ObjectId) (copies : Int) :
    ∀ (l : List DrawingIssued) (i : Nat) (e : DrawingIssued), l[i]? = some e → e.drawing = d →
      (∀ j < i, ∀ x, l[j]? = some x → x.drawing ≠ d) →
      (addCopies newId d copies l).length = l.length ∧
        (addCopies newId d copies l)[i]? = some { e with copies := jsAdd e.copies copies } ∧
        ∀ j, j ≠ i → (addCopies newId d copies l)[j]? = l[j]? := by
  intro l
  induction l with
  | nil => intro i e h; simp at h
  | cons a l ih =>
    intro i e hi hd hfirst
    cases i with
    | zero =>
      have hae : a = e := by simpa using hi
      subst hae
      refine ⟨by simp [addCopies, hd], by simp [addCopies, hd], fun j hj => ?_⟩
      cases j with
      | zero => exact absurd rfl hj
      | succ j => simp [addCopies, hd]
    | succ i =>
      have ha : a.drawing ≠ d := hfirst 0 (Nat.succ_pos i) a (by simp)
      have hi1 : l[i]? = some e := by simpa using hi
      obtain ⟨h1, h2, h3⟩ := ih i e hi1 hd
        (fun j hj x hx => hfirst (j + 1) (Nat.succ_lt_succ hj) x (by simpa using hx))
      refine ⟨by simp [addCopies, ha, h1], by simpa [addCopies, ha] using h2, fun j hj => ?_⟩
      cases j with
      | zero => simp [addCopies, ha]
      | succ j =>
        have := h3 j (fun h => hj (by rw [h]))
        simpa [addCopies, ha] using this

/-- A loaded document has its two dates, so loading it again, under any schema
default, changes nothing. -/
theorem hydrate_hydrate (d1 d2 : Int) (x : IssueSheet) :
    IssueSheet.hydrate d2 (IssueSheet.hydrate d1 x) = IssueSheet.hydrate d1 x := by
  simp [IssueSheet.hydrate, Signatory.hydrate]

/-- What `findById` found: the stored document with the identifier, loaded. -/
theorem issueSheetFindById_some (env : Env) (db : Store) (sid : String) (sheet : IssueSheet)
    (hf : IssueSheet.findById env db sid = .ok (some sheet)) :
    ∃ (oid : ObjectId) (stored : IssueSheet), castObjectId sid = some oid ∧
      db.issueSheets.find? (fun s => s._id == oid) = some stored ∧
      sheet = IssueSheet.hydrate env.schemaDate stored := by
  unfold IssueSheet.findById at hf
  cases hc : castObjectId sid with
  | none => simp [hc] at hf
  | some oid =>
    cases hfind : db.issueSheets.find? (fun s => s._id == oid) with
    | none => simp [hc, hfind] at hf
    | some stored =>
      refine ⟨oid, stored, rfl, hfind, ?_⟩
      simp only [hc, hfind, Option.map_some'] at hf
      injection hf with hf
      injection hf with hf
      exact hf.symm

/-- The response and the stored sheet after `addDrawing`, for an existing sheet
whose stored `media` passes validation and an edit that is accepted. -/
theorem addDrawing_of_edit (env : Env) (db : Store) (sid drawing : String) (copies : Int)
    (sheet : IssueSheet) (edited : List DrawingIssued)
    (hf : IssueSheet.findById env db sid = .ok (some sheet))
    (he : addDrawingEdit env sheet.drawingsIssued drawing copies = some edited)
    (hm : mediaValid sheet.media = true) :
    (addDrawing env db sid drawing copies).1 =
        ⟨201, .messageSheet "Drawing added successfully" { sheet with drawingsIssued := edited }⟩ ∧
      (∀ env2 : Env, IssueSheet.findById env2 (addDrawing env db sid drawing copies).2 sid =
        .ok (some { sheet with drawingsIssued := edited })) ∧
      (addDrawing env db sid drawing copies).2.counters = db.counters := by
  obtain ⟨oid, stored, hc, hfind, hsheet⟩ := issueSheetFindById_some env db sid sheet hf
  have hid : sheet._id = oid := by
    rw [hsheet]
    exact find_id_eq _ _ stored hfind
  have hadd : addDrawing env db sid drawing copies =
      (⟨201, .messageSheet "Drawing added successfully" { sheet with drawingsIssued := edited }⟩,
        { db with
          issueSheets := (replaceFirst (fun s => s._id == oid)
            { sheet with drawingsIssued := edited } db.issueSheets) }) := by
    simp only [addDrawing, hf, he, IssueSheet.save, hm, if_true, hid]
  rw [hadd]
  refine ⟨rfl, fun env2 => ?_, rfl⟩
  simp only [IssueSheet.findById, hc]
  rw [find_replaceFirst (fun s => s._id == oid) stored _ (by simp [hid]) _ hfind]
  simp only [Option.map_some']
  have hh : IssueSheet.hydrate env2.schemaDate { sheet with drawingsIssued := edited } =
      { sheet with drawingsIssued := edited } := by
    rw [hsheet]
    simp [IssueSheet.hydrate, Signatory.hydrate]
  rw [hh]

/-- On a sheet whose stored `media` is outside the enum, `save()` rejects:
`addDrawing` answers 500 and writes nothing. -/
theorem addDrawing_of_invalid_media (env : Env) (db : Store) (sid drawing : String)
    (copies : Int) (sheet : IssueSheet)
    (hf : IssueSheet.findById env db sid = .ok (some sheet))
    (hm : mediaValid sheet.media = false) :
    addDrawing env db sid drawing copies = (⟨500, .error "Server error"⟩, db) := by
  simp only [addDrawing, hf]
  cases addDrawingEdit env sheet.drawingsIssued drawing copies with
  | none => rfl
  | some edited => simp [IssueSheet.save, hm]

theorem addCopies_append_present (newId d : ObjectId) (copies : Int) (e : DrawingIssued)
    (he : e.drawing = d) (l : List DrawingIssued) (h : ∀ x ∈ l, x.drawing ≠ d) :
    addCopies newId d copies (l ++ [e]) = l ++ [{ e with copies := jsAdd e.copies copies }] := by
  induction l with
  | nil => simp [addCopies, he]
  | cons a l ih =>
    have ha : a.drawing ≠ d := h a (List.mem_cons_self _ _)
    simp [addCopies, ha, ih (fun x hx => h x (List.mem_cons_of_mem _ hx))]

theorem filter_drawing_absent (d : ObjectId) (l : List DrawingIssued)
    (h : ∀ x ∈ l, x.drawing ≠ d) : l.filter (fun x => decide (x.drawing = d)) = [] := by
  rw [List.filter_eq_nil_iff]
  intro x hx
  simpa using h x hx

/-- For a request that carries the drawing reference as its hexadecimal text,
the edit keeps the drawings of the entries pairwise distinct. -/
theorem addCopies_nodup (newId d : ObjectId) (copies : Int) (l : List DrawingIssued)
    (h : (l.map (·.drawing)).Nodup) : ((addCopies newId d copies l).map (·.drawing)).Nodup := by
  induction l with
  | nil => simp [addCopies]
  | cons a l ih =>
    rw [List.map_cons, List.nodup_cons] at h
    by_cases ha : a.drawing = d
    · simpa [addCopies, ha] using h
    · have hmem : ∀ x ∈ addCopies newId d copies l, x.drawing = d ∨ x.drawing ∈ l.map (·.drawing) := by
        intro x hx
        by_cases hd : ∀ e ∈ l, e.drawing ≠ d
        · rw [addCopies_absent newId d copies l hd] at hx
          rcases List.mem_append.1 hx with hx | hx
          · exact Or.inr (List.mem_map_of_mem _ hx)
          · left; simp at hx; rw [hx]
        · right
          clear ih h ha
          induction l with
          | nil => simp at hd
          | cons b l ihl =>
            by_cases hb : b.drawing = d
            · simp only [addCopies, hb, if_true, List.mem_cons] at hx
              rcases hx with hx | hx
              · simp [hx, hb]
              · simp [List.mem_map_of_mem (fun e : DrawingIssued => e.drawing) hx]
            · simp only [addCopies, hb, if_false, List.mem_cons] at hx
              rcases hx with hx | hx
              · simp [hx]
              · have hd1 : ¬ ∀ e ∈ l, e.drawing ≠ d := by
                  intro hall
                  apply hd
                  intro e he
                  rcases List.mem_cons.1 he with he | he
                  · rw [he]; exact hb
                  · exact hall e he
                have := ihl hx hd1
                simp only [List.map_cons, List.mem_cons]
                exact Or.inr this
      simp only [addCopies, ha, if_false, List.map_cons, List.nodup_cons]
      refine ⟨?_, ih h.2⟩
      intro hin
      obtain ⟨x, hx, hxa⟩ := List.mem_map.1 hin
      rcases hmem x hx with h1 | h1
      · exact ha (hxa ▸ h1)
      · exact h.1 (hxa ▸ h1)

/-- C7 (as stated, refuted): two requests on existing issue sheets. In
`paperStore` the sheet `111...1` has the stored media "paper" (a `PUT` wrote it
without validation) and no entry for the drawing `bbb...b`; the request adding 3
copies of that drawing answers 500 and writes nothing, so no entry is appended.
In `sampleStore` the sheet holds 2 copies of `aaa...a`; the request adding
2^53 - 1 copies leaves that entry with 2^53 copies, not 2^53 + 1, the sum of
doubles being rounded. So the claim fails for the sheets, drawings and amounts it
quantifies over. -/
theorem C7_addDrawing_refuted :
    (IssueSheet.findById (sampleEnv 3) paperStore sampleId1 =
          .ok (some { sampleSheet with media := some "paper" }) ∧
        (∀ e ∈ sampleSheet.drawingsIssued, e.drawing ≠ oidOf 11) ∧
        addDrawing (sampleEnv 3) paperStore sampleId1 (oidOf 11).toHexString 3 =
          (⟨500, .error "Server error"⟩, paperStore)) ∧
      (IssueSheet.findById (sampleEnv 3) sampleStore sampleId1 = .ok (some sampleSheet) ∧
        sampleSheet.drawingsIssued = [{ _id := oidOf 2, drawing := oidOf 10, copies := 2 }] ∧
        IssueSheet.findById (sampleEnv 3)
            (addDrawing (sampleEnv 3) sampleStore sampleId1 (oidOf 10).toHexString
              (2 ^ 53 - 1)).2 sampleId1 =
          .ok (some { sampleSheet with drawingsIssued :=
            [{ _id := oidOf 2, drawing := oidOf 10, copies := 2 ^ 53 }] })) ∧
      ¬ (∀ (env : Env) (db : Store) (sid : String) (sheet : IssueSheet) (d : ObjectId) (c : Int),
          IssueSheet.findById env db sid = .ok (some sheet) →
          ∃ edited : List DrawingIssued,
            IssueSheet.findById env (addDrawing env db sid d.toHexString c).2 sid =
                .ok (some { sheet with drawingsIssued := edited }) ∧
              (∀ (i : Nat) (e : DrawingIssued), sheet.drawingsIssued[i]? = some e →
                e.drawing = d →
                (∀ j < i, ∀ x, sheet.drawingsIssued[j]? = some x → x.drawing ≠ d) →
                edited.length = sheet.drawingsIssued.length ∧
                  edited[i]? = some { e with copies := e.copies + c } ∧
                  ∀ j, j ≠ i → edited[j]? = sheet.drawingsIssued[j]?) ∧
              ((∀ e ∈ sheet.drawingsIssued, e.drawing ≠ d) →
                edited = sheet.drawingsIssued ++
                  [{ _id := env.newId, drawing := d, copies := c }])) := by
  refine ⟨by decide, by decide, fun h => ?_⟩
  obtain ⟨edited, h1, _, h3⟩ := h (sampleEnv 3) paperStore sampleId1
    { sampleSheet with media := some "paper" } (oidOf 11) 3 (by decide)
  have h4 := h3 (by decide)
  rw [h4] at h1
  revert h1
  decide

/-- C7 (amended): for every existing issue sheet whose stored `media` is absent
or one of "electronic" and "physical", drawing reference d and amount c, the
`addDrawing` request that carries d (as its hexadecimal text) and c answers 201
and persists a list such that: if an entry for d exists, the length and every
entry but the first for d are unchanged, and that first entry has its copies
increased by c whenever the sum is at most 2^53 in magnitude; otherwise the list
is the old one with the entry (d, c) appended at the end. The sheet is the
stored one as loaded, with the schema's default for a date it lacks, and is
saved and returned so. -/
theorem C7_addDrawing_increments_or_appends (env : Env) (db : Store) (sid : String)
    (sheet : IssueSheet) (d : ObjectId) (c : Int)
    (hf : IssueSheet.findById env db sid = .ok (some sheet))
    (hm : mediaValid sheet.media = true) :
    ∃ edited : List DrawingIssued,
      (addDrawing env db sid d.toHexString c).1 =
          ⟨201, .messageSheet "Drawing added successfully"
            { sheet with drawingsIssued := edited }⟩ ∧
        IssueSheet.findById env (addDrawing env db sid d.toHexString c).2 sid =
          .ok (some { sheet with drawingsIssued := edited }) ∧
        (∀ (i : Nat) (e : DrawingIssued), sheet.drawingsIssued[i]? = some e → e.drawing = d →
          (∀ j < i, ∀ x, sheet.drawingsIssued[j]? = some x → x.drawing ≠ d) →
          edited.length = sheet.drawingsIssued.length ∧
            (-(2 ^ 53) ≤ e.copies + c → e.copies + c ≤ 2 ^ 53 →
              edited[i]? = some { e with copies := e.copies + c }) ∧
            ∀ j, j ≠ i → edited[j]? = sheet.drawingsIssued[j]?) ∧
        ((∀ e ∈ sheet.drawingsIssued, e.drawing ≠ d) →
          edited = sheet.drawingsIssued ++ [{ _id := env.newId, drawing := d, copies := c }]) := by
  obtain ⟨h1, h2, _⟩ := addDrawing_of_edit env db sid d.toHexString c sheet _ hf
    (addDrawingEdit_toHexString env sheet.drawingsIssued d c) hm
  refine ⟨_, h1, h2 env, fun i e hi hd hfirst => ?_,
    fun habs => addCopies_absent env.newId d c _ habs⟩
  obtain ⟨p1, p2, p3⟩ := addCopies_present env.newId d c _ i e hi hd hfirst
  exact ⟨p1, fun hlo hhi => by rw [p2, jsAdd_exact _ _ hlo hhi], p3⟩

theorem C7_addDrawing_increments_or_appends_witness :
    ∃ edited : List DrawingIssued,
      (addDrawing (sampleEnv 3) sampleStore sampleId1 (oidOf 10).toHexString 3).1 =
          ⟨201, .messageSheet "Drawing added successfully"
            { sampleSheet with drawingsIssued := edited }⟩ ∧
        IssueSheet.findById (sampleEnv 3)
            (addDrawing (sampleEnv 3) sampleStore sampleId1 (oidOf 10).toHexString 3).2 sampleId1 =
          .ok (some { sampleSheet with drawingsIssued := edited }) ∧
        (∀ (i : Nat) (e : DrawingIssued), sampleSheet.drawingsIssued[i]? = some e →
          e.drawing = oidOf 10 →
          (∀ j < i, ∀ x, sampleSheet.drawingsIssued[j]? = some x → x.drawing ≠ oidOf 10) →
          edited.length = sampleSheet.drawingsIssued.length ∧
            (-(2 ^ 53) ≤ e.copies + 3 → e.copies + 3 ≤ 2 ^ 53 →
              edited[i]? = some { e with copies := e.copies + 3 }) ∧
            ∀ j, j ≠ i → edited[j]? = sampleSheet.drawingsIssued[j]?) ∧
        ((∀ e ∈ sampleSheet.drawingsIssued, e.drawing ≠ oidOf 10) →
          edited = sampleSheet.drawingsIssued ++
            [{ _id := (sampleEnv 3).newId, drawing := oidOf 10, copies := 3 }]) :=
  C7_addDrawing_increments_or_appends (sampleEnv 3) sampleStore sampleId1 sampleSheet
    (oidOf 10) 3 (by decide) (by decide)

/-- C8 (as stated, refuted): two pairs of requests on issue sheets that have no
entry for the drawing `bbb...b`. In `paperStore`, whose sheet has the stored
media "paper", `addDrawing(bbb...b, 2)` and then `addDrawing(bbb...b, 3)` both
answer 500 and write nothing: no entry for the drawing results. In `sampleStore`,
`addDrawing(bbb...b, 2^53)` and then `addDrawing(bbb...b, 1)` leave one entry for
the drawing with 2^53 copies, not 2^53 + 1. -/
theorem C8_adding_twice_refuted :
    (IssueSheet.findById (sampleEnv 3) paperStore sampleId1 =
          .ok (some { sampleSheet with media := some "paper" }) ∧
        (∀ e ∈ sampleSheet.drawingsIssued, e.drawing ≠ oidOf 11) ∧
        addDrawing (sampleEnv 3) paperStore sampleId1 (oidOf 11).toHexString 2 =
          (⟨500, .error "Server error"⟩, paperStore) ∧
        addDrawing (sampleEnv 4) paperStore sampleId1 (oidOf 11).toHexString 3 =
          (⟨500, .error "Server error"⟩, paperStore)) ∧
      (IssueSheet.findById (sampleEnv 3) sampleStore sampleId1 = .ok (some sampleSheet) ∧
        IssueSheet.findById (sampleEnv 4)
            (addDrawing (sampleEnv 4)
              (addDrawing (sampleEnv 3) sampleStore sampleId1 (oidOf 11).toHexString (2 ^ 53)).2
              sampleId1 (oidOf 11).toHexString 1).2 sampleId1 =
          .ok (some { sampleSheet with drawingsIssued :=
            [{ _id := oidOf 2, drawing := oidOf 10, copies := 2 },
              { _id := oidOf 3, drawing := oidOf 11, copies := 2 ^ 53 }] })) ∧
      ¬ (∀ (env1 env2 : Env) (db : Store) (sid : String) (sheet : IssueSheet) (d : ObjectId)
          (a b : Int), IssueSheet.findById env1 db sid = .ok (some sheet) →
          (∀ e ∈ sheet.drawingsIssued, e.drawing ≠ d) →
          ∃ (sheet2 : IssueSheet) (e : DrawingIssued),
            IssueSheet.findById env2 (addDrawing env2 (addDrawing env1 db sid d.toHexString a).2
                sid d.toHexString b).2 sid = .ok (some sheet2) ∧
              sheet2.drawingsIssued.filter (fun x => decide (x.drawing = d)) = [e] ∧
              e.drawing = d ∧ e.copies = a + b) := by
  refine ⟨by decide, by decide, fun h => ?_⟩
  obtain ⟨sheet2, e, h1, h2, _⟩ := h (sampleEnv 3) (sampleEnv 4) paperStore sampleId1
    { sampleSheet with media := some "paper" } (oidOf 11) 2 3 (by decide) (by decide)
  have h3 : IssueSheet.findById (sampleEnv 4)
      (addDrawing (sampleEnv 4)
        (addDrawing (sampleEnv 3) paperStore sampleId1 (oidOf 11).toHexString 2).2
        sampleId1 (oidOf 11).toHexString 3).2 sampleId1 =
        .ok (some { sampleSheet with media := some "paper" }) := by decide
  rw [h3] at h1
  injection h1 with h1
  injection h1 with h1
  subst h1
  have h4 : ({ sampleSheet with media := some "paper" } : IssueSheet).drawingsIssued.filter
      (fun x => decide (x.drawing = oidOf 11)) = [] := by decide
  exact absurd (h4.symm.trans h2) (by simp)

/-- C8 (amended): for every issue sheet whose stored `media` is absent or one of
"electronic" and "physical" and whose `drawingsIssued` has no entry for drawing
d, and all amounts a and b whose sum is at most 2^53 in magnitude,
`addDrawing(d, a)` followed by `addDrawing(d, b)` (each carrying d as its
hexadecimal text) both answer 201 and leave the old entries followed by exactly
one entry for d, whose copies is a + b. -/
theorem C8_adding_twice_sums_copies (env1 env2 : Env) (db : Store) (sid : String)
    (sheet : IssueSheet) (d : ObjectId) (a b : Int)
    (hf : IssueSheet.findById env1 db sid = .ok (some sheet))
    (habs : ∀ e ∈ sheet.drawingsIssued, e.drawing ≠ d)
    (hm : mediaValid sheet.media = true)
    (hlo : -(2 ^ 53) ≤ a + b) (hhi : a + b ≤ 2 ^ 53) :
    ∃ (sheet2 : IssueSheet) (e : DrawingIssued),
      (addDrawing env1 db sid d.toHexString a).1.status = 201 ∧
        (addDrawing env2 (addDrawing env1 db sid d.toHexString a).2 sid
          d.toHexString b).1.status = 201 ∧
        IssueSheet.findById env2 (addDrawing env2 (addDrawing env1 db sid d.toHexString a).2 sid
          d.toHexString b).2 sid = .ok (some sheet2) ∧
        sheet2.drawingsIssued = sheet.drawingsIssued ++ [e] ∧
        sheet2.drawingsIssued.filter (fun x => decide (x.drawing = d)) = [e] ∧
        e.drawing = d ∧ e.copies = a + b := by
  obtain ⟨r1, f1, _⟩ := addDrawing_of_edit env1 db sid d.toHexString a sheet _ hf
    (addDrawingEdit_toHexString env1 sheet.drawingsIssued d a) hm
  rw [addCopies_absent env1.newId d a _ habs] at r1 f1
  obtain ⟨r2, f2, _⟩ := addDrawing_of_edit env2 _ sid d.toHexString b _ _ (f1 env2)
    (addDrawingEdit_toHexString env2 _ d b) hm
  simp only [] at r2 f2
  rw [addCopies_append_present env2.newId d b _ rfl _ habs] at r2 f2
  simp only [jsAdd_exact a b hlo hhi] at r2 f2
  refine ⟨_, { _id := env1.newId, drawing := d, copies := a + b }, by rw [r1], by rw [r2],
    f2 env2, rfl, ?_, rfl, rfl⟩
  simp [List.filter_append, filter_drawing_absent d _ habs]

theorem C8_adding_twice_sums_copies_witness :
    ∃ (sheet2 : IssueSheet) (e : DrawingIssued),
      (addDrawing (sampleEnv 3) sampleStore sampleId1 (oidOf 11).toHexString 2).1.status = 201 ∧
        (addDrawing (sampleEnv 4)
          (addDrawing (sampleEnv 3) sampleStore sampleId1 (oidOf 11).toHexString 2).2 sampleId1
          (oidOf 11).toHexString 3).1.status = 201 ∧
        IssueSheet.findById (sampleEnv 4) (addDrawing (sampleEnv 4)
          (addDrawing (sampleEnv 3) sampleStore sampleId1 (oidOf 11).toHexString 2).2 sampleId1
          (oidOf 11).toHexString 3).2 sampleId1 = .ok (some sheet2) ∧
        sheet2.drawingsIssued = sampleSheet.drawingsIssued ++ [e] ∧
        sheet2.drawingsIssued.filter (fun x => decide (x.drawing = oidOf 11)) = [e] ∧
        e.drawing = oidOf 11 ∧ e.copies = 2 + 3 :=
  C8_adding_twice_sums_copies (sampleEnv 3) (sampleEnv 4) sampleStore sampleId1 sampleSheet
    (oidOf 11) 2 3 (by decide) (by decide) (by decide) (by decide) (by decide)

/-- C9 (failing input): the sheet holds one entry for the drawing `aaa...a`; an
`addDrawing` request spelling the same identifier in upper case finds no match
(the comparison is on the lower-case text), answers 201 and persists a second
entry for the same drawing. -/
theorem C9_upper_case_request_duplicates_entry :
    (sampleSheet.drawingsIssued.map (·.drawing)).Nodup ∧
      castObjectId sampleUpperA = some (oidOf 10) ∧
      addDrawing (sampleEnv 3) sampleStore sampleId1 sampleUpperA 3 =
        (⟨201, .messageSheet "Drawing added successfully"
            { sampleSheet with drawingsIssued :=
                [{ _id := oidOf 2, drawing := oidOf 10, copies := 2 },
                  { _id := oidOf 3, drawing := oidOf 10, copies := 3 }] }⟩,
          { sampleStore with issueSheets :=
              [{ sampleSheet with drawingsIssued :=
                  [{ _id := oidOf 2, drawing := oidOf 10, copies := 2 },
                    { _id := oidOf 3, drawing := oidOf 10, copies := 3 }] }] }) := by
  decide

/-! ## Removing an issued drawing -/

theorem findIndex_oid_strictEqStr (drawingId : String) (l : List DrawingIssued) :
    findIndex (fun d => (JsValue.oid d._id).strictEqStr drawingId) l = none := by
  rw [findIndex_none_iff]
  intro x _
  rfl

/-- On an existing sheet `removeDrawing` answers 404 and writes nothing,
whatever the entry identifier in the path. -/
theorem removeDrawing_existing_sheet (env : Env) (db : Store) (sid drawingId : String)
    (sheet : IssueSheet) (hf : IssueSheet.findById env db sid = .ok (some sheet)) :
    removeDrawing env db sid drawingId =
      (⟨404, .error "Drawing not found in the issue sheet"⟩, db) := by
  simp [removeDrawing, hf, findIndex_oid_strictEqStr]

/-- C10 (failing input): `sampleSheet` holds the entry with identifier `222...2`;
`removeDrawing` called with that identifier in the path answers 404 "Drawing not
found in the issue sheet" and leaves the database, entry included, unchanged. -/
theorem C10_removeDrawing_own_identifier_not_found :
    sampleSheet.drawingsIssued.map (fun e => e._id.toHexString) = [sampleId2] ∧
      IssueSheet.findById (sampleEnv 3) sampleStore sampleId1 = .ok (some sampleSheet) ∧
      removeDrawing (sampleEnv 3) sampleStore sampleId1 sampleId2 =
        (⟨404, .error "Drawing not found in the issue sheet"⟩, sampleStore) := by
  decide

/-- C11: for every existing issue sheet and every identifier in the path that is
the identifier of no entry of its `drawingsIssued`, `removeDrawing` answers 404
and leaves the whole database, the sheet's list included, unchanged. -/
theorem C11_removeDrawing_unknown_entry_not_found (env : Env) (db : Store)
    (sid drawingId : String) (sheet : IssueSheet)
    (hf : IssueSheet.findById env db sid = .ok (some sheet))
    (_hno : ∀ e ∈ sheet.drawingsIssued, castObjectId drawingId ≠ some e._id) :
    removeDrawing env db sid drawingId =
        (⟨404, .error "Drawing not found in the issue sheet"⟩, db) ∧
      IssueSheet.findById env (removeDrawing env db sid drawingId).2 sid = .ok (some sheet) := by
  have h := removeDrawing_existing_sheet env db sid drawingId sheet hf
  exact ⟨h, by rw [h]; exact hf⟩

theorem C11_removeDrawing_unknown_entry_not_found_witness :
    removeDrawing (sampleEnv 3) sampleStore sampleId1 (oidOf 3).toHexString =
        (⟨404, .error "Drawing not found in the issue sheet"⟩, sampleStore) ∧
      IssueSheet.findById (sampleEnv 3)
        (removeDrawing (sampleEnv 3) sampleStore sampleId1 (oidOf 3).toHexString).2
        sampleId1 = .ok (some sampleSheet) :=
  C11_removeDrawing_unknown_entry_not_found (sampleEnv 3) sampleStore sampleId1
    (oidOf 3).toHexString sampleSheet (by decide) (by decide)

/-! ## Reference arrays -/

theorem find_key_eq {α : Type} (key : α → ObjectId) (l : List α) (oid : ObjectId) (doc : α)
    (h : l.find? (fun s => key s == oid) = some doc) : key doc = oid := by
  have := List.find?_some h
  simpa using this

theorem replaceFirst_length {α : Type} (p : α → Bool) (y : α) (l : List α) :
    (replaceFirst p y l).length = l.length := by
  induction l with
  | nil => rfl
  | cons a l ih =>
    by_cases hp : p a = true
    · simp [replaceFirst, hp]
    · simp [replaceFirst, hp, ih]

theorem replaceFirst_getElem_of_not {α : Type} (p : α → Bool) (y : α) :
    ∀ (l : List α) (j : Nat) (x : α), l[j]? = some x → p x = false →
      (replaceFirst p y l)[j]? = some x := by
  intro l
  induction l with
  | nil => intro j x h; simp at h
  | cons a l ih =>
    intro j x h hx
    by_cases hp : p a = true
    · cases j with
      | zero =>
        have : a = x := by simpa using h
        subst this
        rw [hp] at hx
        cases hx
      | succ j => simpa [replaceFirst, hp] using h
    · cases j with
      | zero => simpa [replaceFirst, hp] using h
      | succ j =>
        have h1 : l[j]? = some x := by simpa using h
        simpa [replaceFirst, hp] using ih j x h1 hx

theorem mem_replaceFirst {α : Type} (p : α → Bool) (y : α) (l : List α) (x : α)
    (h : x ∈ replaceFirst p y l) : x = y ∨ x ∈ l := by
  induction l with
  | nil => simp [replaceFirst] at h
  | cons a l ih =>
    by_cases hp : p a = true
    · simp only [replaceFirst, hp, if_true, List.mem_cons] at h
      rcases h with h | h
      · exact Or.inl h
      · exact Or.inr (List.mem_cons_of_mem _ h)
    · simp only [replaceFirst, hp, if_false, List.mem_cons, Bool.false_eq_true] at h
      rcases h with h | h
      · exact Or.inr (h ▸ List.mem_cons_self _ _)
      · rcases ih h with h1 | h1
        · exact Or.inl h1
        · exact Or.inr (List.mem_cons_of_mem _ h1)

theorem mem_removeFirst {α : Type} (p : α → Bool) (l : List α) (x : α)
    (h : x ∈ removeFirst p l) : x ∈ l :=
  (removeFirst_sublist p l).subset h

/-- With pairwise distinct keys, the document written over the one with key
`oid` is the only element of the new list with that key. -/
theorem mem_replaceFirst_unique {α : Type} (key : α → ObjectId) (oid : ObjectId) (y : α) :
    ∀ l : List α, (l.map key).Nodup → ∀ x, x ∈ replaceFirst (fun s => key s == oid) y l →
      x = y ∨ (x ∈ l ∧ key x ≠ oid) := by
  intro l
  induction l with
  | nil => intro _ x h; simp [replaceFirst] at h
  | cons a l ih =>
    intro hnd x h
    rw [List.map_cons, List.nodup_cons] at hnd
    by_cases hp : key a = oid
    · simp only [replaceFirst, hp, beq_self_eq_true, if_true, List.mem_cons] at h
      rcases h with h | h
      · exact Or.inl h
      · refine Or.inr ⟨List.mem_cons_of_mem _ h, fun hx => hnd.1 ?_⟩
        rw [hp, ← hx]
        exact List.mem_map_of_mem key h
    · have hb : (key a == oid) = false := by simpa using hp
      simp only [replaceFirst, hb, if_false, List.mem_cons, Bool.false_eq_true] at h
      rcases h with h | h
      · exact Or.inr ⟨h ▸ List.mem_cons_self _ _, h ▸ hp⟩
      · rcases ih hnd.2 x h with h1 | ⟨h1, h2⟩
        · exact Or.inl h1
        · exact Or.inr ⟨List.mem_cons_of_mem _ h1, h2⟩

/-- With pairwise distinct keys, no element with key `oid` is left after the
delete of the document with that key. -/
theorem removeFirst_unique {α : Type} (key : α → ObjectId) (oid : ObjectId) :
    ∀ l : List α, (l.map key).Nodup → ∀ x ∈ removeFirst (fun s => key s == oid) l,
      key x ≠ oid := by
  intro l
  induction l with
  | nil => intro _ x h; simp [removeFirst] at h
  | cons a l ih =>
    intro hnd x h
    rw [List.map_cons, List.nodup_cons] at hnd
    by_cases hp : key a = oid
    · simp only [removeFirst, hp, beq_self_eq_true, if_true] at h
      intro hx
      apply hnd.1
      rw [hp, ← hx]
      exact List.mem_map_of_mem key h
    · have hb : (key a == oid) = false := by simpa using hp
      simp only [removeFirst, hb, if_false, List.mem_cons, Bool.false_eq_true] at h
      rcases h with h | h
      · exact h ▸ hp
      · exact ih hnd.2 x h

/-- The write of `y` over the found document with key `oid`: `y` is then found,
the length is kept and every document with another key stays in place. -/
theorem replaceFirst_key_spec {α : Type} (key : α → ObjectId) (oid : ObjectId) (l : List α)
    (c y : α) (hfind : l.find? (fun s => key s == oid) = some c) (hy : key y = oid) :
    (replaceFirst (fun s => key s == oid) y l).find? (fun s => key s == oid) = some y ∧
      (replaceFirst (fun s => key s == oid) y l).length = l.length ∧
      ∀ (j : Nat) (x : α), l[j]? = some x → key x ≠ oid →
        (replaceFirst (fun s => key s == oid) y l)[j]? = some x :=
  ⟨find_replaceFirst _ c y (by simp [hy]) l hfind, replaceFirst_length _ _ _,
    fun j x hj hx => replaceFirst_getElem_of_not _ y l j x hj (by simpa using hx)⟩

theorem includes_toHexString (l : List ObjectId) (x : ObjectId) :
    includes l x.toHexString = decide (x ∈ l) := by
  induction l with
  | nil => simp [includes]
  | cons a l ih =>
    have ha : (a.toHexString == x.toHexString) = decide (a = x) := by
      by_cases h : a = x
      · simp [h]
      · have : a.toHexString ≠ x.toHexString := fun e => h (toHexString_injective a x e)
        simp [h, this]
    simp only [includes, List.any_cons, JsValue.looseEqStr, ha] at ih ⊢
    rw [ih]
    by_cases h : a = x
    · simp [h]
    · have hne : ¬ x = a := fun e => h e.symm
      simp [h, hne]

theorem filterNotId_toHexString (l : List ObjectId) (x : ObjectId) :
    filterNotId l x.toHexString = l.filter (fun y => decide (y ≠ x)) := by
  unfold filterNotId
  congr 1
  funext y
  rw [strictEqStr_toHexString]
  by_cases h : y = x <;> simp [h]

/-- A string that is the text of no element is not included (in particular a
string that is not an identifier, or an identifier that is not in the array). -/
theorem includes_eq_false (l : List ObjectId) (s : String)
    (h : ∀ x ∈ l, castObjectId s ≠ some x) : includes l s = false := by
  unfold includes
  rw [List.any_eq_false]
  intro x hx
  simp only [JsValue.looseEqStr, beq_iff_eq]
  intro he
  apply h x hx
  rw [← he]
  exact castObjectId_toHexString x

/-! ## Adding a drawing to a category -/

theorem categoryFindById_some (db : Store) (cid : String) (C : Category)
    (hf : Category.findById db cid = .ok (some C)) :
    ∃ oid, castObjectId cid = some oid ∧
      db.categories.find? (fun c => c._id == oid) = some C ∧ C._id = oid := by
  unfold Category.findById at hf
  cases hc : castObjectId cid with
  | none => simp [hc] at hf
  | some oid =>
    have hfind : db.categories.find? (fun c => c._id == oid) = some C := by simpa [hc] using hf
    exact ⟨oid, rfl, hfind, find_key_eq (fun c : Category => c._id) _ _ _ hfind⟩

theorem registerFindById_some (db : Store) (rid : String) (R : Register)
    (hf : Register.findById db rid = .ok (some R)) :
    ∃ oid, castObjectId rid = some oid ∧
      db.registers.find? (fun r => r._id == oid) = some R ∧ R._id = oid := by
  unfold Register.findById at hf
  cases hc : castObjectId rid with
  | none => simp [hc] at hf
  | some oid =>
    have hfind : db.registers.find? (fun r => r._id == oid) = some R := by simpa [hc] using hf
    exact ⟨oid, rfl, hfind, find_key_eq (fun r : Register => r._id) _ _ _ hfind⟩

/-- C12: for every existing Category C and every drawing request body,
add-drawing answers 200, appends exactly one new Drawing document, whose
identifier i is the fresh one supplied by the driver, to the Drawing collection,
and persists C with `drawings` equal to the old list followed by i; every other
Category keeps its place and content, and the Registers are unchanged. -/
theorem C12_add_drawing_appends_reference (env : Env) (db : Store) (cid : String)
    (C : Category) (body : DrawingBody) (hf : Category.findById db cid = .ok (some C)) :
    (addCategoryDrawing env db cid body).1 =
        ⟨200, .messageCategory "Drawing added to category successfully"
          { C with drawings := C.drawings ++ [env.newId] }⟩ ∧
      (∃ d : Drawing, d._id = env.newId ∧
        (addCategoryDrawing env db cid body).2.drawings = db.drawings ++ [d]) ∧
      Category.findById (addCategoryDrawing env db cid body).2 cid =
        .ok (some { C with drawings := C.drawings ++ [env.newId] }) ∧
      (addCategoryDrawing env db cid body).2.categories.length = db.categories.length ∧
      (∀ (j : Nat) (K : Category), db.categories[j]? = some K → K._id ≠ C._id →
        (addCategoryDrawing env db cid body).2.categories[j]? = some K) ∧
      (addCategoryDrawing env db cid body).2.registers = db.registers := by
  obtain ⟨oid, hc, hfind, hid⟩ := categoryFindById_some db cid C hf
  obtain ⟨h1, h2, h3⟩ := replaceFirst_key_spec (fun c : Category => c._id) oid db.categories C
    { C with drawings := C.drawings ++ [env.newId] } hfind hid
  have hr : addCategoryDrawing env db cid body =
      (⟨200, .messageCategory "Drawing added to category successfully"
          { C with drawings := C.drawings ++ [env.newId] }⟩,
        { db with
          drawings := db.drawings ++ [Drawing.ofBody env body],
          categories := replaceFirst (fun c => c._id == oid)
            { C with drawings := C.drawings ++ [env.newId] } db.categories }) := by
    simp [addCategoryDrawing, Category.findById, hc, hfind, Category.save, hid, Drawing.ofBody]
  rw [hr]
  refine ⟨rfl, ⟨Drawing.ofBody env body, rfl, rfl⟩, ?_, h2, ?_, rfl⟩
  · simp only [Category.findById, hc]
    rw [h1]
  · intro j K hj hK
    exact h3 j K hj (by rw [← hid]; exact hK)

theorem C12_add_drawing_appends_reference_witness :
    (addCategoryDrawing refEnv { categories := [{ _id := oidOf 6 }] } (oidOf 6).toHexString
          { drawingNumber := some "D1" }).1 =
        ⟨200, .messageCategory "Drawing added to category successfully"
          { ({ _id := oidOf 6 } : Category) with drawings := [] ++ [refEnv.newId] }⟩ ∧
      (∃ d : Drawing, d._id = refEnv.newId ∧
        (addCategoryDrawing refEnv { categories := [{ _id := oidOf 6 }] } (oidOf 6).toHexString
          { drawingNumber := some "D1" }).2.drawings = [] ++ [d]) ∧
      Category.findById (addCategoryDrawing refEnv { categories := [{ _id := oidOf 6 }] }
          (oidOf 6).toHexString { drawingNumber := some "D1" }).2 (oidOf 6).toHexString =
        .ok (some { ({ _id := oidOf 6 } : Category) with drawings := [] ++ [refEnv.newId] }) :=
  have h := C12_add_drawing_appends_reference refEnv { categories := [{ _id := oidOf 6 }] }
    (oidOf 6).toHexString { _id := oidOf 6 } { drawingNumber := some "D1" } (by decide)
  ⟨h.1, h.2.1, h.2.2.1⟩

/-! ## Removing a child from its parent -/

/-- C13: for every existing Category C whose `drawings` contains X (the Drawing
collection having pairwise distinct identifiers), delete-drawing called with X
answers 200, persists C with every occurrence of X removed from `drawings` and
the other identifiers in their original order, and afterwards no Drawing
document has the identifier X (`findById` finds nothing). -/
theorem C13_delete_drawing_detaches_and_deletes (db : Store) (cid : String) (C : Category)
    (X : ObjectId) (hf : Category.findById db cid = .ok (some C)) (hX : X ∈ C.drawings)
    (hu : (db.drawings.map (·._id)).Nodup) :
    (deleteCategoryDrawing db cid X.toHexString).1 =
        ⟨200, .message "Drawing deleted from category successfully"⟩ ∧
      Category.findById (deleteCategoryDrawing db cid X.toHexString).2 cid =
        .ok (some { C with drawings := C.drawings.filter (fun y => decide (y ≠ X)) }) ∧
      (∀ d ∈ (deleteCategoryDrawing db cid X.toHexString).2.drawings, d._id ≠ X) ∧
      Drawing.findById (deleteCategoryDrawing db cid X.toHexString).2 X.toHexString =
        .ok none := by
  obtain ⟨oid, hc, hfind, hid⟩ := categoryFindById_some db cid C hf
  obtain ⟨h1, _, _⟩ := replaceFirst_key_spec (fun c : Category => c._id) oid db.categories C
    { C with drawings := C.drawings.filter (fun y => decide (y ≠ X)) } hfind hid
  have hinc : includes C.drawings X.toHexString = true := by
    rw [includes_toHexString]; simpa using hX
  have hrem : ∀ d ∈ removeFirst (fun d : Drawing => d._id == X) db.drawings, d._id ≠ X :=
    removeFirst_unique (fun d : Drawing => d._id) X db.drawings hu
  cases hd : db.drawings.find? (fun d => d._id == X) with
  | none =>
    have hall : ∀ d ∈ db.drawings, d._id ≠ X := by
      intro d hdm
      have := List.find?_eq_none.1 hd d hdm
      simpa using this
    have hr : deleteCategoryDrawing db cid X.toHexString =
        (⟨200, .message "Drawing deleted from category successfully"⟩,
          { db with
            categories := replaceFirst (fun c => c._id == oid)
              { C with drawings := C.drawings.filter (fun y => decide (y ≠ X)) } db.categories,
            drawings := db.drawings }) := by
      simp [deleteCategoryDrawing, Category.findById, hc, hfind, hinc, Category.save, hid,
        filterNotId_toHexString, Drawing.findByIdAndDelete, castObjectId_toHexString, hd]
    rw [hr]
    refine ⟨rfl, ?_, hall, ?_⟩
    · simp only [Category.findById, hc]; rw [h1]
    · simp [Drawing.findById, castObjectId_toHexString, hd]
  | some doc =>
    have hr : deleteCategoryDrawing db cid X.toHexString =
        (⟨200, .message "Drawing deleted from category successfully"⟩,
          { db with
            categories := replaceFirst (fun c => c._id == oid)
              { C with drawings := C.drawings.filter (fun y => decide (y ≠ X)) } db.categories,
            drawings := removeFirst (fun d => d._id == X) db.drawings }) := by
      simp [deleteCategoryDrawing, Category.findById, hc, hfind, hinc, Category.save, hid,
        filterNotId_toHexString, Drawing.findByIdAndDelete, castObjectId_toHexString, hd]
    rw [hr]
    refine ⟨rfl, ?_, hrem, ?_⟩
    · simp only [Category.findById, hc]; rw [h1]
    · simp only [Drawing.findById, castObjectId_toHexString]
      congr 1
      rw [List.find?_eq_none]
      intro d hdm
      simpa using hrem d hdm

theorem C13_delete_drawing_detaches_and_deletes_witness :
    (deleteCategoryDrawing refStore (oidOf 6).toHexString (oidOf 5).toHexString).1 =
        ⟨200, .message "Drawing deleted from category successfully"⟩ ∧
      Category.findById (deleteCategoryDrawing refStore (oidOf 6).toHexString
          (oidOf 5).toHexString).2 (oidOf 6).toHexString =
        .ok (some { sampleCategory with
          drawings := sampleCategory.drawings.filter (fun y => decide (y ≠ oidOf 5)) }) ∧
      (∀ d ∈ (deleteCategoryDrawing refStore (oidOf 6).toHexString
          (oidOf 5).toHexString).2.drawings, d._id ≠ oidOf 5) ∧
      Drawing.findById (deleteCategoryDrawing refStore (oidOf 6).toHexString
          (oidOf 5).toHexString).2 (oidOf 5).toHexString = .ok none :=
  C13_delete_drawing_detaches_and_deletes refStore (oidOf 6).toHexString sampleCategory
    (oidOf 5) (by decide) (by decide) (by decide)

theorem mem_removeFirst_of_not {α : Type} (p : α → Bool) (l : List α) (x : α) (hx : x ∈ l)
    (hp : p x = false) : x ∈ removeFirst p l := by
  induction l with
  | nil => simp at hx
  | cons a l ih =>
    by_cases ha : p a = true
    · rcases List.mem_cons.1 hx with h | h
      · rw [h, ha] at hp; cases hp
      · simpa [removeFirst, ha] using h
    · rcases List.mem_cons.1 hx with h | h
      · simp [removeFirst, ha, h]
      · simp [removeFirst, ha, ih h]

/-- C14: for every existing Register R whose `categories` contains K (the
Category collection having pairwise distinct identifiers), deleting category K
from R answers 200, persists R with K removed from `categories` and the other
identifiers in their original order, removes the Category document K (no
Category has that identifier afterwards, every other Category stays) and leaves
the Drawing collection unchanged. -/
theorem C14_delete_category_detaches_and_deletes (db : Store) (rid : String) (R : Register)
    (K : ObjectId) (hf : Register.findById db rid = .ok (some R)) (hK : K ∈ R.categories)
    (hu : (db.categories.map (·._id)).Nodup) :
    (deleteRegisterCategory db rid K.toHexString).1 =
        ⟨200, .message "Category deleted from register successfully"⟩ ∧
      Register.findById (deleteRegisterCategory db rid K.toHexString).2 rid =
        .ok (some { R with categories := R.categories.filter (fun y => decide (y ≠ K)) }) ∧
      (∀ c ∈ (deleteRegisterCategory db rid K.toHexString).2.categories, c._id ≠ K) ∧
      Category.findById (deleteRegisterCategory db rid K.toHexString).2 K.toHexString =
        .ok none ∧
      (∀ c ∈ db.categories, c._id ≠ K →
        c ∈ (deleteRegisterCategory db rid K.toHexString).2.categories) ∧
      (deleteRegisterCategory db rid K.toHexString).2.drawings = db.drawings := by
  obtain ⟨oid, hc, hfind, hid⟩ := registerFindById_some db rid R hf
  obtain ⟨h1, _, _⟩ := replaceFirst_key_spec (fun r : Register => r._id) oid db.registers R
    { R with categories := R.categories.filter (fun y => decide (y ≠ K)) } hfind hid
  have hinc : includes R.categories K.toHexString = true := by
    rw [includes_toHexString]; simpa using hK
  have hrem : ∀ c ∈ removeFirst (fun c : Category => c._id == K) db.categories, c._id ≠ K :=
    removeFirst_unique (fun c : Category => c._id) K db.categories hu
  cases hd : db.categories.find? (fun c => c._id == K) with
  | none =>
    have hall : ∀ c ∈ db.categories, c._id ≠ K := by
      intro c hcm
      have := List.find?_eq_none.1 hd c hcm
      simpa using this
    have hr : deleteRegisterCategory db rid K.toHexString =
        (⟨200, .message "Category deleted from register successfully"⟩,
          { db with
            registers := replaceFirst (fun r => r._id == oid)
              { R with categories := R.categories.filter (fun y => decide (y ≠ K)) } db.registers,
            categories := db.categories }) := by
      simp [deleteRegisterCategory, Register.findById, hc, hfind, hinc, Register.save, hid,
        filterNotId_toHexString, Category.findByIdAndDelete, castObjectId_toHexString, hd]
    rw [hr]
    refine ⟨rfl, ?_, hall, ?_, fun c hcm _ => hcm, rfl⟩
    · simp only [Register.findById, hc]; rw [h1]
    · simp [Category.findById, castObjectId_toHexString, hd]
  | some doc =>
    have hr : deleteRegisterCategory db rid K.toHexString =
        (⟨200, .message "Category deleted from register successfully"⟩,
          { db with
            registers := replaceFirst (fun r => r._id == oid)
              { R with categories := R.categories.filter (fun y => decide (y ≠ K)) } db.registers,
            categories := removeFirst (fun c => c._id == K) db.categories }) := by
      simp [deleteRegisterCategory, Register.findById, hc, hfind, hinc, Register.save, hid,
        filterNotId_toHexString, Category.findByIdAndDelete, castObjectId_toHexString, hd]
    rw [hr]
    refine ⟨rfl, ?_, hrem, ?_, ?_, rfl⟩
    · simp only [Register.findById, hc]; rw [h1]
    · simp only [Category.findById, castObjectId_toHexString]
      congr 1
      rw [List.find?_eq_none]
      intro c hcm
      simpa using hrem c hcm
    · intro c hcm hne
      exact mem_removeFirst_of_not _ _ c hcm (by simpa using hne)

theorem C14_delete_category_detaches_and_deletes_witness :
    (deleteRegisterCategory refStore (oidOf 7).toHexString (oidOf 6).toHexString).1 =
        ⟨200, .message "Category deleted from register successfully"⟩ ∧
      Register.findById (deleteRegisterCategory refStore (oidOf 7).toHexString
          (oidOf 6).toHexString).2 (oidOf 7).toHexString =
        .ok (some { sampleRegister with
          categories := sampleRegister.categories.filter (fun y => decide (y ≠ oidOf 6)) }) ∧
      (∀ c ∈ (deleteRegisterCategory refStore (oidOf 7).toHexString
          (oidOf 6).toHexString).2.categories, c._id ≠ oidOf 6) ∧
      Category.findById (deleteRegisterCategory refStore (oidOf 7).toHexString
          (oidOf 6).toHexString).2 (oidOf 6).toHexString = .ok none ∧
      (∀ c ∈ refStore.categories, c._id ≠ oidOf 6 →
        c ∈ (deleteRegisterCategory refStore (oidOf 7).toHexString
          (oidOf 6).toHexString).2.categories) ∧
      (deleteRegisterCategory refStore (oidOf 7).toHexString (oidOf 6).toHexString).2.drawings =
        refStore.drawings :=
  C14_delete_category_detaches_and_deletes refStore (oidOf 7).toHexString sampleRegister
    (oidOf 6) (by decide) (by decide) (by decide)

/-- C15: in both remove-child handlers, when the lookup of the parent finds no
document, or when the child identifier in the path is the identifier of no
element of the parent's reference array, the handler answers 404 and returns the
database as it was: no collection changes and no child document is deleted. -/
theorem C15_remove_child_not_found_changes_nothing (db : Store) (pid childId : String) :
    (Category.findById db pid = .ok none →
        deleteCategoryDrawing db pid childId = (⟨404, .message "Category not found"⟩, db)) ∧
      (∀ C : Category, Category.findById db pid = .ok (some C) →
        (∀ x ∈ C.drawings, castObjectId childId ≠ some x) →
        deleteCategoryDrawing db pid childId =
          (⟨404, .message "Drawing not found in the category"⟩, db)) ∧
      (Register.findById db pid = .ok none →
        deleteRegisterCategory db pid childId = (⟨404, .message "Register not found"⟩, db)) ∧
      (∀ R : Register, Register.findById db pid = .ok (some R) →
        (∀ x ∈ R.categories, castObjectId childId ≠ some x) →
        deleteRegisterCategory db pid childId =
          (⟨404, .message "Category not found in the register"⟩, db)) := by
  refine ⟨fun h => ?_, fun C h hno => ?_, fun h => ?_, fun R h hno => ?_⟩
  · simp [deleteCategoryDrawing, h]
  · simp [deleteCategoryDrawing, h, includes_eq_false _ _ hno]
  · simp [deleteRegisterCategory, h]
  · simp [deleteRegisterCategory, h, includes_eq_false _ _ hno]

theorem C15_remove_child_not_found_changes_nothing_witness :
    deleteCategoryDrawing refStore (oidOf 1).toHexString (oidOf 5).toHexString =
        (⟨404, .message "Category not found"⟩, refStore) ∧
      deleteCategoryDrawing refStore (oidOf 6).toHexString (oidOf 4).toHexString =
        (⟨404, .message "Drawing not found in the category"⟩, refStore) ∧
      deleteRegisterCategory refStore (oidOf 1).toHexString (oidOf 6).toHexString =
        (⟨404, .message "Register not found"⟩, refStore) ∧
      deleteRegisterCategory { refStore with categories := [sampleCategory, { _id := oidOf 4 }] }
          (oidOf 7).toHexString (oidOf 4).toHexString =
        (⟨404, .message "Category not found in the register"⟩,
          { refStore with categories := [sampleCategory, { _id := oidOf 4 }] }) :=
  ⟨(C15_remove_child_not_found_changes_nothing refStore (oidOf 1).toHexString
      (oidOf 5).toHexString).1 (by decide),
    (C15_remove_child_not_found_changes_nothing refStore (oidOf 6).toHexString
      (oidOf 4).toHexString).2.1 sampleCategory (by decide) (by decide),
    (C15_remove_child_not_found_changes_nothing refStore (oidOf 1).toHexString
      (oidOf 6).toHexString).2.2.1 (by decide),
    (C15_remove_child_not_found_changes_nothing
      { refStore with categories := [sampleCategory, { _id := oidOf 4 }] }
      (oidOf 7).toHexString (oidOf 4).toHexString).2.2.2 sampleRegister (by decide)
      (by decide)⟩

/-! ## Categories created with a register -/

theorem createTitled_titles (subId : Nat → ObjectId) (ts : List String) :
    ∀ k, (createTitled subId k ts).map (·.title) = ts.map some := by
  induction ts with
  | nil => intro k; rfl
  | cons t ts ih => intro k; simp [createTitled, ih]

theorem createTitled_ids (subId : Nat → ObjectId) (ts : List String) :
    ∀ k, (createTitled subId k ts).map (·._id) =
      (List.range ts.length).map (fun i => subId (k + i)) := by
  induction ts with
  | nil => intro k; rfl
  | cons t ts ih =>
    intro k
    simp only [createTitled, List.map_cons, List.length_cons, List.range_succ_eq_map,
      List.map_map, ih, Nat.add_zero, List.cons.injEq, true_and]
    apply List.map_congr_left
    intro i _
    simp only [Function.comp]
    congr 1
    omega

theorem createTitled_length (subId : Nat → ObjectId) (ts : List String) (k : Nat) :
    (createTitled subId k ts).length = ts.length := by
  have := congrArg List.length (createTitled_titles subId ts k)
  simpa using this

theorem createTitled_drawings (subId : Nat → ObjectId) (ts : List String) :
    ∀ k, ∀ c ∈ createTitled subId k ts, c.drawings = [] := by
  induction ts with
  | nil => intro k c h; simp [createTitled] at h
  | cons t ts ih =>
    intro k c h
    simp only [createTitled, List.mem_cons] at h
    rcases h with h | h
    · rw [h]
    · exact ih (k + 1) c h

theorem createCategories_fields (subId : Nat → ObjectId) (bs : List CategoryBody) :
    ∀ k, (createCategories subId k bs).map (·.title) = bs.map (·.title) ∧
      (createCategories subId k bs).map (·.description) = bs.map (·.description) ∧
      (createCategories subId k bs).map (·.drawings) = bs.map (fun b => b.drawings.getD []) ∧
      (createCategories subId k bs).map (·._id) =
        (List.range bs.length).map (fun i => subId (k + i)) := by
  induction bs with
  | nil => intro k; exact ⟨rfl, rfl, rfl, rfl⟩
  | cons b bs ih =>
    intro k
    obtain ⟨h1, h2, h3, h4⟩ := ih (k + 1)
    refine ⟨by simp [createCategories, h1], by simp [createCategories, h2],
      by simp [createCategories, h3], ?_⟩
    simp only [createCategories, List.map_cons, List.length_cons, List.range_succ_eq_map,
      List.map_map, h4, Nat.add_zero, List.cons.injEq, true_and]
    apply List.map_congr_left
    intro i _
    simp only [Function.comp]
    congr 1
    omega

theorem castIdArray_oid (l : List ObjectId) : castIdArray (l.map JsValue.oid) = some l := by
  induction l with
  | nil => rfl
  | cons a l ih => simp [castIdArray, ih]

theorem castIdArray_texts (created : List Category) (rest : List ObjectId) :
    castIdArray (List.map JsValue.str (List.map (fun c : Category => c._id.toHexString) created)
        ++ List.map JsValue.oid rest) = some (created.map (·._id) ++ rest) := by
  induction created with
  | nil => simpa using castIdArray_oid rest
  | cons a l ih =>
    simp only [List.map_cons, List.cons_append, castIdArray, castObjectId_toHexString,
      List.append_eq]
    rw [ih]

/-- The outcome of `PUT /register/:id` on an existing Register. -/
theorem putRegister_of_found (env : Env) (db : Store) (id : String) (R : Register)
    (body : RegisterBody) (hf : Register.findById db id = .ok (some R)) :
    (putRegister env db id body).1 =
        ⟨200, .register (Register.applyUpdate R body
          ((putCreated env body).map (·._id) ++ R.categories))⟩ ∧
      (putRegister env db id body).2.categories = db.categories ++ putCreated env body ∧
      Register.findById (putRegister env db id body).2 id =
        .ok (some (Register.applyUpdate R body
          ((putCreated env body).map (·._id) ++ R.categories))) ∧
      (putRegister env db id body).2.drawings = db.drawings := by
  obtain ⟨oid, hc, hfind, hid⟩ := registerFindById_some db id R hf
  obtain ⟨h1, _, _⟩ := replaceFirst_key_spec (fun r : Register => r._id) oid db.registers R
    (Register.applyUpdate R body ((putCreated env body).map (·._id) ++ R.categories)) hfind
    (by simpa [Register.applyUpdate] using hid)
  have hcast := castIdArray_texts (putCreated env body) R.categories
  have hr : putRegister env db id body =
      (⟨200, .register (Register.applyUpdate R body
          ((putCreated env body).map (·._id) ++ R.categories))⟩,
        { db with
          categories := db.categories ++ putCreated env body,
          registers := replaceFirst (fun r => r._id == oid)
            (Register.applyUpdate R body ((putCreated env body).map (·._id) ++ R.categories))
            db.registers }) := by
    simp only [putRegister, Register.findById, hc, hfind, Register.findByIdAndUpdate]
    have hcast1 : castIdArray (List.map JsValue.str
        (List.map (fun category => category._id.toHexString)
          (match body.categories with
            | some categories =>
              if categories.length > 0 then createTitled env.subId 0 categories else []
            | none => [])) ++ List.map JsValue.oid R.categories) =
        some ((putCreated env body).map (·._id) ++ R.categories) := hcast
    rw [hcast1]
    rfl
  rw [hr]
  refine ⟨rfl, rfl, ?_, rfl⟩
  simp only [Register.findById, hc]
  rw [h1]

/-- C17: for every existing Register with categories list L and every non-empty
list of inline category titles t1..tn, `PUT /register/:id` answers 200, appends
n new Category documents with the titles t1..tn (identifiers i1..in, the ones the
driver supplies) to the Category collection, and persists the Register with
`categories` equal to i1..in followed by L. -/
theorem C17_put_register_prepends_new_categories (env : Env) (db : Store) (id : String)
    (R : Register) (body : RegisterBody) (ts : List String)
    (hf : Register.findById db id = .ok (some R)) (hts : body.categories = some ts)
    (hne : ts ≠ []) :
    ∃ (created : List Category) (R1 : Register),
      (putRegister env db id body).1 = ⟨200, .register R1⟩ ∧
        (putRegister env db id body).2.categories = db.categories ++ created ∧
        created.length = ts.length ∧
        created.map (·.title) = ts.map some ∧
        created.map (·._id) = (List.range ts.length).map env.subId ∧
        Register.findById (putRegister env db id body).2 id = .ok (some R1) ∧
        R1.categories = created.map (·._id) ++ R.categories := by
  obtain ⟨h1, h2, h3, _⟩ := putRegister_of_found env db id R body hf
  have hpos : ts.length > 0 := List.length_pos.2 hne
  have hcr : putCreated env body = createTitled env.subId 0 ts := by
    simp [putCreated, hts, hpos]
  rw [hcr] at h1 h2 h3
  refine ⟨createTitled env.subId 0 ts, _, h1, h2, createTitled_length _ _ _,
    createTitled_titles _ _ _, ?_, h3, rfl⟩
  rw [createTitled_ids]
  simp

theorem C17_put_register_prepends_new_categories_witness :
    ∃ (created : List Category) (R1 : Register),
      (putRegister refEnv refStore (oidOf 7).toHexString
          { categories := some ["Electrical"] }).1 = ⟨200, .register R1⟩ ∧
        (putRegister refEnv refStore (oidOf 7).toHexString
          { categories := some ["Electrical"] }).2.categories = refStore.categories ++ created ∧
        created.length = ["Electrical"].length ∧
        created.map (·.title) = ["Electrical"].map some ∧
        created.map (·._id) = (List.range ["Electrical"].length).map refEnv.subId ∧
        Register.findById (putRegister refEnv refStore (oidOf 7).toHexString
          { categories := some ["Electrical"] }).2 (oidOf 7).toHexString = .ok (some R1) ∧
        R1.categories = created.map (·._id) ++ sampleRegister.categories :=
  C17_put_register_prepends_new_categories refEnv refStore (oidOf 7).toHexString sampleRegister
    { categories := some ["Electrical"] } ["Electrical"] (by decide) rfl (by decide)

/-- C18 (as stated, refuted): on the Register `777...7` with categories
[`666...6`], `PUT /register/:id` with the inline category "Electrical" persists
[new, `666...6`], which is not the old list followed by the new identifier. -/
theorem C18_old_list_is_prefix_refuted :
    ¬ (∀ (env : Env) (db : Store) (id : String) (R : Register) (body : RegisterBody),
        Register.findById db id = .ok (some R) →
        ∃ R1 : Register, Register.findById (putRegister env db id body).2 id = .ok (some R1) ∧
          R1.categories = R.categories ++
            ((putRegister env db id body).2.categories.drop db.categories.length).map
              (·._id)) := by
  intro h
  obtain ⟨R1, h1, h2⟩ := h refEnv refStore (oidOf 7).toHexString sampleRegister
    { categories := some ["Electrical"] } (by decide)
  have hc : Register.findById (putRegister refEnv refStore (oidOf 7).toHexString
      { categories := some ["Electrical"] }).2 (oidOf 7).toHexString =
      .ok (some { sampleRegister with categories := [oidOf 9, oidOf 6] }) := by decide
  rw [hc] at h1
  have h3 : R1 = { sampleRegister with categories := [oidOf 9, oidOf 6] } := by
    injection h1 with h1
    injection h1 with h1
    exact h1.symm
  subst h3
  revert h2
  decide

/-- C18 (amended): register update is additive and prepending: for every existing
Register with categories list L and every body, the categories list after
`PUT /register/:id` is the identifiers of the newly created Categories followed
by L, so L is a suffix of the result and no existing reference is dropped or
replaced. -/
theorem C18_put_register_keeps_old_list_as_suffix (env : Env) (db : Store) (id : String)
    (R : Register) (body : RegisterBody) (hf : Register.findById db id = .ok (some R)) :
    ∃ R1 : Register,
      (putRegister env db id body).1 = ⟨200, .register R1⟩ ∧
        Register.findById (putRegister env db id body).2 id = .ok (some R1) ∧
        R1.categories =
          ((putRegister env db id body).2.categories.drop db.categories.length).map (·._id) ++
            R.categories ∧
        R.categories <:+ R1.categories ∧
        ∀ k ∈ R.categories, k ∈ R1.categories := by
  obtain ⟨h1, h2, h3, _⟩ := putRegister_of_found env db id R body hf
  refine ⟨_, h1, h3, ?_, ?_, ?_⟩
  · rw [h2]
    simp [Register.applyUpdate]
  · exact ⟨_, rfl⟩
  · intro k hk
    simp [Register.applyUpdate, hk]

theorem C18_put_register_keeps_old_list_as_suffix_witness :
    ∃ R1 : Register,
      (putRegister refEnv refStore (oidOf 7).toHexString
          { categories := some ["Electrical"] }).1 = ⟨200, .register R1⟩ ∧
        Register.findById (putRegister refEnv refStore (oidOf 7).toHexString
          { categories := some ["Electrical"] }).2 (oidOf 7).toHexString = .ok (some R1) ∧
        R1.categories =
          ((putRegister refEnv refStore (oidOf 7).toHexString
            { categories := some ["Electrical"] }).2.categories.drop
              refStore.categories.length).map (·._id) ++ sampleRegister.categories ∧
        sampleRegister.categories <:+ R1.categories ∧
        ∀ k ∈ sampleRegister.categories, k ∈ R1.categories :=
  C18_put_register_keeps_old_list_as_suffix refEnv refStore (oidOf 7).toHexString
    sampleRegister { categories := some ["Electrical"] } (by decide)

/-- C19: for every `POST /register` request whose body carries a categories list
c1..cn, the handler answers 201, appends exactly n new Category documents, the
k-th with title ck, to the Category collection, and appends one Register whose
`categories` is the list of those n new identifiers in the same order and whose
other fields are the request's. -/
theorem C19_post_register_creates_inline_categories (env : Env) (db : Store)
    (body : RegisterBody) (cs : List String) (h : body.categories = some cs) :
    ∃ (created : List Category) (R1 : Register),
      (postRegister env db body).1 = ⟨201, .register R1⟩ ∧
        (postRegister env db body).2.categories = db.categories ++ created ∧
        created.length = cs.length ∧
        created.map (·.title) = cs.map some ∧
        created.map (·._id) = (List.range cs.length).map env.subId ∧
        (postRegister env db body).2.registers = db.registers ++ [R1] ∧
        R1.categories = created.map (·._id) ∧
        R1.projectName = body.projectName ∧ R1.projectNumber = body.projectNumber ∧
        R1.projectDescipline = body.projectDescipline ∧
        R1.projectEngineers = body.projectEngineers.getD [] ∧
        R1.commencementDate = body.commencementDate ∧
        R1.completionDate = body.completionDate := by
  refine ⟨createTitled env.subId 0 cs,
    Register.ofBody env body ((createTitled env.subId 0 cs).map (fun c : Category => c._id)),
    ?_, ?_,
    createTitled_length _ _ _, createTitled_titles _ _ _, ?_, ?_, rfl, rfl, rfl, rfl, rfl, rfl,
    rfl⟩
  · simp [postRegister, h]
  · simp [postRegister, h]
  · rw [createTitled_ids]; simp
  · simp [postRegister, h]

theorem C19_post_register_creates_inline_categories_witness :
    ∃ (created : List Category) (R1 : Register),
      (postRegister refEnv refStore
          { projectName := some "Works", categories := some ["Civil", "Electrical"] }).1 =
          ⟨201, .register R1⟩ ∧
        (postRegister refEnv refStore
          { projectName := some "Works", categories := some ["Civil", "Electrical"] }).2.categories
          = refStore.categories ++ created ∧
        created.length = ["Civil", "Electrical"].length ∧
        created.map (·.title) = ["Civil", "Electrical"].map some ∧
        created.map (·._id) = (List.range ["Civil", "Electrical"].length).map refEnv.subId ∧
        (postRegister refEnv refStore
          { projectName := some "Works", categories := some ["Civil", "Electrical"] }).2.registers
          = refStore.registers ++ [R1] ∧
        R1.categories = created.map (·._id) ∧
        R1.projectName = some "Works" ∧ R1.projectNumber = none ∧
        R1.projectDescipline = none ∧
        R1.projectEngineers = (none : Option (List String)).getD [] ∧
        R1.commencementDate = none ∧
        R1.completionDate = none :=
  C19_post_register_creates_inline_categories refEnv refStore
    { projectName := some "Works", categories := some ["Civil", "Electrical"] }
    ["Civil", "Electrical"] rfl

/-- C20: for every existing Register R and every list of n category objects,
`POST /register/:registerId/categories` answers 200, appends n Category documents
built from those objects (in order) to the Category collection, and persists R
with `categories` equal to the old list followed by the n new identifiers in
order; every other Register keeps its place and content and the Drawing
collection is unchanged. -/
theorem C20_add_categories_appends_references (env : Env) (db : Store) (rid : String)
    (R : Register) (categoryData : List CategoryBody)
    (hf : Register.findById db rid = .ok (some R)) :
    ∃ created : List Category,
      (postRegisterCategories env db rid categoryData).1 =
          ⟨200, .register { R with categories := R.categories ++ created.map (·._id) }⟩ ∧
        (postRegisterCategories env db rid categoryData).2.categories =
          db.categories ++ created ∧
        created.length = categoryData.length ∧
        created.map (·.title) = categoryData.map (·.title) ∧
        created.map (·.description) = categoryData.map (·.description) ∧
        created.map (·.drawings) = categoryData.map (fun b => b.drawings.getD []) ∧
        created.map (·._id) = (List.range categoryData.length).map env.subId ∧
        Register.findById (postRegisterCategories env db rid categoryData).2 rid =
          .ok (some { R with categories := R.categories ++ created.map (·._id) }) ∧
        (postRegisterCategories env db rid categoryData).2.registers.length =
          db.registers.length ∧
        (∀ (j : Nat) (R2 : Register), db.registers[j]? = some R2 → R2._id ≠ R._id →
          (postRegisterCategories env db rid categoryData).2.registers[j]? = some R2) ∧
        (postRegisterCategories env db rid categoryData).2.drawings = db.drawings := by
  obtain ⟨oid, hc, hfind, hid⟩ := registerFindById_some db rid R hf
  obtain ⟨f1, f2, f3, f4⟩ := createCategories_fields env.subId categoryData 0
  obtain ⟨h1, h2, h3⟩ := replaceFirst_key_spec (fun r : Register => r._id) oid db.registers R
    { R with categories :=
        R.categories ++ (createCategories env.subId 0 categoryData).map (·._id) } hfind hid
  have hr : postRegisterCategories env db rid categoryData =
      (⟨200, .register { R with categories :=
            R.categories ++ (createCategories env.subId 0 categoryData).map (·._id) }⟩,
        { db with
          categories := db.categories ++ createCategories env.subId 0 categoryData,
          registers := replaceFirst (fun r => r._id == oid)
            { R with categories :=
                R.categories ++ (createCategories env.subId 0 categoryData).map (·._id) }
            db.registers }) := by
    simp [postRegisterCategories, Register.findById, hc, hfind, Register.save, hid]
  rw [hr]
  refine ⟨createCategories env.subId 0 categoryData, rfl, rfl, ?_, f1, f2, f3, ?_, ?_, h2, ?_,
    rfl⟩
  · have := congrArg List.length f1
    simpa using this
  · rw [f4]; simp
  · simp only [Register.findById, hc]
    rw [h1]
  · intro j R2 hj hR2
    exact h3 j R2 hj (by rw [← hid]; exact hR2)

theorem C20_add_categories_appends_references_witness :
    ∃ created : List Category,
      (postRegisterCategories refEnv refStore (oidOf 7).toHexString
          [{ title := some "Civil" }, { title := some "Electrical" }]).1 =
          ⟨200, .register { sampleRegister with
            categories := sampleRegister.categories ++ created.map (·._id) }⟩ ∧
        (postRegisterCategories refEnv refStore (oidOf 7).toHexString
          [{ title := some "Civil" }, { title := some "Electrical" }]).2.categories =
          refStore.categories ++ created ∧
        created.length = 2 ∧
        created.map (·._id) = [oidOf 9, oidOf 10] :=
  have h := C20_add_categories_appends_references refEnv refStore (oidOf 7).toHexString
    sampleRegister [{ title := some "Civil" }, { title := some "Electrical" }] (by decide)
  h.imp (fun _ hc => ⟨hc.1, hc.2.1, hc.2.2.1, by rw [hc.2.2.2.2.2.2.1]; decide⟩)

/-! ## Referential integrity -/

theorem ids_replaceFirst {α : Type} (key : α → ObjectId) (oid : ObjectId) (l : List α)
    (c y : α) (hfind : l.find? (fun s => key s == oid) = some c) (hy : key y = key c) :
    (replaceFirst (fun s => key s == oid) y l).map key = l.map key :=
  map_replaceFirst_of_find key _ c y hy l hfind

theorem mem_ids_removeFirst {α : Type} (key : α → ObjectId) (oid k : ObjectId) (l : List α)
    (hk : k ∈ l.map key) (hne : k ≠ oid) :
    k ∈ (removeFirst (fun s => key s == oid) l).map key := by
  obtain ⟨x, hx, rfl⟩ := List.mem_map.1 hk
  exact List.mem_map_of_mem key (mem_removeFirst_of_not _ l x hx (by simpa using hne))

theorem mem_of_find {α : Type} (p : α → Bool) (l : List α) (x : α) (h : l.find? p = some x) :
    x ∈ l := by
  induction l with
  | nil => simp at h
  | cons a l ih =>
    by_cases hp : p a = true
    · have : a = x := by simpa [List.find?, hp] using h
      simp [this]
    · have hl : l.find? p = some x := by simpa [List.find?, hp] using h
      exact List.mem_cons_of_mem _ (ih hl)

/-- Integrity is kept when categories whose drawings exist are appended. -/
theorem RefIntegrity.append_categories (db : Store) (created : List Category)
    (h : RefIntegrity db) (hc : ∀ c ∈ created, ∀ i ∈ c.drawings, i ∈ db.drawings.map (·._id)) :
    RefIntegrity { db with categories := db.categories ++ created } := by
  refine ⟨fun c hcm i hi => ?_, fun r hr k hk => ?_⟩
  · rcases List.mem_append.1 hcm with h1 | h1
    · exact h.1 c h1 i hi
    · exact hc c h1 i hi
  · simp only [List.map_append, List.mem_append]
    exact Or.inl (h.2 r hr k hk)

/-- Integrity is kept when a register document is written over a stored one
with references to stored categories. -/
theorem RefIntegrity.replace_register (db : Store) (p : Register → Bool) (R1 : Register)
    (h : RefIntegrity db) (hR : ∀ k ∈ R1.categories, k ∈ db.categories.map (·._id)) :
    RefIntegrity { db with registers := replaceFirst p R1 db.registers } := by
  refine ⟨h.1, fun r hr k hk => ?_⟩
  rcases mem_replaceFirst p R1 db.registers r hr with h1 | h1
  · rw [h1] at hk; exact hR k hk
  · exact h.2 r h1 k hk

/-- Integrity is kept when a category document is written over the stored one
with the same identifier, with references to stored drawings. -/
theorem RefIntegrity.replace_category (db : Store) (oid : ObjectId) (C C1 : Category)
    (h : RefIntegrity db) (hfind : db.categories.find? (fun c => c._id == oid) = some C)
    (hid : C1._id = C._id) (hC : ∀ i ∈ C1.drawings, i ∈ db.drawings.map (·._id)) :
    RefIntegrity { db with categories := replaceFirst (fun c => c._id == oid) C1 db.categories } := by
  refine ⟨fun c hcm i hi => ?_, fun r hr k hk => ?_⟩
  · rcases mem_replaceFirst _ C1 db.categories c hcm with h1 | h1
    · rw [h1] at hi; exact hC i hi
    · exact h.1 c h1 i hi
  · have := ids_replaceFirst (fun c : Category => c._id) oid db.categories C C1 hfind hid
    simp only at this ⊢
    rw [this]
    exact h.2 r hr k hk

theorem postRegister_preserves (env : Env) (db : Store) (body : RegisterBody)
    (h : RefIntegrity db) : RefIntegrity (postRegister env db body).2 := by
  unfold postRegister
  cases hb : body.categories with
  | none =>
    refine ⟨h.1, fun r hr k hk => ?_⟩
    simp only [List.mem_append, List.mem_singleton] at hr
    rcases hr with h1 | h1
    · exact h.2 r h1 k hk
    · rw [h1] at hk; simp [Register.ofBody] at hk
  | some cs =>
    have h1 := RefIntegrity.append_categories db (createTitled env.subId 0 cs) h
      (fun c hc i hi => by rw [createTitled_drawings _ _ _ c hc] at hi; simp at hi)
    refine ⟨h1.1, fun r hr k hk => ?_⟩
    simp only [List.mem_append, List.mem_singleton] at hr
    rcases hr with h2 | h2
    · exact h1.2 r h2 k hk
    · rw [h2] at hk
      simp only [Register.ofBody] at hk
      simp only [List.map_append, List.mem_append]
      exact Or.inr hk

theorem deleteRegister_preserves (db : Store) (id : String) (h : RefIntegrity db) :
    RefIntegrity (deleteRegister db id).2 := by
  simp only [deleteRegister, Register.findByIdAndDelete]
  cases castObjectId id with
  | none => exact h
  | some oid =>
    dsimp only
    cases db.registers.find? (fun r => r._id == oid) with
    | none => exact h
    | some doc =>
      exact ⟨h.1, fun r hr k hk => h.2 r (mem_removeFirst _ _ r hr) k hk⟩

theorem deleteCategory_preserves (db : Store) (id : String) (h : RefIntegrity db)
    (hs : RefOp.safe db (.categoryDelete id) = true) :
    RefIntegrity (deleteCategory db id).2 := by
  simp only [deleteCategory, Category.findByIdAndDelete]
  cases hc : castObjectId id with
  | none => exact h
  | some oid =>
    dsimp only
    cases db.categories.find? (fun c => c._id == oid) with
    | none => exact h
    | some doc =>
      refine ⟨fun c hcm i hi => h.1 c (mem_removeFirst _ _ c hcm) i hi, fun r hr k hk => ?_⟩
      have hne : k ≠ oid := by
        simp only [RefOp.safe, hc, List.all_eq_true] at hs
        have := hs r hr k hk
        intro e
        simp [e] at this
      exact mem_ids_removeFirst (fun c : Category => c._id) oid k db.categories (h.2 r hr k hk) hne

theorem putCategory_preserves (db : Store) (categoryId : String) (updateData : CategoryBody)
    (h : RefIntegrity db) (hs : RefOp.safe db (.categoryUpdate categoryId updateData) = true) :
    RefIntegrity (putCategory db categoryId updateData).2 := by
  simp only [putCategory, Category.findByIdAndUpdate]
  cases castObjectId categoryId with
  | none => exact h
  | some oid =>
    dsimp only
    cases hf : db.categories.find? (fun c => c._id == oid) with
    | none => exact h
    | some doc =>
      refine RefIntegrity.replace_category db oid doc _ h hf rfl (fun i hi => ?_)
      simp only [RefOp.safe, List.all_eq_true, decide_eq_true_eq] at hs
      cases hd : updateData.drawings with
      | none =>
        simp only [Category.applyUpdate, hd, Option.getD_none] at hi
        exact h.1 doc (mem_of_find _ _ _ hf) i hi
      | some l =>
        simp only [Category.applyUpdate, hd, Option.getD_some] at hi
        exact hs i (by simpa [hd] using hi)

theorem includes_eq_true (l : List ObjectId) (s : String) (h : includes l s = true) :
    ∃ x ∈ l, x.toHexString = s := by
  unfold includes at h
  rw [List.any_eq_true] at h
  obtain ⟨x, hx, he⟩ := h
  exact ⟨x, hx, by simpa [JsValue.looseEqStr] using he⟩

theorem putCreated_drawings (env : Env) (body : RegisterBody) :
    ∀ c ∈ putCreated env body, c.drawings = [] := by
  intro c hc
  unfold putCreated at hc
  split at hc
  · split at hc
    · exact createTitled_drawings _ _ _ c hc
    · simp at hc
  · simp at hc

theorem createCategories_drawings (subId : Nat → ObjectId) (bs : List CategoryBody) :
    ∀ k, ∀ c ∈ createCategories subId k bs, ∃ b ∈ bs, c.drawings = b.drawings.getD [] := by
  induction bs with
  | nil => intro k c h; simp [createCategories] at h
  | cons b bs ih =>
    intro k c h
    simp only [createCategories, List.mem_cons] at h
    rcases h with h | h
    · exact ⟨b, List.mem_cons_self _ _, by rw [h]⟩
    · obtain ⟨b1, hb1, hd⟩ := ih (k + 1) c h
      exact ⟨b1, List.mem_cons_of_mem _ hb1, hd⟩

/-- Integrity is kept when drawings are appended. -/
theorem RefIntegrity.append_drawings (db : Store) (ds : List Drawing) (h : RefIntegrity db) :
    RefIntegrity { db with drawings := db.drawings ++ ds } := by
  refine ⟨fun c hc i hi => ?_, h.2⟩
  simp only [List.map_append, List.mem_append]
  exact Or.inl (h.1 c hc i hi)

theorem putRegister_preserves (env : Env) (db : Store) (id : String) (body : RegisterBody)
    (h : RefIntegrity db) : RefIntegrity (putRegister env db id body).2 := by
  have h1 := RefIntegrity.append_categories db (putCreated env body) h
    (fun c hc i hi => by rw [putCreated_drawings env body c hc] at hi; simp at hi)
  cases hf : Register.findById db id with
  | error e =>
    have hr : (putRegister env db id body).2 =
        { db with categories := db.categories ++ putCreated env body } := by
      unfold Register.findById at hf
      cases hc : castObjectId id with
      | none => simp [putRegister, Register.findById, hc, putCreated]
      | some oid => simp [hc] at hf
    rw [hr]; exact h1
  | ok found =>
    cases found with
    | none =>
      have hr : (putRegister env db id body).2 =
          { db with categories := db.categories ++ putCreated env body } := by
        unfold Register.findById at hf
        cases hc : castObjectId id with
        | none => simp [hc] at hf
        | some oid =>
          have hfind : db.registers.find? (fun r => r._id == oid) = none := by
            simpa [hc] using hf
          simp [putRegister, Register.findById, hc, hfind, putCreated]
      rw [hr]; exact h1
    | some R =>
      obtain ⟨oid, hc, hfind, hid⟩ := registerFindById_some db id R hf
      obtain ⟨_, h2, h3, h4⟩ := putRegister_of_found env db id R body hf
      refine ⟨fun c hcm i hi => ?_, fun r hr k hk => ?_⟩
      · rw [h4]
        rw [h2] at hcm
        exact h1.1 c hcm i hi
      · rw [h2]
        have hreg : (putRegister env db id body).2.registers =
            replaceFirst (fun r => r._id == oid)
              (Register.applyUpdate R body ((putCreated env body).map (·._id) ++ R.categories))
              db.registers := by
          have hcast := castIdArray_texts (putCreated env body) R.categories
          simp only [putRegister, Register.findById, hc, hfind, Register.findByIdAndUpdate]
          have hcast1 : castIdArray (List.map JsValue.str
              (List.map (fun category => category._id.toHexString)
                (match body.categories with
                  | some categories =>
                    if categories.length > 0 then createTitled env.subId 0 categories else []
                  | none => [])) ++ List.map JsValue.oid R.categories) =
              some ((putCreated env body).map (·._id) ++ R.categories) := hcast
          rw [hcast1]
        rw [hreg] at hr
        rcases mem_replaceFirst _ _ _ r hr with e | e
        · rw [e] at hk
          simp only [Register.applyUpdate, List.mem_append] at hk
          simp only [List.map_append, List.mem_append]
          rcases hk with hk | hk
          · exact Or.inr hk
          · exact Or.inl (h.2 R (mem_of_find _ _ _ hfind) k hk)
        · exact h1.2 r e k hk

theorem postRegisterCategories_preserves (env : Env) (db : Store) (registerId : String)
    (categoryData : List CategoryBody) (h : RefIntegrity db)
    (hs : RefOp.safe db (.registerAddCategories env registerId categoryData) = true) :
    RefIntegrity (postRegisterCategories env db registerId categoryData).2 := by
  have h1 := RefIntegrity.append_categories db (createCategories env.subId 0 categoryData) h
    (fun c hc i hi => by
      obtain ⟨b, hb, hd⟩ := createCategories_drawings env.subId categoryData 0 c hc
      simp only [RefOp.safe, List.all_eq_true, decide_eq_true_eq] at hs
      exact hs b hb i (by rw [← hd]; exact hi))
  simp only [postRegisterCategories, Register.findById]
  cases castObjectId registerId with
  | none => exact h1
  | some oid =>
    dsimp only
    cases hf : db.registers.find? (fun r => r._id == oid) with
    | none => exact h1
    | some R =>
      dsimp only [Register.save]
      refine RefIntegrity.replace_register _ _ _ h1 (fun k hk => ?_)
      simp only [List.mem_append] at hk
      simp only [List.map_append, List.mem_append]
      rcases hk with hk | hk
      · exact Or.inl (h.2 R (mem_of_find _ _ _ hf) k hk)
      · exact Or.inr hk

theorem addCategoryDrawing_preserves (env : Env) (db : Store) (categoryId : String)
    (body : DrawingBody) (h : RefIntegrity db) :
    RefIntegrity (addCategoryDrawing env db categoryId body).2 := by
  have h1 := RefIntegrity.append_drawings db [Drawing.ofBody env body] h
  simp only [addCategoryDrawing, Category.findById]
  cases castObjectId categoryId with
  | none => exact h1
  | some oid =>
    dsimp only
    cases hf : db.categories.find? (fun c => c._id == oid) with
    | none => exact h1
    | some C =>
      dsimp only [Category.save]
      have hid : C._id = oid := find_key_eq (fun c : Category => c._id) _ _ _ hf
      rw [hid]
      refine RefIntegrity.replace_category _ oid C _ h1 hf hid.symm (fun i hi => ?_)
      simp only [List.mem_append, List.mem_singleton] at hi
      simp only [List.map_append, List.mem_append, List.map_cons, List.map_nil,
        List.mem_singleton]
      rcases hi with hi | hi
      · exact Or.inl (h.1 C (mem_of_find _ _ _ hf) i hi)
      · exact Or.inr hi

theorem deleteCategoryDrawing_preserves (db : Store) (categoryId drawingId : String)
    (h : RefIntegrity db) (hu : UniqueIds db)
    (hs : RefOp.safe db (.categoryDeleteDrawing categoryId drawingId) = true) :
    RefIntegrity (deleteCategoryDrawing db categoryId drawingId).2 := by
  simp only [deleteCategoryDrawing, Category.findById]
  cases hc : castObjectId categoryId with
  | none => exact h
  | some oid =>
    dsimp only
    cases hf : db.categories.find? (fun c => c._id == oid) with
    | none => exact h
    | some C =>
      dsimp only
      cases hinc : includes C.drawings drawingId with
      | false => simpa using h
      | true =>
        obtain ⟨X, hX, rfl⟩ := includes_eq_true _ _ hinc
        have hid : C._id = oid := find_key_eq (fun c : Category => c._id) _ _ _ hf
        have hC : C ∈ db.categories := mem_of_find _ _ _ hf
        have hsave := RefIntegrity.replace_category db oid C
          { C with drawings := C.drawings.filter (fun y => decide (y ≠ X)) } h hf rfl
          (fun i hi => h.1 C hC i (List.mem_filter.1 hi).1)
        simp only [Bool.not_true, Bool.false_eq_true, if_false, Category.save, hid,
          filterNotId_toHexString, Drawing.findByIdAndDelete, castObjectId_toHexString]
        simp only [hid] at hsave
        cases hd : db.drawings.find? (fun d => d._id == X) with
        | none => exact hsave
        | some doc =>
          dsimp only
          refine ⟨fun c hcm i hi => ?_, hsave.2⟩
          have hne : i ≠ X := by
            rcases mem_replaceFirst_unique (fun c : Category => c._id) oid _ db.categories
              hu.2.1 c hcm with e | ⟨e1, e2⟩
            · rw [e] at hi
              simpa using (List.mem_filter.1 hi).2
            · simp only [RefOp.safe, hc, castObjectId_toHexString, List.all_eq_true,
                Bool.or_eq_true, beq_iff_eq, Option.some.injEq, bne_iff_ne, ne_eq] at hs
              rcases hs c e1 with hs1 | hs1
              · exact absurd hs1.symm e2
              · exact fun e => hs1 i hi e.symm
          exact mem_ids_removeFirst (fun d : Drawing => d._id) X i db.drawings
            (hsave.1 c hcm i hi) hne

theorem deleteRegisterCategory_preserves (db : Store) (registerId categoryId : String)
    (h : RefIntegrity db) (hu : UniqueIds db)
    (hs : RefOp.safe db (.registerDeleteCategory registerId categoryId) = true) :
    RefIntegrity (deleteRegisterCategory db registerId categoryId).2 := by
  simp only [deleteRegisterCategory, Register.findById]
  cases hc : castObjectId registerId with
  | none => exact h
  | some oid =>
    dsimp only
    cases hf : db.registers.find? (fun r => r._id == oid) with
    | none => exact h
    | some R =>
      dsimp only
      cases hinc : includes R.categories categoryId with
      | false => simpa using h
      | true =>
        obtain ⟨K, hK, rfl⟩ := includes_eq_true _ _ hinc
        have hid : R._id = oid := find_key_eq (fun r : Register => r._id) _ _ _ hf
        have hR : R ∈ db.registers := mem_of_find _ _ _ hf
        have hsave := RefIntegrity.replace_register db (fun r => r._id == oid)
          { R with categories := R.categories.filter (fun y => decide (y ≠ K)) } h
          (fun k hk => h.2 R hR k (List.mem_filter.1 hk).1)
        simp only [Bool.not_true, Bool.false_eq_true, if_false, Register.save, hid,
          filterNotId_toHexString, Category.findByIdAndDelete, castObjectId_toHexString]
        simp only [hid] at hsave
        cases hd : db.categories.find? (fun c => c._id == K) with
        | none => exact hsave
        | some doc =>
          dsimp only
          refine ⟨fun c hcm i hi => h.1 c (mem_removeFirst _ _ c hcm) i hi,
            fun r hr k hk => ?_⟩
          have hne : k ≠ K := by
            rcases mem_replaceFirst_unique (fun r : Register => r._id) oid _ db.registers
              hu.2.2 r hr with e | ⟨e1, e2⟩
            · rw [e] at hk
              simpa using (List.mem_filter.1 hk).2
            · simp only [RefOp.safe, hc, castObjectId_toHexString, List.all_eq_true,
                Bool.or_eq_true, beq_iff_eq, Option.some.injEq, bne_iff_ne, ne_eq] at hs
              rcases hs r e1 with hs1 | hs1
              · exact absurd hs1.symm e2
              · exact fun e => hs1 k hk e.symm
          exact mem_ids_removeFirst (fun c : Category => c._id) K k db.categories
            (hsave.2 r hr k hk) hne

/-- Every request of the category and register routes that meets its side
condition keeps referential integrity, whether or not it succeeds. -/
theorem handleRef_preserves (db : Store) (op : RefOp) (h : RefIntegrity db) (hu : UniqueIds db)
    (hs : op.safe db = true) : RefIntegrity (handleRef db op).2 := by
  cases op with
  | registerCreate env body => exact postRegister_preserves env db body h
  | registerUpdate env id body => exact putRegister_preserves env db id body h
  | registerDelete id => exact deleteRegister_preserves db id h
  | registerAddCategories env registerId categoryData =>
    exact postRegisterCategories_preserves env db registerId categoryData h hs
  | registerDeleteCategory registerId categoryId =>
    exact deleteRegisterCategory_preserves db registerId categoryId h hu hs
  | categoryUpdate categoryId updateData =>
    exact putCategory_preserves db categoryId updateData h hs
  | categoryDelete id => exact deleteCategory_preserves db id h hs
  | categoryAddDrawing env categoryId body =>
    exact addCategoryDrawing_preserves env db categoryId body h
  | categoryDeleteDrawing categoryId drawingId =>
    exact deleteCategoryDrawing_preserves db categoryId drawingId h hu hs

/-- C16 (as stated, refuted): `refStore` has integrity (its Register lists the
Category `666...6`, which exists); `DELETE /categories/666...6` succeeds with
status 200 and deletes the Category, and the Register still lists it. -/
theorem C16_integrity_after_any_operation_refuted :
    ¬ (∀ (db : Store) (op : RefOp), RefIntegrity db → UniqueIds db →
        (handleRef db op).1.status < 400 → RefIntegrity (handleRef db op).2) := by
  intro h
  have h1 := h refStore (.categoryDelete (oidOf 6).toHexString) (by decide) (by decide)
    (by decide)
  revert h1
  decide

/-- C16 (amended): starting from a state with referential integrity (and with
identifiers unique within each collection), integrity still holds after any
single operation of the Category and Register routes (create, update, delete,
add child, remove child) that does not fail midway, provided the operation meets
`RefOp.safe`: it does not delete a Category that a Register lists, a remove-child
does not delete a child that another parent lists, and category data carry no
`drawings` identifiers of missing Drawings. -/
theorem C16_integrity_kept_by_safe_operations (db : Store) (op : RefOp)
    (h : RefIntegrity db) (hu : UniqueIds db) (hs : op.safe db = true)
    (_hok : (handleRef db op).1.status < 400) : RefIntegrity (handleRef db op).2 :=
  handleRef_preserves db op h hu hs

theorem C16_integrity_kept_by_safe_operations_witness :
    RefIntegrity (handleRef refStore
      (.categoryDeleteDrawing (oidOf 6).toHexString (oidOf 5).toHexString)).2 :=
  C16_integrity_kept_by_safe_operations refStore
    (.categoryDeleteDrawing (oidOf 6).toHexString (oidOf 5).toHexString)
    (by decide) (by decide) (by decide) (by decide)

/-! ## Updating and deleting a register -/

/-- On an identifier of no Register, `PUT /register/:id` answers 400 with the
TypeError thrown by `register.categories`; no Register document changes. -/
theorem putRegister_of_missing (env : Env) (db : Store) (id : String) (body : RegisterBody)
    (hf : Register.findById db id = .ok none) :
    (putRegister env db id body).1 = ⟨400, .thrown .typeError⟩ ∧
      (putRegister env db id body).2.registers = db.registers := by
  unfold Register.findById at hf
  cases hc : castObjectId id with
  | none => simp [hc] at hf
  | some oid =>
    have hfind : db.registers.find? (fun r => r._id == oid) = none := by simpa [hc] using hf
    simp [putRegister, Register.findById, hc, hfind]

/-- C21 (failing input): `111...1` is the identifier of no Register of
`refStore`; `PUT /register/111...1` answers 400 with the TypeError thrown by
`register.categories`, not 404 'Register not found'; the database is unchanged. -/
theorem C21_put_register_unknown_id_answers_400 :
    Register.findById refStore (oidOf 1).toHexString = .ok none ∧
      putRegister refEnv refStore (oidOf 1).toHexString { projectName := some "Depot 2" } =
        (⟨400, .thrown .typeError⟩, refStore) := by
  decide

theorem removeFirst_length_of_find {α : Type} (p : α → Bool) (x : α) :
    ∀ l : List α, l.find? p = some x → (removeFirst p l).length + 1 = l.length := by
  intro l
  induction l with
  | nil => intro h; simp at h
  | cons a l ih =>
    intro h
    by_cases hp : p a = true
    · simp [removeFirst, hp]
    · have hl : l.find? p = some x := by simpa [List.find?, hp] using h
      simp [removeFirst, hp, ih hl]

/-- C22: `DELETE /register/:id` on an existing Register R answers 200 and removes
one document, R's, from the Register collection: the other Registers stay, in
their order, no Register has R's identifier afterwards (identifiers being unique
in the collection), and every other collection is unchanged. On an identifier of
no Register it answers 404 and returns the database as it was. -/
theorem C22_delete_register_removes_only_it (db : Store) (id : String) :
    (∀ R : Register, Register.findById db id = .ok (some R) →
        (deleteRegister db id).1 = ⟨200, .message "Register deleted successfully"⟩ ∧
          (deleteRegister db id).2.registers.Sublist db.registers ∧
          (deleteRegister db id).2.registers.length + 1 = db.registers.length ∧
          (∀ r ∈ db.registers, r._id ≠ R._id → r ∈ (deleteRegister db id).2.registers) ∧
          ((db.registers.map (·._id)).Nodup →
            Register.findById (deleteRegister db id).2 id = .ok none) ∧
          (deleteRegister db id).2.categories = db.categories ∧
          (deleteRegister db id).2.drawings = db.drawings ∧
          (deleteRegister db id).2.issueSheets = db.issueSheets ∧
          (deleteRegister db id).2.counters = db.counters ∧
          (deleteRegister db id).2.users = db.users) ∧
      (Register.findById db id = .ok none →
        deleteRegister db id = (⟨404, .message "Register not found"⟩, db)) := by
  constructor
  · intro R hf
    obtain ⟨oid, hc, hfind, hid⟩ := registerFindById_some db id R hf
    have hr : deleteRegister db id =
        (⟨200, .message "Register deleted successfully"⟩,
          { db with registers := removeFirst (fun r => r._id == oid) db.registers }) := by
      simp [deleteRegister, Register.findByIdAndDelete, hc, hfind]
    rw [hr]
    refine ⟨rfl, removeFirst_sublist _ _, removeFirst_length_of_find _ R _ hfind, ?_, ?_, rfl, rfl,
      rfl, rfl, rfl⟩
    · intro r hr1 hne
      exact mem_removeFirst_of_not _ _ r hr1 (by rw [hid] at hne; simpa using hne)
    · intro hu
      simp only [Register.findById, hc]
      congr 1
      rw [List.find?_eq_none]
      intro r hr1
      simpa using removeFirst_unique (fun r : Register => r._id) oid db.registers hu r hr1
  · intro hf
    unfold Register.findById at hf
    cases hc : castObjectId id with
    | none => simp [hc] at hf
    | some oid =>
      have hfind : db.registers.find? (fun r => r._id == oid) = none := by simpa [hc] using hf
      simp [deleteRegister, Register.findByIdAndDelete, hc, hfind]

theorem C22_delete_register_removes_only_it_witness :
    ((deleteRegister refStore (oidOf 7).toHexString).1 =
          ⟨200, .message "Register deleted successfully"⟩ ∧
        (deleteRegister refStore (oidOf 7).toHexString).2.registers.length + 1 =
          refStore.registers.length ∧
        Register.findById (deleteRegister refStore (oidOf 7).toHexString).2
          (oidOf 7).toHexString = .ok none ∧
        (deleteRegister refStore (oidOf 7).toHexString).2.categories = refStore.categories ∧
        (deleteRegister refStore (oidOf 7).toHexString).2.drawings = refStore.drawings) ∧
      deleteRegister refStore (oidOf 1).toHexString =
        (⟨404, .message "Register not found"⟩, refStore) :=
  have h := (C22_delete_register_removes_only_it refStore (oidOf 7).toHexString).1
    sampleRegister (by decide)
  ⟨⟨h.1, h.2.2.1, h.2.2.2.2.1 (by decide), h.2.2.2.2.2.1, h.2.2.2.2.2.2.1⟩,
    (C22_delete_register_removes_only_it refStore (oidOf 1).toHexString).2 (by decide)⟩

/-! ## Start-up -/

/-- C23: start-up initialisation of the Counter. On an empty Counter collection
it leaves exactly one Counter, whose `issueSheetNumber` is 1; on a collection
with at least one Counter it changes nothing; it never touches another
collection; and running it a second time changes nothing more. -/
theorem C23_init_counter_once (env env2 : Env) (db : Store) :
    (db.counters = [] →
        ∃ c : Counter, (initCounter env db).counters = [c] ∧ c.issueSheetNumber = 1) ∧
      (db.counters ≠ [] → initCounter env db = db) ∧
      initCounter env2 (initCounter env db) = initCounter env db ∧
      (initCounter env db).issueSheets = db.issueSheets ∧
      (initCounter env db).drawings = db.drawings ∧
      (initCounter env db).categories = db.categories ∧
      (initCounter env db).registers = db.registers ∧
      (initCounter env db).users = db.users := by
  cases hc : db.counters with
  | nil =>
    refine ⟨fun _ => ⟨{ _id := env.newId }, by simp [initCounter, Counter.find, hc], rfl⟩,
      fun h => absurd rfl h, ?_, ?_, ?_, ?_, ?_, ?_⟩ <;>
      simp [initCounter, Counter.find, hc]
  | cons c cs =>
    refine ⟨fun h => List.noConfusion h, fun _ => ?_, ?_, ?_, ?_, ?_, ?_, ?_⟩ <;>
      simp [initCounter, Counter.find, hc]

theorem C23_init_counter_once_witness :
    (∃ c : Counter, (initCounter refEnv {}).counters = [c] ∧ c.issueSheetNumber = 1) ∧
      initCounter refEnv freshStore = freshStore :=
  ⟨(C23_init_counter_once refEnv refEnv {}).1 rfl,
    (C23_init_counter_once refEnv refEnv freshStore).2.1 (by decide)⟩

/-! ## The drawing made by add-drawing -/

theorem addCategoryDrawing_drawings (env : Env) (db : Store) (cid : String)
    (body : DrawingBody) :
    (addCategoryDrawing env db cid body).2.drawings = db.drawings ++ [Drawing.ofBody env body] := by
  simp only [addCategoryDrawing, Category.findById]
  cases castObjectId cid with
  | none => rfl
  | some oid =>
    dsimp only
    cases db.categories.find? (fun c => c._id == oid) with
    | none => rfl
    | some C => rfl

/-- C24: when add-drawing is called for a category identifier that matches no
Category, the handler answers 404 and leaves the Category collection as it was,
while the Drawing collection has gained exactly one document, the new Drawing,
which no Category lists (its identifier being fresh: listed by no Category
before the call). -/
theorem C24_add_drawing_unknown_category_leaves_orphan (env : Env) (db : Store)
    (cid : String) (body : DrawingBody) (hf : Category.findById db cid = .ok none)
    (hfresh : ∀ c ∈ db.categories, env.newId ∉ c.drawings) :
    (addCategoryDrawing env db cid body).1 = ⟨404, .message "Category not found"⟩ ∧
      (addCategoryDrawing env db cid body).2.categories = db.categories ∧
      ∃ d : Drawing, d._id = env.newId ∧
        (addCategoryDrawing env db cid body).2.drawings = db.drawings ++ [d] ∧
        ∀ c ∈ (addCategoryDrawing env db cid body).2.categories, d._id ∉ c.drawings := by
  unfold Category.findById at hf
  cases hc : castObjectId cid with
  | none => simp [hc] at hf
  | some oid =>
    have hfind : db.categories.find? (fun c => c._id == oid) = none := by simpa [hc] using hf
    have hr : addCategoryDrawing env db cid body =
        (⟨404, .message "Category not found"⟩,
          { db with drawings := db.drawings ++ [Drawing.ofBody env body] }) := by
      simp [addCategoryDrawing, Category.findById, hc, hfind]
    rw [hr]
    exact ⟨rfl, rfl, Drawing.ofBody env body, rfl, rfl, hfresh⟩

theorem C24_add_drawing_unknown_category_leaves_orphan_witness :
    (addCategoryDrawing refEnv refStore (oidOf 1).toHexString { title := some "Plan" }).1 =
        ⟨404, .message "Category not found"⟩ ∧
      (addCategoryDrawing refEnv refStore (oidOf 1).toHexString
        { title := some "Plan" }).2.categories = refStore.categories ∧
      ∃ d : Drawing, d._id = refEnv.newId ∧
        (addCategoryDrawing refEnv refStore (oidOf 1).toHexString
          { title := some "Plan" }).2.drawings = refStore.drawings ++ [d] ∧
        ∀ c ∈ (addCategoryDrawing refEnv refStore (oidOf 1).toHexString
          { title := some "Plan" }).2.categories, d._id ∉ c.drawings :=
  C24_add_drawing_unknown_category_leaves_orphan refEnv refStore (oidOf 1).toHexString
    { title := some "Plan" } (by decide) (by decide)

/-- C30: for every request body, the Drawing document that add-drawing saves
takes `drawingNumber`, `description`, `title` and `size` from the body and
`revisions` too, 0 when the body has none; it has no `projectNumber`, and a
`projectNumber` in the body changes nothing. -/
theorem C30_added_drawing_fields (env : Env) (db : Store) (cid : String) (body : DrawingBody) :
    (∃ d : Drawing,
        (addCategoryDrawing env db cid body).2.drawings = db.drawings ++ [d] ∧
          d.drawingNumber = body.drawingNumber ∧ d.description = body.description ∧
          d.title = body.title ∧ d.size = body.size ∧
          d.revisions = body.revisions.getD 0 ∧ d.projectNumber = none) ∧
      ∀ pn : Option String,
        addCategoryDrawing env db cid { body with projectNumber := pn } =
          addCategoryDrawing env db cid body :=
  ⟨⟨Drawing.ofBody env body, addCategoryDrawing_drawings env db cid body, rfl, rfl, rfl, rfl, rfl,
    rfl⟩, fun _ => rfl⟩

/-! ## A creation that is rejected -/

/-- C29 (as stated, refuted): with the Counter at 2^53, a creation rejected by
validation (media "paper") answers 400 and leaves the Counter at 2^53, the
increment being lost in the rounding of the sum; the next creation that succeeds
numbers its sheet 2^53, the number the rejected creation had been given. So the
Counter has not advanced and the number is given out again. -/
theorem C29_gap_refuted :
    (counterValue limitStore = some (2 ^ 53) ∧
        postIssueSheet (sampleEnv 1) limitStore { media := some "paper" } =
          (⟨400, .thrown .validationError⟩, limitStore) ∧
        (postIssueSheet (sampleEnv 2)
            (postIssueSheet (sampleEnv 1) limitStore { media := some "paper" }).2
            { media := some "physical" }).1 =
          ⟨201, .sheet (IssueSheet.ofBody (sampleEnv 2)
            { media := some "physical", issueSheetNumber := some (2 ^ 53) } [])⟩) ∧
      ¬ (∀ (e1 e2 : Env) (db : Store) (b1 b2 : IssueSheetBody) (V : Int),
          counterValue db = some V → b1.valid e1 = false → b2.valid e2 = true →
          (postIssueSheet e1 db b1).2.issueSheets = db.issueSheets ∧
            counterValue (postIssueSheet e1 db b1).2 = some (V + 1) ∧
            ∀ s : IssueSheet,
              (postIssueSheet e2 (postIssueSheet e1 db b1).2 b2).1 = ⟨201, .sheet s⟩ →
              s.issueSheetNumber ≠ some V) := by
  refine ⟨by decide, fun h => ?_⟩
  have h1 := (h (sampleEnv 1) (sampleEnv 2) limitStore { media := some "paper" }
    { media := some "physical" } (2 ^ 53) (by decide) (by decide) (by decide)).2.1
  revert h1
  decide

/-- C29 (amended): if `POST /issue-sheets` allocates the number V, with V at
least -2^53 and below 2^53, and the creation is then rejected by validation, the
handler answers 400 and the IssueSheet collection is unchanged, but the Counter
has advanced to V+1; the next creation that succeeds numbers its sheet V+1, so V
is skipped and not given out again, and it advances the Counter to V+2 when V+2
is at most 2^53. -/
theorem C29_rejected_creation_leaves_gap (e1 e2 : Env) (db : Store) (b1 b2 : IssueSheetBody)
    (V : Int) (hV : counterValue db = some V) (h1 : b1.valid e1 = false)
    (h2 : b2.valid e2 = true) (hlo : -(2 ^ 53) ≤ V) (hhi : V < 2 ^ 53) :
    (postIssueSheet e1 db b1).1 = ⟨400, .thrown .validationError⟩ ∧
      (postIssueSheet e1 db b1).2.issueSheets = db.issueSheets ∧
      counterValue (postIssueSheet e1 db b1).2 = some (V + 1) ∧
      ∃ s : IssueSheet,
        (postIssueSheet e2 (postIssueSheet e1 db b1).2 b2).1 = ⟨201, .sheet s⟩ ∧
          s.issueSheetNumber = some (V + 1) ∧ s.issueSheetNumber ≠ some V ∧
          (postIssueSheet e2 (postIssueSheet e1 db b1).2 b2).2.issueSheets =
            db.issueSheets ++ [s] ∧
          (V + 2 ≤ 2 ^ 53 →
            counterValue (postIssueSheet e2 (postIssueSheet e1 db b1).2 b2).2 =
              some (V + 2)) := by
  obtain ⟨c, cs, hc, rfl⟩ := counterValue_eq_some db V hV
  rcases postIssueSheet_cons e1 db b1 c cs hc with ⟨_, _, _, hv⟩ | ⟨hp, _⟩
  · rw [h1] at hv; cases hv
  · have hcv : counterValue (postIssueSheet e1 db b1).2 = some (c.issueSheetNumber + 1) := by
      rw [hp, ← jsAdd_exact c.issueSheetNumber 1 (by omega) (by omega)]
      simp [counterValue]
    have hsh : (postIssueSheet e1 db b1).2.issueSheets = db.issueSheets := by rw [hp]
    obtain ⟨s, r2, n2, i2, c2⟩ := postIssueSheet_valid e2 _ b2 _ hcv h2
    refine ⟨by rw [hp], hsh, hcv, s, r2, n2, ?_, by rw [i2, hsh], fun h3 => ?_⟩
    · rw [n2]
      intro h
      have := Option.some.inj h
      omega
    · rw [c2, jsAdd_exact _ 1 (by omega) (by omega)]
      congr 1
      ring

theorem C29_rejected_creation_leaves_gap_witness :
    (postIssueSheet (sampleEnv 1) freshStore { media := some "paper" }).1 =
        ⟨400, .thrown .validationError⟩ ∧
      (postIssueSheet (sampleEnv 1) freshStore { media := some "paper" }).2.issueSheets =
        freshStore.issueSheets ∧
      counterValue (postIssueSheet (sampleEnv 1) freshStore { media := some "paper" }).2 =
        some (1 + 1) ∧
      ∃ s : IssueSheet,
        (postIssueSheet (sampleEnv 2)
          (postIssueSheet (sampleEnv 1) freshStore { media := some "paper" }).2
          { media := some "physical" }).1 = ⟨201, .sheet s⟩ ∧
          s.issueSheetNumber = some (1 + 1) ∧ s.issueSheetNumber ≠ some 1 ∧
          (postIssueSheet (sampleEnv 2)
            (postIssueSheet (sampleEnv 1) freshStore { media := some "paper" }).2
            { media := some "physical" }).2.issueSheets = freshStore.issueSheets ++ [s] ∧
          ((1 : Int) + 2 ≤ 2 ^ 53 →
            counterValue (postIssueSheet (sampleEnv 2)
              (postIssueSheet (sampleEnv 1) freshStore { media := some "paper" }).2
              { media := some "physical" }).2 = some (1 + 2)) :=
  C29_rejected_creation_leaves_gap (sampleEnv 1) (sampleEnv 2) freshStore
    { media := some "paper" } { media := some "physical" } 1 (by decide) (by decide) (by decide)
    (by decide) (by decide)

/-! ## Stored passwords -/

/-- A User created by `POST /users` is stored with the hash of the password of
the body. -/
theorem postUser_stores_hash (hash : String → String) (env : Env) (db : Store) (body : UserBody)
    (plain : String) (hp : body.password = some plain) :
    ∃ u : User, (postUser hash env db body).1 = ⟨201, .user u⟩ ∧
      (postUser hash env db body).2.users = db.users ++ [u] ∧ u.password = some (hash plain) := by
  simp [postUser, hp]

/-- C28 (failing input): the User `888...8` was created by `POST /users` and is
stored with the hash of "secret"; `PATCH /users/888...8` with the body
`{ password: "hunter2" }` answers 200 and stores the text "hunter2" itself as
the password. -/
theorem C28_patch_stores_plaintext_password :
    userStore.users.map (·.password) = [some (sampleHash "secret")] ∧
      (patchUser userStore (oidOf 8).toHexString { password := some "hunter2" }).1.status = 200 ∧
      (patchUser userStore (oidOf 8).toHexString { password := some "hunter2" }).2.users.map
        (·.password) = [some "hunter2"] := by
  decide

/-! ## The drawings of a project -/

theorem foldl_push_drawings (cats : List PopulatedCategory) :
    ∀ acc : List Drawing,
      cats.foldl (fun allDrawings category => allDrawings ++ category.drawings) acc =
        acc ++ cats.flatMap (·.drawings) := by
  induction cats with
  | nil => intro acc; simp
  | cons c cs ih => intro acc; simp [ih, List.append_assoc]

theorem foldl_push_registers (regs : List PopulatedRegister) :
    ∀ acc : List Drawing,
      regs.foldl (fun allDrawings register =>
          register.categories.foldl (fun allDrawings category =>
            allDrawings ++ category.drawings) allDrawings) acc =
        acc ++ regs.flatMap (fun r => r.categories.flatMap (·.drawings)) := by
  induction regs with
  | nil => intro acc; simp
  | cons r rs ih =>
    intro acc
    simp only [List.foldl_cons, List.flatMap_cons]
    rw [ih, foldl_push_drawings, List.append_assoc]

theorem populateCategories_drawings (db : Store) (ids : List ObjectId) :
    (populateCategories db ids).flatMap (·.drawings) = ids.flatMap (drawingsOfCategory db) := by
  induction ids with
  | nil => rfl
  | cons k ks ih =>
    unfold populateCategories at ih ⊢
    cases hf : db.categories.find? (fun c => c._id == k) with
    | none => simp [List.filterMap_cons, hf, drawingsOfCategory, ih]
    | some c => simp [List.filterMap_cons, hf, drawingsOfCategory, ih]

theorem flatMap_congr_mem {α β : Type} (l : List α) (f g : α → List β)
    (h : ∀ x ∈ l, f x = g x) : l.flatMap f = l.flatMap g := by
  induction l with
  | nil => rfl
  | cons a l ih =>
    simp only [List.flatMap_cons]
    rw [h a (List.mem_cons_self _ _), ih (fun x hx => h x (List.mem_cons_of_mem _ hx))]

theorem find_of_mem_ids {α : Type} (key : α → ObjectId) (l : List α) (i : ObjectId)
    (h : i ∈ l.map key) : ∃ d, l.find? (fun s => key s == i) = some d ∧ key d = i := by
  induction l with
  | nil => simp at h
  | cons a l ih =>
    by_cases ha : key a = i
    · exact ⟨a, by simp [List.find?, ha], ha⟩
    · have hl : i ∈ l.map key := by
        simp only [List.map_cons, List.mem_cons] at h
        rcases h with h | h
        · exact absurd h.symm ha
        · exact h
      obtain ⟨d, hd, hk⟩ := ih hl
      have hb : (key a == i) = false := by simpa using ha
      exact ⟨d, by simp [List.find?, hb, hd], hk⟩

theorem populateDrawings_ids (db : Store) (ids : List ObjectId)
    (h : ∀ i ∈ ids, i ∈ db.drawings.map (·._id)) :
    (populateDrawings db ids).map (·._id) = ids := by
  induction ids with
  | nil => rfl
  | cons i is ih =>
    obtain ⟨d, hd, hk⟩ := find_of_mem_ids (fun d : Drawing => d._id) db.drawings i
      (h i (List.mem_cons_self _ _))
    have ih1 := ih (fun j hj => h j (List.mem_cons_of_mem _ hj))
    unfold populateDrawings at ih1 ⊢
    simp [List.filterMap_cons, hd, hk, ih1]

theorem drawingsOfCategory_ids (db : Store) (k : ObjectId) (h : RefIntegrity db) :
    (drawingsOfCategory db k).map (·._id) = drawingIdsOfCategory db k := by
  unfold drawingsOfCategory drawingIdsOfCategory
  cases hf : db.categories.find? (fun c => c._id == k) with
  | none => rfl
  | some c => exact populateDrawings_ids db c.drawings (h.1 c (mem_of_find _ _ _ hf))

/-- C26: `GET /categories/drawings/:projectNumber` answers 200 with exactly the
concatenation, over the Registers whose `projectNumber` equals the parameter (in
store order) and over the categories of each (in list order), of the Drawing
documents of that category (in list order); a Register with another
`projectNumber` contributes nothing. Under referential integrity no reference is
dropped: the identifiers of the Drawings returned are the concatenation of the
categories' `drawings` lists. -/
theorem C26_project_drawings_are_the_concatenation (db : Store) (n : Int) :
    getProjectDrawings db n =
        ⟨200, .drawings ((db.registers.filter (fun r => r.projectNumber == some n)).flatMap
          (fun r => r.categories.flatMap (drawingsOfCategory db)))⟩ ∧
      (RefIntegrity db →
        ∃ ds : List Drawing, getProjectDrawings db n = ⟨200, .drawings ds⟩ ∧
          ds.map (·._id) =
            (db.registers.filter (fun r => r.projectNumber == some n)).flatMap
              (fun r => r.categories.flatMap (drawingIdsOfCategory db))) := by
  have h1 : getProjectDrawings db n =
      ⟨200, .drawings ((db.registers.filter (fun r => r.projectNumber == some n)).flatMap
        (fun r => r.categories.flatMap (drawingsOfCategory db)))⟩ := by
    simp only [getProjectDrawings, foldl_push_registers, List.nil_append,
      Register.findPopulated, List.flatMap_map]
    congr 2
    apply flatMap_congr_mem
    intro r _
    exact populateCategories_drawings db r.categories
  refine ⟨h1, fun hint => ⟨_, h1, ?_⟩⟩
  rw [List.map_flatMap]
  apply flatMap_congr_mem
  intro r _
  rw [List.map_flatMap]
  apply flatMap_congr_mem
  intro k _
  exact drawingsOfCategory_ids db k hint

theorem C26_project_drawings_are_the_concatenation_witness :
    ∃ ds : List Drawing,
      getProjectDrawings
          { refStore with registers := [{ sampleRegister with projectNumber := some 12 }] } 12 =
          ⟨200, .drawings ds⟩ ∧
        ds.map (·._id) = [oidOf 5] :=
  have h := (C26_project_drawings_are_the_concatenation
    { refStore with registers := [{ sampleRegister with projectNumber := some 12 }] } 12).2
    (by decide)
  h.imp (fun _ hd => ⟨hd.1, by rw [hd.2]; decide⟩)

/-- C27 (failing input): no Register of `refStore` has the project number 5;
`GET /categories/drawings/5` answers 200 with the empty list, not 404. -/
theorem C27_no_drawings_answers_200 :
    refStore.registers.filter (fun r => r.projectNumber == some 5) = [] ∧
      getProjectDrawings refStore 5 = ⟨200, .drawings []⟩ := by
  decide

/-! ## Interleaved calls of the allocator -/

/-- The two database operations of a call, performed with nothing in between,
are the function `nextIssueSheetNumber`. -/
theorem call_steps_eq_nextIssueSheetNumber (db : Store) :
    Call.step (Call.step db .start).2 (Call.step db .start).1 =
      (.returned (nextIssueSheetNumber db).1, (nextIssueSheetNumber db).2) := by
  cases hc : db.counters with
  | nil => simp [Call.step, nextIssueSheetNumber, Counter.find, hc]
  | cons c cs =>
    simp [Call.step, nextIssueSheetNumber, Counter.find, hc, Counter.findByIdAndUpdateInc,
      replaceFirst]

theorem set_same {α : Type} : ∀ (l : List α) (i : Nat) (a : α), l[i]? = some a →
    l.set i a = l := by
  intro l
  induction l with
  | nil => intro i a h; simp at h
  | cons x l ih =>
    intro i a h
    cases i with
    | zero =>
      have : x = a := by simpa using h
      simp [this]
    | succ i =>
      have h1 : l[i]? = some a := by simpa using h
      simp [ih i a h1]

theorem filterMap_set_none {α β : Type} (f : α → Option β) (b : α) (hb : f b = none) :
    ∀ (l : List α) (i : Nat) (a : α), l[i]? = some a → f a = none →
      (l.set i b).filterMap f = l.filterMap f := by
  intro l
  induction l with
  | nil => intro i a h; simp at h
  | cons x l ih =>
    intro i a h ha
    cases i with
    | zero =>
      have : x = a := by simpa using h
      subst this
      simp [List.filterMap_cons, ha, hb]
    | succ i =>
      have h1 : l[i]? = some a := by simpa using h
      simp [List.filterMap_cons, ih i a h1 ha]

theorem filterMap_set_some {α β : Type} (f : α → Option β) (b : α) (v : β)
    (hb : f b = some v) :
    ∀ (l : List α) (i : Nat) (a : α), l[i]? = some a → f a = none →
      ((l.set i b).filterMap f).Perm (v :: l.filterMap f) := by
  intro l
  induction l with
  | nil => intro i a h; simp at h
  | cons x l ih =>
    intro i a h ha
    cases i with
    | zero =>
      have : x = a := by simpa using h
      subst this
      simp [List.filterMap_cons, ha, hb]
    | succ i =>
      have h1 : l[i]? = some a := by simpa using h
      have ih1 := ih i a h1 ha
      simp only [List.set_cons_succ, List.filterMap_cons]
      cases hx : f x with
      | none => exact ih1
      | some w => exact (ih1.cons w).trans (List.Perm.swap v w _)

theorem mem_returnedValues (s : Concurrent) (v : Int) (h : v ∈ s.returnedValues) :
    Call.returned (.ok v) ∈ s.calls := by
  unfold Concurrent.returnedValues at h
  obtain ⟨x, hx, hv⟩ := List.mem_filterMap.1 h
  cases x with
  | start => simp [Call.value] at hv
  | found id => simp [Call.value] at hv
  | returned r =>
    cases r with
    | error e => simp [Call.value] at hv
    | ok w =>
      have : w = v := by simpa [Call.value] using hv
      rw [← this]; exact hx

theorem countP_set {α : Type} (p : α → Bool) (b : α) :
    ∀ (l : List α) (i : Nat) (a : α), l[i]? = some a →
      (l.set i b).countP p + (if p a = true then 1 else 0) =
        l.countP p + (if p b = true then 1 else 0) := by
  intro l
  induction l with
  | nil => intro i a h; simp at h
  | cons x l ih =>
    intro i a h
    cases i with
    | zero =>
      have : x = a := by simpa using h
      subst this
      simp only [List.set_cons_zero, List.countP_cons]
      omega
    | succ i =>
      have h1 : l[i]? = some a := by simpa using h
      have := ih i a h1
      simp only [List.set_cons_succ, List.countP_cons]
      omega

theorem AllocInv.step (s : Concurrent) (i : Nat) (h : AllocInv s) : AllocInv (s.step i) := by
  unfold Concurrent.step
  cases hi : s.calls[i]? with
  | none => exact h
  | some x =>
    dsimp only
    have hx : x ∈ s.calls := List.getElem?_mem hi
    rcases h with ⟨hc, hall⟩ | ⟨c, cs, hc, hall, hnd, hb⟩
    · left
      rcases hall x hx with rfl | rfl
      · have hstep : Call.step s.db .start = (.returned (.error .typeError), s.db) := by
          simp [Call.step, Counter.find, hc]
        rw [hstep]
        refine ⟨hc, fun y hy => ?_⟩
        rcases List.mem_or_eq_of_mem_set hy with hy | hy
        · exact hall y hy
        · exact Or.inr hy
      · simp only [Call.step]
        rw [set_same _ _ _ hi]
        exact ⟨hc, hall⟩
    · right
      rcases hall x hx with rfl | rfl | ⟨v, rfl⟩
      · have hstep : Call.step s.db .start = (.found c._id, s.db) := by
          simp [Call.step, Counter.find, hc]
        rw [hstep]
        have hret : (s.calls.set i (.found c._id)).filterMap Call.value =
            s.calls.filterMap Call.value :=
          filterMap_set_none Call.value (.found c._id) rfl s.calls i .start hi rfl
        have hpend : (s.calls.set i (.found c._id)).countP
            (fun x => decide (Call.phase x < 2)) =
            s.calls.countP (fun x => decide (Call.phase x < 2)) := by
          have := countP_set (fun x => decide (Call.phase x < 2)) (.found c._id) s.calls i
            .start hi
          simpa [Call.phase] using this
        refine ⟨c, cs, hc, ?_, ?_, ?_⟩
        · intro y hy
          rcases List.mem_or_eq_of_mem_set hy with hy | hy
          · exact hall y hy
          · exact Or.inr (Or.inl hy)
        · simp only [Concurrent.returnedValues]
          rw [hret]
          exact hnd
        · simp only [Concurrent.returnedValues, Concurrent.pending]
          rw [hret, hpend]
          exact hb
      · have hstep : Call.step s.db (.found c._id) =
            (.returned (.ok c.issueSheetNumber),
              { s.db with
                counters := { c with issueSheetNumber := jsAdd c.issueSheetNumber 1 } :: cs }) := by
          simp [Call.step, Counter.findByIdAndUpdateInc, hc, replaceFirst]
        rw [hstep]
        have hperm := filterMap_set_some Call.value (.returned (.ok c.issueSheetNumber))
          c.issueSheetNumber rfl s.calls i _ hi rfl
        have hpend : (s.calls.set i (.returned (.ok c.issueSheetNumber))).countP
            (fun x => decide (Call.phase x < 2)) + 1 =
            s.calls.countP (fun x => decide (Call.phase x < 2)) := by
          have := countP_set (fun x => decide (Call.phase x < 2))
            (.returned (.ok c.issueSheetNumber)) s.calls i (.found c._id) hi
          simpa [Call.phase] using this
        have hpos : s.pending ≠ 0 := by
          unfold Concurrent.pending
          omega
        rcases hb with hb | ⟨hlt, hlo, hhi⟩
        · exact absurd hb hpos
        refine ⟨{ c with issueSheetNumber := jsAdd c.issueSheetNumber 1 }, cs, rfl, ?_, ?_, ?_⟩
        · intro y hy
          rcases List.mem_or_eq_of_mem_set hy with hy | hy
          · rcases hall y hy with e | e | ⟨v, e⟩
            · exact Or.inl e
            · exact Or.inr (Or.inl e)
            · exact Or.inr (Or.inr ⟨v, e⟩)
          · exact Or.inr (Or.inr ⟨c.issueSheetNumber, hy⟩)
        · simp only [Concurrent.returnedValues]
          rw [hperm.nodup_iff, List.nodup_cons]
          exact ⟨fun hin => lt_irrefl _ (hlt _ hin), hnd⟩
        · simp only [Concurrent.returnedValues, Concurrent.pending]
          by_cases h0 : (s.calls.set i (.returned (.ok c.issueSheetNumber))).countP
              (fun x => decide (Call.phase x < 2)) = 0
          · exact Or.inl h0
          · right
            have hp2 : (2 : Int) ≤ (s.pending : Int) := by
              unfold Concurrent.pending
              omega
            have hexact : jsAdd c.issueSheetNumber 1 = c.issueSheetNumber + 1 :=
              jsAdd_exact _ _ (by omega) (by omega)
            have hp1 : ((s.calls.set i (.returned (.ok c.issueSheetNumber))).countP
                (fun x => decide (Call.phase x < 2)) : Int) + 1 = (s.pending : Int) := by
              unfold Concurrent.pending
              exact_mod_cast hpend
            refine ⟨fun v hv => ?_, ?_, ?_⟩
            · simp only [hexact]
              rcases List.mem_cons.1 (hperm.mem_iff.1 hv) with e | e
              · omega
              · have := hlt v e
                omega
            · simp only [hexact]
              omega
            · simp only [hexact]
              omega
      · simp only [Call.step]
        rw [set_same _ _ _ hi]
        exact ⟨c, cs, hc, hall, hnd, hb⟩

theorem AllocInv.run (schedule : List Nat) : ∀ s : Concurrent, AllocInv s →
    AllocInv (s.run schedule) := by
  induction schedule with
  | nil => intro s h; exact h
  | cons i rest ih => intro s h; exact ih _ (AllocInv.step s i h)

theorem AllocInv.init (db : Store) (n : Nat)
    (hV : ∀ V : Int, counterValue db = some V →
      -(2 ^ 53) ≤ V ∧ V + (n : Int) ≤ 2 ^ 53 + 1) : AllocInv (Concurrent.init db n) := by
  cases hc : db.counters with
  | nil =>
    left
    exact ⟨hc, fun x hx => Or.inl (List.eq_of_mem_replicate hx)⟩
  | cons c cs =>
    right
    obtain ⟨hlo, hhi⟩ := hV c.issueSheetNumber (by simp [counterValue, hc])
    have hpend : (Concurrent.init db n).pending = n := by
      simp [Concurrent.pending, Concurrent.init, List.countP_replicate, Call.phase]
    have hret : (Concurrent.init db n).returnedValues = [] := by
      simp [Concurrent.returnedValues, Concurrent.init, Call.value]
    refine ⟨c, cs, hc, fun x hx => Or.inl (List.eq_of_mem_replicate hx), ?_, Or.inr ?_⟩
    · rw [hret]; exact List.nodup_nil
    · rw [hret, hpend]
      exact ⟨fun v hv => by simp at hv, hlo, hhi⟩

theorem AllocInv.nodup (s : Concurrent) (h : AllocInv s) : s.returnedValues.Nodup := by
  rcases h with ⟨_, hall⟩ | ⟨_, _, _, _, hnd, _⟩
  · have : s.returnedValues = [] := by
      unfold Concurrent.returnedValues
      rw [List.filterMap_eq_nil_iff]
      intro x hx
      rcases hall x hx with rfl | rfl <;> rfl
    rw [this]
    exact List.nodup_nil
  · exact hnd

theorem call_step_counters_length (db : Store) (c : Call) :
    (Call.step db c).2.counters.length = db.counters.length := by
  cases c with
  | start =>
    simp only [Call.step]
    cases (Counter.find db).head? <;> rfl
  | found id =>
    simp only [Call.step, Counter.findByIdAndUpdateInc]
    cases db.counters.find? (fun c => c._id == id) with
    | none => rfl
    | some c => simp [replaceFirst_length]
  | returned r => rfl

theorem call_phase_step (db : Store) (c : Call) :
    min 2 (Call.phase c + 1) ≤ Call.phase (Call.step db c).1 := by
  cases c with
  | start =>
    simp only [Call.step]
    cases (Counter.find db).head? <;> simp [Call.phase]
  | found id =>
    simp only [Call.step]
    cases h : Counter.findByIdAndUpdateInc db id with
    | mk r db1 => cases r <;> simp [Call.phase]
  | returned r => simp [Call.step, Call.phase]

theorem concurrent_step_counters_length (s : Concurrent) (i : Nat) :
    (s.step i).db.counters.length = s.db.counters.length := by
  unfold Concurrent.step
  cases s.calls[i]? with
  | none => rfl
  | some c => exact call_step_counters_length s.db c

theorem concurrent_step_calls_length (s : Concurrent) (i : Nat) :
    (s.step i).calls.length = s.calls.length := by
  unfold Concurrent.step
  cases s.calls[i]? with
  | none => rfl
  | some c => simp

theorem concurrent_run_lengths (schedule : List Nat) : ∀ s : Concurrent,
    (s.run schedule).calls.length = s.calls.length ∧
      (s.run schedule).db.counters.length = s.db.counters.length := by
  induction schedule with
  | nil => intro s; exact ⟨rfl, rfl⟩
  | cons i rest ih =>
    intro s
    obtain ⟨h1, h2⟩ := ih (s.step i)
    exact ⟨h1.trans (concurrent_step_calls_length s i),
      h2.trans (concurrent_step_counters_length s i)⟩

/-- Every database operation scheduled for a call advances it, until it has
finished. -/
theorem concurrent_run_phase (schedule : List Nat) : ∀ (s : Concurrent) (j : Nat) (c : Call),
    s.calls[j]? = some c →
    ∃ c1, (s.run schedule).calls[j]? = some c1 ∧
      min 2 (Call.phase c + schedule.count j) ≤ Call.phase c1 := by
  induction schedule with
  | nil => intro s j c h; exact ⟨c, h, by simp⟩
  | cons i rest ih =>
    intro s j c h
    by_cases hij : i = j
    · subst hij
      have h1 : (s.step i).calls[i]? = some (Call.step s.db c).1 := by
        unfold Concurrent.step
        rw [h]
        have hlt : i < s.calls.length := (List.getElem?_eq_some.1 h).1
        simp [hlt]
      obtain ⟨c1, e1, e2⟩ := ih (s.step i) i _ h1
      refine ⟨c1, e1, ?_⟩
      have := call_phase_step s.db c
      rw [List.count_cons_self]
      omega
    · have h1 : (s.step i).calls[j]? = some c := by
        unfold Concurrent.step
        cases hi : s.calls[i]? with
        | none => exact h
        | some x =>
          dsimp only
          rw [List.getElem?_set_ne hij]
          exact h
      obtain ⟨c1, e1, e2⟩ := ih (s.step i) j c h1
      refine ⟨c1, e1, ?_⟩
      rw [List.count_cons_of_ne (fun e => hij e.symm)]
      exact e2

theorem length_filterMap_of_isSome {α β : Type} (f : α → Option β) (l : List α)
    (h : ∀ x ∈ l, (f x).isSome = true) : (l.filterMap f).length = l.length := by
  induction l with
  | nil => rfl
  | cons a l ih =>
    have ha := h a (List.mem_cons_self _ _)
    obtain ⟨b, hb⟩ := Option.isSome_iff_exists.1 ha
    simp [List.filterMap_cons, hb, ih (fun x hx => h x (List.mem_cons_of_mem _ hx))]

/-- C25 (as stated, refuted): with the Counter at 2^53, where the increment
leaves the value, two concurrent calls, in the interleaving read, read,
increment, increment (or any other), both return 2^53. -/
theorem C25_distinct_values_refuted :
    ((Concurrent.init limitStore 2).run [0, 1, 0, 1]).returnedValues = [2 ^ 53, 2 ^ 53] ∧
      ¬ (∀ (db : Store) (n : Nat) (schedule : List Nat),
        ((Concurrent.init db n).run schedule).returnedValues.Nodup) := by
  refine ⟨by decide, fun h => ?_⟩
  have h1 := h limitStore 2 [0, 1, 0, 1]
  revert h1
  decide

/-- C25 (amended): for every N, every store whose Counter, if there is one,
holds a value V of at least -2^53 such that the N numbers V, ..., V+N-1 are at
most 2^53, and every interleaving of the database operations of N concurrent
calls of `nextIssueSheetNumber` (each call a read of the Counter's identifier,
then one atomic increment that fetches the value), the values returned are
pairwise distinct; and when a Counter exists and the interleaving lets each call
perform its two operations, all N calls return a value. -/
theorem C25_interleaved_calls_return_distinct_values (db : Store) (n : Nat)
    (schedule : List Nat)
    (hV : ∀ V : Int, counterValue db = some V →
      -(2 ^ 53) ≤ V ∧ V + (n : Int) ≤ 2 ^ 53 + 1) :
    ((Concurrent.init db n).run schedule).returnedValues.Nodup ∧
      (db.counters ≠ [] → (∀ i < n, 2 ≤ schedule.count i) →
        ((Concurrent.init db n).run schedule).returnedValues.length = n) := by
  have hinv := AllocInv.run schedule _ (AllocInv.init db n hV)
  refine ⟨AllocInv.nodup _ hinv, fun hne hsched => ?_⟩
  obtain ⟨hlen, hcl⟩ := concurrent_run_lengths schedule (Concurrent.init db n)
  have hlen1 : ((Concurrent.init db n).run schedule).calls.length = n := by
    rw [hlen]; simp [Concurrent.init]
  rcases hinv with ⟨hc, _⟩ | ⟨c, cs, _, hall, _, _⟩
  · rw [hc] at hcl
    have : db.counters = [] := List.length_eq_zero.1 (by simpa [Concurrent.init] using hcl.symm)
    exact absurd this hne
  · refine Eq.trans ?_ hlen1
    unfold Concurrent.returnedValues
    apply length_filterMap_of_isSome
    intro x hx
    obtain ⟨j, hj⟩ := List.getElem?_of_mem hx
    have hjn : j < n := by
      have := (List.getElem?_eq_some.1 hj).1
      omega
    have hstart : (Concurrent.init db n).calls[j]? = some .start := by
      simp [Concurrent.init, hjn]
    obtain ⟨c1, e1, e2⟩ := concurrent_run_phase schedule _ j _ hstart
    rw [hj] at e1
    have hx1 : x = c1 := Option.some.inj e1
    subst hx1
    have h2 := hsched j hjn
    have hph : 2 ≤ Call.phase x := by
      change min 2 (0 + List.count j schedule) ≤ Call.phase x at e2
      omega
    rcases hall x hx with rfl | rfl | ⟨v, rfl⟩
    · simp [Call.phase] at hph
    · simp [Call.phase] at hph
    · rfl

theorem C25_interleaved_calls_return_distinct_values_witness :
    ((Concurrent.init freshStore 3).run [0, 1, 2, 2, 0, 1]).returnedValues.Nodup ∧
      ((Concurrent.init freshStore 3).run [0, 1, 2, 2, 0, 1]).returnedValues.length = 3 :=
  have h := C25_interleaved_calls_return_distinct_values freshStore 3 [0, 1, 2, 2, 0, 1]
    (fun V h => by
      have h1 : V = 1 := (Option.some.inj h).symm
      subst h1
      decide)
  ⟨h.1, h.2 (by decide) (by decide)⟩

end IssueSheetApp
